import Mathlib

/-!
Verification development for the minimalloc static memory allocator.

The definitions below are a shallow embedding of the C++ sources:
`src/minimalloc.{h,cc}` (domain model, `Buffer::effective_size`,
`Problem::strip_solution`), `src/validator.cc` (`Validate`),
`src/sweeper.{h,cc}` (`CreatePoints`, `Sweep`, `SweepResult::CalculateCuts`),
`src/solver.{h,cc}` (the branch-and-bound solver and the capacity
binary search) and `src/converter.cc` (`ToCsv` / `FromCsv`).

Machine integers (`int64_t`) are modelled as `Int`; the programs never
rely on wrap-around in the regions covered by the theorems.  C++
`std::vector` becomes `List`, `absl::flat_hash_set` becomes `Finset`
(its iteration order is only ever used in order-insensitive ways by the
embedded code paths), `std::optional` becomes `Option`, and
`absl::StatusOr` becomes `Except`.  `std::sort` is modelled with
`List.insertionSort`: wherever a theorem depends on the sorted order,
well-formedness hypotheses make all comparator keys distinct, so every
conforming sort produces the same list.
-/

namespace MM

/-- Interval, from minimalloc.h (`template <typename T> struct Interval`),
here at `T = int64_t`; half-open `[lower, upper)`. -/
structure Interval where
  lower : Int
  upper : Int
deriving DecidableEq, Repr

/-- Gap, from minimalloc.h: a lifespan slot where a buffer is inactive,
with an optional window restricting the space consumed within the gap. -/
structure Gap where
  lifespan : Interval
  window : Option Interval := none
deriving DecidableEq, Repr

/-- Buffer, from minimalloc.h. -/
structure Buffer where
  id : String := ""
  lifespan : Interval
  size : Int := 0
  alignment : Int := 1
  gaps : List Gap := []
  offset : Option Int := none
  hint : Option Int := none
deriving DecidableEq, Repr

/-- Solution, from minimalloc.h. -/
structure Solution where
  offsets : List Int := []
  height : Int := 0
deriving DecidableEq, Repr

/-- Problem, from minimalloc.h. -/
structure Problem where
  buffers : List Buffer := []
  capacity : Int := 0
deriving DecidableEq, Repr

/-- Buffer::operator== from minimalloc.cc: compares id, lifespan, size,
alignment, offset and gaps, but NOT the hint. -/
def Buffer.eqCc (a x : Buffer) : Prop :=
  a.id = x.id ∧ a.lifespan = x.lifespan ∧ a.size = x.size ∧
  a.alignment = x.alignment ∧ a.offset = x.offset ∧ a.gaps = x.gaps

instance : DecidablePred (fun p : Buffer × Buffer => p.1.eqCc p.2) := fun _ => by
  unfold Buffer.eqCc; infer_instance

instance (a x : Buffer) : Decidable (a.eqCc x) := by
  unfold Buffer.eqCc; infer_instance

/-- Problem::operator== from minimalloc.cc: buffer-wise `Buffer::operator==`
plus equal capacity. -/
def Problem.eqCc (p x : Problem) : Prop :=
  List.Forall₂ Buffer.eqCc p.buffers x.buffers ∧ p.capacity = x.capacity

instance (p x : Problem) : Decidable (p.eqCc x) := by
  unfold Problem.eqCc; infer_instance

/-- Buffer::area from minimalloc.cc. -/
def Buffer.area (b : Buffer) : Int :=
  b.size * (b.lifespan.upper - b.lifespan.lower)

/-! ### Buffer::effective_size (minimalloc.cc)

The windowed sweep from `Buffer::effective_size`:  the four enum values of
the local `PointType` (`kLeft = 0`, `kRightGap = 1`, `kLeftGap = 2`,
`kRight = 3`) and `Point::operator<` (time, then point type, then buffer
index) are reproduced exactly. -/

/-- PointType of the anonymous namespace of minimalloc.cc, with the enum
values giving the comparison rank. -/
inductive ESType where
  | kLeft
  | kRightGap
  | kLeftGap
  | kRight
deriving DecidableEq, Repr

/-- Numeric value of the C++ enum `PointType` in minimalloc.cc. -/
def ESType.rank : ESType → Int
  | .kLeft => 0
  | .kRightGap => 1
  | .kLeftGap => 2
  | .kRight => 3

/-- Point of the anonymous namespace of minimalloc.cc. -/
structure ESPoint where
  bufferIdx : Nat
  timeValue : Int
  pointType : ESType
  window : Option Interval
deriving DecidableEq, Repr

/-- Point::operator< from minimalloc.cc: order by time, then point type,
then buffer index. -/
def esLT (a b : ESPoint) : Prop :=
  a.timeValue < b.timeValue ∨
    (a.timeValue = b.timeValue ∧
      (a.pointType.rank < b.pointType.rank ∨
        (a.pointType.rank = b.pointType.rank ∧ (a.bufferIdx : Int) < b.bufferIdx)))

instance (a b : ESPoint) : Decidable (esLT a b) := by
  unfold esLT; infer_instance

/-- The non-strict order induced by `Point::operator<`; `std::sort`
produces a sequence that is `List.Sorted esLE`. -/
def esLE (a b : ESPoint) : Prop := ¬ esLT b a

instance (a b : ESPoint) : Decidable (esLE a b) := by
  unfold esLE; infer_instance

theorem esLE_unfold (a b : ESPoint) :
    esLE a b ↔ (a.timeValue < b.timeValue ∨
      (a.timeValue = b.timeValue ∧
        (a.pointType.rank < b.pointType.rank ∨
          (a.pointType.rank = b.pointType.rank ∧ (a.bufferIdx : Int) ≤ b.bufferIdx)))) := by
  unfold esLE esLT
  constructor
  · intro h
    rcases lt_trichotomy a.timeValue b.timeValue with ht | ht | ht
    · exact Or.inl ht
    · refine Or.inr ⟨ht, ?_⟩
      rcases lt_trichotomy a.pointType.rank b.pointType.rank with hr | hr | hr
      · exact Or.inl hr
      · refine Or.inr ⟨hr, ?_⟩
        by_contra hb
        exact h (Or.inr ⟨ht.symm, Or.inr ⟨hr.symm, by omega⟩⟩)
      · exact absurd (Or.inr ⟨ht.symm, Or.inl hr⟩) h
    · exact absurd (Or.inl ht) h
  · intro h hc
    rcases h with h | ⟨ht, h⟩
    · rcases hc with hc | ⟨hc, _⟩ <;> omega
    · rcases hc with hc | ⟨_, hc⟩
      · omega
      · rcases h with h | ⟨hr, h⟩ <;> rcases hc with hc | ⟨hc, hc2⟩ <;> omega

instance : IsTotal ESPoint esLE := by
  constructor
  intro a b
  by_cases h : esLT b a
  · right
    rw [esLE_unfold]
    unfold esLT at h
    rcases h with h | ⟨ht, h⟩
    · exact Or.inl h
    · refine Or.inr ⟨ht, ?_⟩
      rcases h with h | ⟨hr, h⟩
      · exact Or.inl h
      · exact Or.inr ⟨hr, le_of_lt h⟩
  · exact Or.inl h

instance : IsTrans ESPoint esLE := by
  constructor
  intro a b c hab hbc
  rw [esLE_unfold] at hab hbc ⊢
  rcases hab with h1 | ⟨ht1, h1⟩ <;> rcases hbc with h2 | ⟨ht2, h2⟩
  · exact Or.inl (lt_trans h1 h2)
  · exact Or.inl (by omega)
  · exact Or.inl (by omega)
  · refine Or.inr ⟨by omega, ?_⟩
    rcases h1 with h1 | ⟨hr1, h1⟩ <;> rcases h2 with h2 | ⟨hr2, h2⟩
    · exact Or.inl (by omega)
    · exact Or.inl (by omega)
    · exact Or.inl (by omega)
    · exact Or.inr ⟨by omega, by omega⟩

/-- Fold state of the sweep inside `Buffer::effective_size`:
`windows[0]`, `windows[1]`, the running `effective_size` and `last_time`. -/
structure ESState where
  w0 : Option Interval
  w1 : Option Interval
  eff : Option Int
  lastTime : Option Int
deriving DecidableEq, Repr

/-- One iteration of the `for (const Point& point : points)` loop of
`Buffer::effective_size`. -/
def esStep (s : ESState) (p : ESPoint) : ESState :=
  let eff :=
    match s.lastTime with
    | none => s.eff
    | some lt =>
      if lt < p.timeValue then
        match s.w0, s.w1 with
        | some wa, some wb =>
          let diff := wa.upper - wb.lower
          match s.eff with
          | none => some diff
          | some e => if e < diff then some diff else some e
        | _, _ => s.eff
      else s.eff
  if p.bufferIdx = 0 then
    { w0 := p.window, w1 := s.w1, eff := eff, lastTime := some p.timeValue }
  else
    { w0 := s.w0, w1 := p.window, eff := eff, lastTime := some p.timeValue }

/-- The unsorted point list built by `Buffer::effective_size` (buffer 0 is
`self`, buffer 1 is `x`). -/
def esPoints (a x : Buffer) : List ESPoint :=
  [⟨0, a.lifespan.lower, .kLeft, some ⟨0, a.size⟩⟩,
   ⟨0, a.lifespan.upper, .kRight, none⟩,
   ⟨1, x.lifespan.lower, .kLeft, some ⟨0, x.size⟩⟩,
   ⟨1, x.lifespan.upper, .kRight, none⟩]
  ++ a.gaps.flatMap (fun g =>
      [⟨0, g.lifespan.lower, .kRightGap, g.window⟩,
       ⟨0, g.lifespan.upper, .kLeftGap, some ⟨0, a.size⟩⟩])
  ++ x.gaps.flatMap (fun g =>
      [⟨1, g.lifespan.lower, .kRightGap, g.window⟩,
       ⟨1, g.lifespan.upper, .kLeftGap, some ⟨0, x.size⟩⟩])

/-- Buffer::effective_size from minimalloc.cc (the windowed version). -/
def Buffer.effective_size (a x : Buffer) : Option Int :=
  if a.lifespan.upper ≤ x.lifespan.lower then none
  else if x.lifespan.upper ≤ a.lifespan.lower then none
  else
    ((esPoints a x).insertionSort esLE).foldl esStep ⟨none, none, none, none⟩ |>.eff

/-! ### Problem::strip_solution (minimalloc.cc) -/

/-- The loop of `Problem::strip_solution`: walks the buffers, collecting
each offset and clearing it; the first buffer without an offset aborts the
walk with an error, leaving that buffer and all later ones untouched. -/
def stripLoop : List Buffer → Except String (List Int) × List Buffer
  | [] => (.ok [], [])
  | b :: rest =>
    match b.offset with
    | none => (.error "Buffer found with no offset", b :: rest)
    | some o =>
      match stripLoop rest with
      | (.ok offs, bufs) => (.ok (o :: offs), { b with offset := none } :: bufs)
      | (.error e, bufs) => (.error e, { b with offset := none } :: bufs)

/-- Problem::strip_solution from minimalloc.cc.  The returned pair is the
status-or-solution together with the mutated problem. -/
def Problem.strip_solution (p : Problem) :
    Except String Solution × Problem :=
  let r := stripLoop p.buffers
  (r.1.map (fun offs => { offsets := offs, height := 0 }),
   { p with buffers := r.2 })

/-! ### Validate (validator.cc, the variant with the height checks) -/

/-- ValidationResult from validator.h. -/
inductive ValidationResult where
  | kGood
  | kBadSolution
  | kBadFixed
  | kBadOffset
  | kBadOverlap
  | kBadAlignment
  | kBadHeight
deriving DecidableEq, Repr

/-- The first loop of `Validate`: per-buffer checks of fixed offsets,
bounds, height and alignment, threading `max_height`; returns the final
`max_height` on success, or the early error result. -/
def validateLoop (capacity : Int) (solHeight : Int) :
    List (Buffer × Int) → Int → Except ValidationResult Int
  | [], maxHeight => .ok maxHeight
  | (buffer, offset) :: rest, maxHeight =>
    let height := offset + buffer.size
    let maxHeight := max maxHeight height
    if buffer.offset.isSome ∧ buffer.offset ≠ some offset then .error .kBadFixed
    else if offset < 0 then .error .kBadOffset
    else if capacity < height then .error .kBadOffset
    else if solHeight < height then .error .kBadHeight
    else if ¬ offset % buffer.alignment = 0 then .error .kBadAlignment
    else validateLoop capacity solHeight rest maxHeight

/-- The pairwise overlap test of `Validate`'s second loop, for one ordered
pair `(i, j)` with `i < j`: the pair is in conflict unless one of the two
`continue` guards fires. -/
def overlapConflict (bi : Buffer) (oi : Int) (bj : Buffer) (oj : Int) : Prop :=
  (∃ si, bi.effective_size bj = some si ∧ oj < oi + si) ∧
  (∃ sj, bj.effective_size bi = some sj ∧ oi < oj + sj)

instance (bi : Buffer) (oi : Int) (bj : Buffer) (oj : Int) :
    Decidable (overlapConflict bi oi bj oj) := by
  unfold overlapConflict
  have : ∀ (b c : Buffer) (o q : Int),
      Decidable (∃ s, b.effective_size c = some s ∧ q < o + s) := by
    intro b c o q
    cases h : b.effective_size c with
    | none => exact isFalse (by simp [h])
    | some s =>
      exact decidable_of_iff (q < o + s) (by simp [h])
  exact @instDecidableAnd _ _ (this ..) (this ..)

/-- The second loop of `Validate`: the O(n²) overlap scan. -/
def validatePairs : List (Buffer × Int) → Bool
  | [] => true
  | (bi, oi) :: rest =>
    (rest.all fun (bj, oj) => decide (¬ overlapConflict bi oi bj oj)) &&
    validatePairs rest

/-- Validate from validator.cc (the version that also reports
`kBadHeight`). -/
def Validate (problem : Problem) (solution : Solution) : ValidationResult :=
  if problem.buffers.length ≠ solution.offsets.length then .kBadSolution
  else
    match validateLoop problem.capacity solution.height
        (problem.buffers.zip solution.offsets) 0 with
    | .error r => r
    | .ok maxHeight =>
      if maxHeight ≠ solution.height then .kBadHeight
      else if validatePairs (problem.buffers.zip solution.offsets) then .kGood
      else .kBadOverlap

end MM

namespace MM

/-! ## Claim C9: Problem::strip_solution -/

/-- A buffer with its offset cleared (`buffer.offset.reset()`). -/
def clearOffset (b : Buffer) : Buffer := { b with offset := none }


theorem clearOffset_def (b : Buffer) :
    clearOffset b = { b with offset := none } := rfl

theorem stripLoop_error_iff (l : List Buffer) :
    (∃ e, (stripLoop l).1 = .error e) ↔ ∃ b ∈ l, b.offset = none := by
  induction l with
  | nil => simp [stripLoop]
  | cons b rest ih =>
    cases hb : b.offset with
    | none => simp [stripLoop, hb]
    | some o =>
      cases hsl : stripLoop rest with
      | mk r1 r2 =>
        simp only [hsl] at ih
        cases r1 with
        | ok offs =>
          simp only [stripLoop, hb, hsl]
          simp at ih ⊢
          exact ⟨by simp [hb], ih⟩
        | error e' =>
          simp only [stripLoop, hb, hsl]
          simp at ih ⊢
          exact Or.inr ih

theorem stripLoop_ok (l : List Buffer) (offs : List Int)
    (h : (stripLoop l).1 = .ok offs) :
    offs.map some = l.map Buffer.offset ∧
    (stripLoop l).2 = l.map clearOffset := by
  induction l generalizing offs with
  | nil =>
    simp [stripLoop] at h
    simp [stripLoop, ← h]
  | cons b rest ih =>
    cases hb : b.offset with
    | none => simp [stripLoop, hb] at h
    | some o =>
      cases hsl : stripLoop rest with
      | mk r1 r2 =>
        cases r1 with
        | ok offs' =>
          simp only [stripLoop, hb, hsl] at h ⊢
          simp at h
          obtain ⟨hmap, hrest⟩ := ih offs' (by rw [hsl])
          rw [hsl] at hrest
          simp at hrest
          subst h
          refine ⟨by simp [hb, hmap], ?_⟩
          simp [hrest, clearOffset]
        | error e' => simp [stripLoop, hb, hsl] at h

theorem stripLoop_error (l : List Buffer)
    (h : (stripLoop l).1.isOk = false) :
    (stripLoop l).2 =
      (l.take (l.findIdx (fun b => b.offset.isNone))).map clearOffset ++
        l.drop (l.findIdx (fun b => b.offset.isNone)) := by
  induction l with
  | nil => simp [stripLoop, Except.isOk, Except.toBool] at h
  | cons b rest ih =>
    cases hb : b.offset with
    | none =>
      simp [stripLoop, hb, List.findIdx_cons, Option.isNone]
    | some o =>
      cases hsl : stripLoop rest with
      | mk r1 r2 =>
        cases r1 with
        | ok offs' =>
          simp [stripLoop, hb, hsl, Except.isOk, Except.toBool] at h
        | error e' =>
          have hrec := ih (by rw [hsl]; rfl)
          rw [hsl] at hrec
          simp only at hrec
          simp only [stripLoop, hb, hsl, List.findIdx_cons, Option.isNone_some,
            cond_false, List.take_succ_cons, List.map_cons,
            List.drop_succ_cons, List.cons_append]
          rw [hrec, clearOffset_def]

/-- C9.  `Problem::strip_solution` errors (with `absl::NotFoundError`)
exactly when some buffer has no offset; on success it returns the former
offsets in problem order and clears every offset; on the error path the
buffers before the first offset-less buffer have already been cleared and
the rest are untouched (the mutation is not atomic). -/
theorem strip_solution_spec (p : Problem) :
    ((∃ e, p.strip_solution.1 = .error e) ↔ ∃ b ∈ p.buffers, b.offset = none) ∧
    (∀ s, p.strip_solution.1 = .ok s →
      s.offsets.map some = p.buffers.map Buffer.offset ∧
      p.strip_solution.2.buffers = p.buffers.map clearOffset ∧
      p.strip_solution.2.capacity = p.capacity) ∧
    (∀ e, p.strip_solution.1 = .error e →
      p.strip_solution.2.buffers =
        (p.buffers.take (p.buffers.findIdx (fun b => b.offset.isNone))).map
          clearOffset ++
        p.buffers.drop (p.buffers.findIdx (fun b => b.offset.isNone)) ∧
      p.strip_solution.2.capacity = p.capacity) := by
  refine ⟨?_, ?_, ?_⟩
  · rw [← stripLoop_error_iff]
    unfold Problem.strip_solution
    cases hr : (stripLoop p.buffers).1 with
    | ok v => simp [hr, Except.map]
    | error e' => simp [hr, Except.map]
  · intro s hs
    unfold Problem.strip_solution at hs
    cases hr : (stripLoop p.buffers).1 with
    | ok v =>
      simp only [hr, Except.map] at hs
      obtain ⟨hmap, hrest⟩ := stripLoop_ok p.buffers v hr
      injection hs with hs
      refine ⟨by rw [← hs]; exact hmap, ?_, rfl⟩
      simp [Problem.strip_solution, hrest]
    | error e' => simp only [hr, Except.map] at hs; cases hs
  · intro e he
    unfold Problem.strip_solution at he
    cases hr : (stripLoop p.buffers).1 with
    | ok v => simp only [hr, Except.map] at he; cases he
    | error e' =>
      refine ⟨?_, rfl⟩
      simp [Problem.strip_solution, stripLoop_error p.buffers (by rw [hr]; rfl)]

/-- Witness for C9 at a concrete problem: two buffers, the second without
an offset, so stripping fails; the theorem's error characterisation is
applied at that input. -/
theorem strip_solution_spec_witness :
    ∃ b ∈ ({ buffers := [{ lifespan := ⟨0, 1⟩, size := 2, offset := some 3 },
                         { lifespan := ⟨1, 2⟩, size := 3 }],
             capacity := 5 } : Problem).buffers, b.offset = none := by
  have h := strip_solution_spec
    { buffers := [{ lifespan := ⟨0, 1⟩, size := 2, offset := some 3 },
                  { lifespan := ⟨1, 2⟩, size := 3 }], capacity := 5 }
  exact h.1.mp ⟨"Buffer found with no offset", rfl⟩

/-! ## Claim C8: Validate and kBadHeight -/

/-- The running `max_height` accumulator of `Validate`'s first loop. -/
def maxHeightFold : List (Buffer × Int) → Int → Int
  | [], m => m
  | pr :: rest, m => maxHeightFold rest (max m (pr.2 + pr.1.size))

theorem maxHeightFold_le (l : List (Buffer × Int)) (m : Int) :
    m ≤ maxHeightFold l m := by
  induction l generalizing m with
  | nil => simp [maxHeightFold]
  | cons pr rest ih =>
    calc m ≤ max m (pr.2 + pr.1.size) := le_max_left _ _
    _ ≤ maxHeightFold rest (max m (pr.2 + pr.1.size)) := ih _
    _ = maxHeightFold (pr :: rest) m := rfl

theorem maxHeightFold_mem (l : List (Buffer × Int)) (m : Int)
    (pr : Buffer × Int) (hmem : pr ∈ l) :
    pr.2 + pr.1.size ≤ maxHeightFold l m := by
  induction l generalizing m with
  | nil => cases hmem
  | cons q rest ih =>
    rcases List.mem_cons.mp hmem with h | h
    · subst h
      calc pr.2 + pr.1.size ≤ max m (pr.2 + pr.1.size) := le_max_right _ _
      _ ≤ maxHeightFold rest _ := maxHeightFold_le _ _
    · exact ih _ h

theorem validateLoop_good (cap solHeight : Int) (l : List (Buffer × Int)) (m : Int)
    (hok : ∀ pr ∈ l, (pr.1.offset.isSome → pr.1.offset = some pr.2) ∧
      0 ≤ pr.2 ∧ pr.2 + pr.1.size ≤ cap ∧ pr.2 % pr.1.alignment = 0) :
    validateLoop cap solHeight l m =
      if ∀ pr ∈ l, pr.2 + pr.1.size ≤ solHeight then .ok (maxHeightFold l m)
      else .error .kBadHeight := by
  induction l generalizing m with
  | nil => simp [validateLoop, maxHeightFold]
  | cons pr rest ih =>
    obtain ⟨hfix, hnn, hcap, hal⟩ := hok pr (List.mem_cons_self _ _)
    have hok' : ∀ q ∈ rest, (q.1.offset.isSome → q.1.offset = some q.2) ∧
        0 ≤ q.2 ∧ q.2 + q.1.size ≤ cap ∧ q.2 % q.1.alignment = 0 :=
      fun q hq => hok q (List.mem_cons_of_mem _ hq)
    obtain ⟨b, o⟩ := pr
    simp only at hfix hnn hcap hal
    have h1 : ¬ (b.offset.isSome ∧ b.offset ≠ some o) := by
      rintro ⟨hs, hne⟩
      exact hne (hfix hs)
    have h2 : ¬ o < 0 := not_lt.mpr hnn
    have h3 : ¬ cap < o + b.size := not_lt.mpr hcap
    have h5 : ¬ ¬ o % b.alignment = 0 := not_not_intro hal
    by_cases h4 : solHeight < o + b.size
    · have hnall : ¬ ∀ q ∈ (b, o) :: rest, q.2 + q.1.size ≤ solHeight := by
        intro hall
        exact absurd (hall (b, o) (List.mem_cons_self _ _)) (not_le.mpr h4)
      simp only [validateLoop, h1, if_false, h2, h3, h4, if_true, hnall]
    · have hle : o + b.size ≤ solHeight := not_lt.mp h4
      have hiff : (∀ q ∈ (b, o) :: rest, q.2 + q.1.size ≤ solHeight) ↔
          (∀ q ∈ rest, q.2 + q.1.size ≤ solHeight) := by
        constructor
        · intro hall q hq
          exact hall q (List.mem_cons_of_mem _ hq)
        · intro hall q hq
          rcases List.mem_cons.mp hq with h | h
          · subst h; exact hle
          · exact hall q h
      simp only [validateLoop, h1, if_false, h2, h3, h4, h5, ih _ hok',
        maxHeightFold, hiff]

theorem validatePairs_iff (l : List (Buffer × Int)) :
    validatePairs l = true ↔
      List.Pairwise (fun a b : Buffer × Int =>
        ¬ overlapConflict a.1 a.2 b.1 b.2) l := by
  induction l with
  | nil => simp [validatePairs]
  | cons pr rest ih =>
    obtain ⟨b, o⟩ := pr
    simp [validatePairs, List.pairwise_cons, ih, List.all_eq_true,
      and_comm]

/-- C8.  When the offset count matches and every buffer's offset is
nonnegative, within capacity, aligned and consistent with its fixed
offset, and no two buffers conflict in space-time, `Validate` returns
`kBadHeight` exactly when `solution.height` differs from the maximum of
`offset + size` over the buffers (taking that maximum to start from 0, as
the code's `max_height` accumulator does), and `kGood` otherwise. -/
theorem validate_height_spec (p : Problem) (s : Solution)
    (hlen : p.buffers.length = s.offsets.length)
    (hok : ∀ pr ∈ p.buffers.zip s.offsets,
      (pr.1.offset.isSome → pr.1.offset = some pr.2) ∧
      0 ≤ pr.2 ∧ pr.2 + pr.1.size ≤ p.capacity ∧ pr.2 % pr.1.alignment = 0)
    (hpair : List.Pairwise (fun a b : Buffer × Int =>
      ¬ overlapConflict a.1 a.2 b.1 b.2) (p.buffers.zip s.offsets)) :
    (Validate p s = .kBadHeight ↔
      s.height ≠ maxHeightFold (p.buffers.zip s.offsets) 0) ∧
    (Validate p s = .kGood ↔
      s.height = maxHeightFold (p.buffers.zip s.offsets) 0) := by
  have hloop := validateLoop_good p.capacity s.height
    (p.buffers.zip s.offsets) 0 hok
  have hpairs := (validatePairs_iff (p.buffers.zip s.offsets)).mpr hpair
  by_cases hall : ∀ pr ∈ p.buffers.zip s.offsets,
      pr.2 + pr.1.size ≤ s.height
  · rw [if_pos hall] at hloop
    by_cases hh : maxHeightFold (p.buffers.zip s.offsets) 0 = s.height
    · have hval : Validate p s = .kGood := by
        unfold Validate
        simp only [hloop]
        rw [if_neg (by omega), if_neg (by simpa using hh), if_pos hpairs]
      rw [hval]
      constructor
      · constructor
        · intro h; cases h
        · intro h; exact absurd hh.symm h
      · constructor
        · intro _; exact hh.symm
        · intro _; rfl
    · have hval : Validate p s = .kBadHeight := by
        unfold Validate
        simp only [hloop]
        rw [if_neg (by omega), if_pos (by simpa using hh)]
      rw [hval]
      constructor
      · constructor
        · intro _; exact fun hc => hh hc.symm
        · intro _; rfl
      · constructor
        · intro h; cases h
        · intro h; exact absurd h.symm hh
  · rw [if_neg hall] at hloop
    have hval : Validate p s = .kBadHeight := by
      unfold Validate
      simp only [hloop]
      rw [if_neg (by omega)]
    push_neg at hall
    obtain ⟨pr, hmem, hgt⟩ := hall
    have hmax := maxHeightFold_mem (p.buffers.zip s.offsets) 0 pr hmem
    have hne : s.height ≠ maxHeightFold (p.buffers.zip s.offsets) 0 := by
      omega
    rw [hval]
    constructor
    · constructor
      · intro _; exact hne
      · intro _; rfl
    · constructor
      · intro h; cases h
      · intro h; exact absurd h hne

/-- Witness for C8 at a concrete input: two overlapping buffers placed at
offsets 0 and 2 with correct height 5. -/
theorem validate_height_spec_witness :
    Validate { buffers := [{ lifespan := ⟨0, 2⟩, size := 2 },
                           { lifespan := ⟨1, 3⟩, size := 3 }], capacity := 5 }
        { offsets := [0, 2], height := 5 } = .kGood := by
  have h := validate_height_spec
    { buffers := [{ lifespan := ⟨0, 2⟩, size := 2 },
                  { lifespan := ⟨1, 3⟩, size := 3 }], capacity := 5 }
    { offsets := [0, 2], height := 5 }
    (by decide) (by decide) (by decide)
  exact h.2.mpr (by decide)
/-! ## Sweeper embedding (sweeper.h / sweeper.cc)

Sections are `absl::flat_hash_set<BufferIdx>`; they are modelled as
ascending duplicate-free lists of indices (the canonical representation
of the finite set).  The overlap sets are `absl::btree_set<Overlap>`,
which iterate in `Overlap::operator<` order (buffer index, then effective
size); they are modelled as lists sorted by that order.  The only
iteration over a hash set inside `Sweep` is the overlap-recording walk
over `alive`, whose net effect (insertions into overlap sets) is
independent of the iteration order, so walking the canonical list is
faithful. -/

/-- Ordered duplicate-free insertion: the set-insert of
`absl::flat_hash_set<BufferIdx>` on the canonical representation. -/
def sinsert (x : Nat) : List Nat → List Nat
  | [] => [x]
  | y :: ys => if x < y then x :: y :: ys else if x = y then y :: ys
               else y :: sinsert x ys

/-- Set-erase of `absl::flat_hash_set<BufferIdx>` on the canonical
representation. -/
def serase (x : Nat) : List Nat → List Nat
  | [] => []
  | y :: ys => if x = y then ys else y :: serase x ys

/-- Overlap::operator< from sweeper.cc: buffer index, then effective
size. -/
def ovLT (a b : Nat × Int) : Bool :=
  a.1 < b.1 || (a.1 == b.1 && a.2 < b.2)

/-- Ordered duplicate-free insertion into an overlap set
(`absl::btree_set<Overlap>`). -/
def ovInsert (x : Nat × Int) : List (Nat × Int) → List (Nat × Int)
  | [] => [x]
  | y :: ys => if ovLT x y then x :: y :: ys else if x = y then y :: ys
               else y :: ovInsert x ys

/-- SectionSpan from sweeper.h: a section range plus the window occupied
throughout it. -/
structure SectionSpan where
  sectionRange : Interval
  window : Interval
deriving DecidableEq, Repr

/-- Partition from sweeper.h. -/
structure Partition where
  bufferIdxs : List Nat := []
  sectionRange : Interval := ⟨0, 0⟩
deriving DecidableEq, Repr

/-- BufferData from sweeper.h: section spans plus the overlap set. -/
structure BufferData where
  sectionSpans : List SectionSpan := []
  overlaps : List (Nat × Int) := []
deriving DecidableEq, Repr

/-- SweepResult from sweeper.h. -/
structure SweepResult where
  sections : List (List Nat) := []
  partitions : List Partition := []
  buffer_data : List BufferData := []
deriving DecidableEq, Repr

/-- The sweeper's point type (sweeper.cc): `kRight = 0`, `kLeft = 1`. -/
inductive SPType where
  | kRight
  | kLeft
deriving DecidableEq, Repr

/-- Numeric value of the sweeper's `PointType` enum. -/
def SPType.rank : SPType → Int
  | .kRight => 0
  | .kLeft => 1

/-- Point from sweeper.cc (with `endpoint` marking true lifespan ends). -/
structure SweepPoint where
  bufferIdx : Nat
  timeValue : Int
  pointType : SPType
  window : Interval
  endpoint : Bool
deriving DecidableEq, Repr

/-- Point::operator< from sweeper.cc: time, then type (right before
left), then buffer index. -/
def spLT (a b : SweepPoint) : Prop :=
  a.timeValue < b.timeValue ∨
    (a.timeValue = b.timeValue ∧
      (a.pointType.rank < b.pointType.rank ∨
        (a.pointType.rank = b.pointType.rank ∧ (a.bufferIdx : Int) < b.bufferIdx)))

instance (a b : SweepPoint) : Decidable (spLT a b) := by
  unfold spLT; infer_instance

/-- Non-strict companion of `spLT`, the order `std::sort` establishes. -/
def spLE (a b : SweepPoint) : Prop := ¬ spLT b a

instance (a b : SweepPoint) : Decidable (spLE a b) := by
  unfold spLE; infer_instance

theorem spLE_unfold (a b : SweepPoint) :
    spLE a b ↔ (a.timeValue < b.timeValue ∨
      (a.timeValue = b.timeValue ∧
        (a.pointType.rank < b.pointType.rank ∨
          (a.pointType.rank = b.pointType.rank ∧ (a.bufferIdx : Int) ≤ b.bufferIdx)))) := by
  unfold spLE spLT
  constructor
  · intro h
    rcases lt_trichotomy a.timeValue b.timeValue with ht | ht | ht
    · exact Or.inl ht
    · refine Or.inr ⟨ht, ?_⟩
      rcases lt_trichotomy a.pointType.rank b.pointType.rank with hr | hr | hr
      · exact Or.inl hr
      · refine Or.inr ⟨hr, ?_⟩
        by_contra hb
        exact h (Or.inr ⟨ht.symm, Or.inr ⟨hr.symm, by omega⟩⟩)
      · exact absurd (Or.inr ⟨ht.symm, Or.inl hr⟩) h
    · exact absurd (Or.inl ht) h
  · intro h hc
    rcases h with h | ⟨ht, h⟩
    · rcases hc with hc | ⟨hc, _⟩ <;> omega
    · rcases hc with hc | ⟨_, hc⟩
      · omega
      · rcases h with h | ⟨hr, h⟩ <;> rcases hc with hc | ⟨hc, hc2⟩ <;> omega

instance : IsTotal SweepPoint spLE := by
  constructor
  intro a b
  by_cases h : spLT b a
  · right
    rw [spLE_unfold]
    unfold spLT at h
    rcases h with h | ⟨ht, h⟩
    · exact Or.inl h
    · refine Or.inr ⟨ht, ?_⟩
      rcases h with h | ⟨hr, h⟩
      · exact Or.inl h
      · exact Or.inr ⟨hr, le_of_lt h⟩
  · exact Or.inl h

instance : IsTrans SweepPoint spLE := by
  constructor
  intro a b c hab hbc
  rw [spLE_unfold] at hab hbc ⊢
  rcases hab with h1 | ⟨ht1, h1⟩ <;> rcases hbc with h2 | ⟨ht2, h2⟩
  · exact Or.inl (lt_trans h1 h2)
  · exact Or.inl (by omega)
  · exact Or.inl (by omega)
  · refine Or.inr ⟨by omega, ?_⟩
    rcases h1 with h1 | ⟨hr1, h1⟩ <;> rcases h2 with h2 | ⟨hr2, h2⟩
    · exact Or.inl (by omega)
    · exact Or.inl (by omega)
    · exact Or.inl (by omega)
    · exact Or.inr ⟨by omega, by omega⟩

instance : Inhabited Buffer := ⟨{ lifespan := ⟨0, 0⟩ }⟩

/-- One iteration of the gap loop of `CreatePoints` (sweeper.cc),
carrying the emitted points, the pending first point and the current
window.  In the branch for a gap without a window the C++ code
dereferences the pending `std::optional<Point>` unconditionally, which is
undefined when a previous gap already consumed it; the embedding pushes
nothing in that (undefined) situation. -/
def gapPointsStep (bufferIdx : Nat) (buffer : Buffer)
    (st : List SweepPoint × Option SweepPoint × Interval) (g : Gap) :
    List SweepPoint × Option SweepPoint × Interval :=
  let pts := st.1
  let pending := st.2.1
  let window := st.2.2
  match g.window with
  | some gw =>
    let flushed : List SweepPoint × Bool :=
      match pending with
      | some pt =>
        if pt.timeValue < g.lifespan.lower then
          (pts ++ [pt, ⟨bufferIdx, g.lifespan.lower, .kRight, window, false⟩],
           false)
        else (pts, true)
      | none => (pts, false)
    let pts := flushed.1 ++ [⟨bufferIdx, g.lifespan.lower, .kLeft, gw, flushed.2⟩]
    if g.lifespan.upper = buffer.lifespan.upper then
      (pts, none, gw)
    else
      (pts ++ [⟨bufferIdx, g.lifespan.upper, .kRight, gw, false⟩,
               ⟨bufferIdx, g.lifespan.upper, .kLeft, window, false⟩],
       none, window)
  | none =>
    let pts := pts ++ (match pending with | some pt => [pt] | none => [])
    (pts ++ [⟨bufferIdx, g.lifespan.lower, .kRight, window, false⟩,
             ⟨bufferIdx, g.lifespan.upper, .kLeft, window, false⟩],
     none, window)

/-- The per-buffer point emission of `CreatePoints` (sweeper.cc). -/
def createPointsFor (bufferIdx : Nat) (buffer : Buffer) : List SweepPoint :=
  let window : Interval := ⟨0, buffer.size⟩
  let st := buffer.gaps.foldl (gapPointsStep bufferIdx buffer)
    ([], some ⟨bufferIdx, buffer.lifespan.lower, .kLeft, window, true⟩, window)
  let pts := st.1 ++ (match st.2.1 with | some pt => [pt] | none => [])
  pts ++ [⟨bufferIdx, buffer.lifespan.upper, .kRight, st.2.2, true⟩]

/-- CreatePoints from sweeper.cc: all buffers' points, sorted. -/
def CreatePoints (problem : Problem) : List SweepPoint :=
  ((problem.buffers.enum.flatMap fun pr => createPointsFor pr.1 pr.2)).insertionSort spLE

/-- Mutation of the last element of a vector (`v.back() = ...`); calling
`back()` on an empty vector is undefined in C++, and the embedding then
leaves the vector unchanged. -/
def updateLast (l : List α) (f : α → α) : List α :=
  match l.getLast? with
  | none => l
  | some x => l.dropLast ++ [f x]

/-- The loop state of `Sweep` (sweeper.cc). -/
structure SweepState where
  sections : List (List Nat)
  partitions : List Partition
  buffer_data : List BufferData
  actives : List Nat
  alive : List Nat
  lastSectionTime : Int
  lastSectionIdx : Int
  idxToStart : List Int

/-- Overlap recording against one alive buffer (sweeper.cc): effective
sizes in both directions go into the two buffers' overlap sets.  Only
`buffer_data` changes. -/
def ovStep (problem : Problem) (idx : Nat) (st : SweepState)
    (aliveIdx : Nat) : SweepState :=
  let buffer := problem.buffers.getD idx default
  let aliveBuf := problem.buffers.getD aliveIdx default
  let st :=
    match aliveBuf.effective_size buffer with
    | some es => { st with
        buffer_data := st.buffer_data.modify
          (fun bd => { bd with overlaps := ovInsert (idx, es) bd.overlaps })
          aliveIdx }
    | none => st
  match buffer.effective_size aliveBuf with
  | some es => { st with
      buffer_data := st.buffer_data.modify
        (fun bd => { bd with overlaps := ovInsert (aliveIdx, es) bd.overlaps })
        idx }
  | none => st

/-- The overlap-recording walk over `alive` at a left endpoint
(sweeper.cc). -/
def recordOverlaps (problem : Problem) (idx : Nat) (st : SweepState) :
    SweepState :=
  st.alive.foldl (ovStep problem idx) st

/-- One iteration of the point loop of `Sweep` (sweeper.cc). -/
def sweepStep (problem : Problem) (st : SweepState) (point : SweepPoint) :
    SweepState :=
  let idx := point.bufferIdx
  let st := if st.lastSectionTime = -1 then
    { st with lastSectionTime := point.timeValue } else st
  match point.pointType with
  | .kRight =>
    let st :=
      if st.lastSectionTime < point.timeValue then
        { st with lastSectionTime := point.timeValue,
                  sections := st.sections ++ [st.actives] }
      else st
    let st := { st with
      actives := serase idx st.actives,
      alive := if point.endpoint then serase idx st.alive else st.alive }
    let span : SectionSpan :=
      ⟨⟨st.idxToStart.getD idx (-1), (st.sections.length : Int)⟩, point.window⟩
    let st := { st with
      buffer_data := st.buffer_data.modify
        (fun bd => { bd with sectionSpans := bd.sectionSpans ++ [span] }) idx }
    if st.alive = [] then
      { st with
        partitions := updateLast st.partitions (fun pa =>
          { pa with sectionRange := ⟨st.lastSectionIdx, (st.sections.length : Int)⟩ }),
        lastSectionIdx := (st.sections.length : Int) }
    else st
  | .kLeft =>
    let st := if st.alive = [] then
      { st with partitions := st.partitions ++ [{}] } else st
    let st :=
      if point.endpoint then
        let st := { st with
          partitions := updateLast st.partitions (fun pa =>
            { pa with bufferIdxs := pa.bufferIdxs ++ [idx] }) }
        recordOverlaps problem idx st
      else st
    { st with
      actives := sinsert idx st.actives,
      alive := if point.endpoint then sinsert idx st.alive else st.alive,
      idxToStart := st.idxToStart.set idx (st.sections.length : Int) }

/-- Sweep from sweeper.cc. -/
def Sweep (problem : Problem) : SweepResult :=
  let n := problem.buffers.length
  let final := (CreatePoints problem).foldl (sweepStep problem)
    { sections := [], partitions := [],
      buffer_data := List.replicate n {},
      actives := [], alive := [],
      lastSectionTime := -1, lastSectionIdx := 0,
      idxToStart := List.replicate n (-1) }
  ⟨final.sections, final.partitions, final.buffer_data⟩

/-- Increment one (nonnegative, in-range) position of the cut vector;
out-of-range increments are undefined in C++ and leave the vector
unchanged here. -/
def incAt (cuts : List Int) (i : Int) : List Int :=
  if 0 ≤ i then cuts.set i.toNat (cuts.getD i.toNat 0 + 1) else cuts

/-- Structural runner for the cut-increment loop: performs `n` further
increments starting at index `s`. -/
def bumpCutsGo (cuts : List Int) (s : Int) : Nat → List Int
  | 0 => cuts
  | n + 1 => bumpCutsGo (incAt cuts s) (s + 1) n

/-- The inner loop of `CalculateCuts`: `for (s_idx = lo; s_idx + 1 < hi;
++s_idx) ++cuts[s_idx];`, which executes `max (hi - 1 - lo) 0` iterations. -/
def bumpCuts (cuts : List Int) (s hi : Int) : List Int :=
  bumpCutsGo cuts s (hi - 1 - s).toNat

/-- SweepResult::CalculateCuts from sweeper.cc: walks every buffer's span
list and increments every cut index from the first span's lower bound up
to the last span's upper bound (exclusive, minus one); `front()`/`back()`
of an empty span list is undefined in C++ and contributes nothing here. -/
def SweepResult.CalculateCuts (r : SweepResult) : List Int :=
  r.buffer_data.foldl
    (fun cuts bd =>
      match bd.sectionSpans.head?, bd.sectionSpans.getLast? with
      | some front, some back =>
        bumpCuts cuts front.sectionRange.lower back.sectionRange.upper
      | _, _ => cuts)
    (List.replicate (r.sections.length - 1) 0)

end MM

namespace MM

/-! ## Claim C3: SweepResult::CalculateCuts -/

/-- The enclosure test actually implemented by `CalculateCuts`: the
buffer's overall span range — from its FIRST span's lower bound to its
LAST span's upper bound — encloses the adjacent section pair `(k, k+1)`.
Holes between spans are ignored by the code. -/
def cutsCond (bd : BufferData) (k : Int) : Bool :=
  match bd.sectionSpans.head?, bd.sectionSpans.getLast? with
  | some front, some back =>
    decide (front.sectionRange.lower ≤ k) ∧ decide (k + 2 ≤ back.sectionRange.upper)
  | _, _ => false

/-- Number of buffers whose overall span range encloses the pair
`(k, k+1)`. -/
def enclosingRangeCount (r : SweepResult) (k : Int) : Nat :=
  r.buffer_data.countP (fun bd => cutsCond bd k)

/-- Modelled from the claim's words (for comparison with the code): the
number of buffers having SOME single section span with `lower ≤ k` and
`upper ≥ k + 2`. -/
def specSpanEnclosingCount (r : SweepResult) (k : Int) : Nat :=
  r.buffer_data.countP (fun bd =>
    bd.sectionSpans.any (fun sp =>
      decide (sp.sectionRange.lower ≤ k) && decide (k + 2 ≤ sp.sectionRange.upper)))

theorem incAt_length (cuts : List Int) (i : Int) :
    (incAt cuts i).length = cuts.length := by
  unfold incAt
  split <;> simp

theorem incAt_getD (cuts : List Int) (i : Int) (k : Nat) (hk : k < cuts.length) :
    (incAt cuts i).getD k 0 =
      cuts.getD k 0 + (if i = (k : Int) then 1 else 0) := by
  unfold incAt
  by_cases h0 : 0 ≤ i
  · rw [if_pos h0]
    by_cases hik : i.toNat = k
    · rw [if_pos (by omega : i = (k : Int))]
      rw [List.getD_eq_getElem?_getD, List.getElem?_set, if_pos hik,
        if_pos (by omega : i.toNat < cuts.length)]
      subst hik
      simp
    · rw [if_neg (by omega : ¬ i = (k : Int)), List.getD_eq_getElem?_getD,
        List.getElem?_set, if_neg hik, ← List.getD_eq_getElem?_getD]
      simp
  · rw [if_neg h0, if_neg (by omega : ¬ i = (k : Int))]
    simp

theorem bumpCutsGo_length (cuts : List Int) (s : Int) (n : Nat) :
    (bumpCutsGo cuts s n).length = cuts.length := by
  induction n generalizing cuts s with
  | zero => rfl
  | succ n ih => rw [bumpCutsGo, ih, incAt_length]

theorem bumpCutsGo_getD (n : Nat) (cuts : List Int) (s : Int) (k : Nat)
    (hk : k < cuts.length) :
    (bumpCutsGo cuts s n).getD k 0 =
      cuts.getD k 0 + (if s ≤ (k : Int) ∧ (k : Int) < s + n then 1 else 0) := by
  induction n generalizing cuts s with
  | zero => simp [bumpCutsGo]
  | succ n ih =>
    rw [bumpCutsGo, ih _ _ (by rw [incAt_length]; exact hk),
      incAt_getD _ _ _ hk]
    push_cast
    split_ifs <;> omega

theorem bumpCuts_length (cuts : List Int) (lo hi : Int) :
    (bumpCuts cuts lo hi).length = cuts.length := by
  unfold bumpCuts
  exact bumpCutsGo_length _ _ _

theorem bumpCuts_getD (cuts : List Int) (lo hi : Int) (k : Nat)
    (hk : k < cuts.length) :
    (bumpCuts cuts lo hi).getD k 0 =
      cuts.getD k 0 + (if lo ≤ (k : Int) ∧ (k : Int) + 2 ≤ hi then 1 else 0) := by
  unfold bumpCuts
  rw [bumpCutsGo_getD _ _ _ _ hk]
  congr 1
  have htn : ((hi - 1 - lo).toNat : Int) = max (hi - 1 - lo) 0 := by omega
  split_ifs with h1 h2 h2 <;> omega

/-- The per-buffer body of `CalculateCuts`. -/
def cutsStep (cuts : List Int) (bd : BufferData) : List Int :=
  match bd.sectionSpans.head?, bd.sectionSpans.getLast? with
  | some front, some back =>
    bumpCuts cuts front.sectionRange.lower back.sectionRange.upper
  | _, _ => cuts

theorem CalculateCuts_eq_foldl (r : SweepResult) :
    r.CalculateCuts =
      r.buffer_data.foldl cutsStep (List.replicate (r.sections.length - 1) 0) := rfl

theorem cutsStep_length (cuts : List Int) (bd : BufferData) :
    (cutsStep cuts bd).length = cuts.length := by
  unfold cutsStep
  split
  · exact bumpCuts_length _ _ _
  · rfl

theorem cuts_foldl_length (bds : List BufferData) (init : List Int) :
    (bds.foldl cutsStep init).length = init.length := by
  induction bds generalizing init with
  | nil => rfl
  | cons bd rest ih => rw [List.foldl_cons, ih, cutsStep_length]

theorem cutsStep_getD (cuts : List Int) (bd : BufferData) (k : Nat)
    (hk : k < cuts.length) :
    (cutsStep cuts bd).getD k 0 =
      cuts.getD k 0 + (if cutsCond bd (k : Int) then 1 else 0) := by
  unfold cutsStep cutsCond
  cases hh : bd.sectionSpans.head? with
  | none => simp
  | some front =>
    cases hl : bd.sectionSpans.getLast? with
    | none => simp
    | some back =>
      rw [bumpCuts_getD _ _ _ _ hk]
      congr 1
      split_ifs with h1 h2 h2 <;> first
        | rfl
        | (exfalso; revert h1; simp_all)

theorem cuts_foldl_getD (bds : List BufferData) (init : List Int) (k : Nat)
    (hk : k < init.length) :
    (bds.foldl cutsStep init).getD k 0 =
      init.getD k 0 + (bds.countP (fun bd => cutsCond bd (k : Int)) : Int) := by
  induction bds generalizing init with
  | nil => simp
  | cons bd rest ih =>
    rw [List.foldl_cons, ih _ (by rw [cutsStep_length]; exact hk),
      cutsStep_getD _ _ _ hk, List.countP_cons]
    push_cast
    split_ifs <;> omega

/-- C3 (amended).  For any problem whose sweep result has at least one
section and a nonempty span list per buffer (the situations in which the
C++ is defined), `CalculateCuts` returns a vector of length
`sections.size() - 1` whose element `k` is the number of buffers whose
OVERALL span range — first span's lower bound to last span's upper
bound — encloses the section pair `(k, k+1)`, i.e. `front.lower ≤ k` and
`back.upper ≥ k + 2`.  (The claim's per-span reading is refuted by
`calculate_cuts_cex` below.) -/
theorem calculate_cuts_spec (p : Problem)
    (hsec : (Sweep p).sections ≠ [])
    (hspans : ∀ bd ∈ (Sweep p).buffer_data, bd.sectionSpans ≠ []) :
    ((Sweep p).CalculateCuts).length = (Sweep p).sections.length - 1 ∧
    ∀ k : Nat, k < (Sweep p).sections.length - 1 →
      ((Sweep p).CalculateCuts).getD k 0 =
        (enclosingRangeCount (Sweep p) (k : Int) : Int) := by
  constructor
  · rw [CalculateCuts_eq_foldl, cuts_foldl_length, List.length_replicate]
  · intro k hk
    rw [CalculateCuts_eq_foldl,
      cuts_foldl_getD _ _ _ (by rw [List.length_replicate]; exact hk)]
    unfold enclosingRangeCount
    rw [List.getD_eq_getElem?_getD, List.getElem?_replicate,
      if_pos hk]
    simp

/-- The C3 counterexample problem: buffer 1 spans sections 0 and 2 with a
hole (a windowless gap) in between. -/
def cutsCexProblem : Problem :=
  { buffers := [
      { lifespan := ⟨0, 1⟩, size := 1 },
      { lifespan := ⟨0, 3⟩, size := 1, gaps := [⟨⟨1, 2⟩, none⟩] }] }

/-- Counterexample to C3 as stated: on `cutsCexProblem` the cut vector's
element 0 is 1 (buffer 1's overall range spans the pair), yet NO buffer
has a single section span with `lower ≤ 0` and `upper ≥ 2`, so the
claimed per-span count (0) disagrees with the code. -/
theorem calculate_cuts_cex :
    ((Sweep cutsCexProblem).CalculateCuts).getD 0 0 = 1 ∧
    specSpanEnclosingCount (Sweep cutsCexProblem) 0 = 0 ∧
    ((Sweep cutsCexProblem).CalculateCuts).length =
      (Sweep cutsCexProblem).sections.length - 1 := by decide

/-- Witness for the amended C3 at `cutsCexProblem`: hypotheses hold and
the element characterisation is applied at `k = 0`. -/
theorem calculate_cuts_spec_witness :
    ((Sweep cutsCexProblem).CalculateCuts).length =
       (Sweep cutsCexProblem).sections.length - 1 ∧
    ((Sweep cutsCexProblem).CalculateCuts).getD 0 0 =
      (enclosingRangeCount (Sweep cutsCexProblem) 0 : Int) := by
  have h := calculate_cuts_spec cutsCexProblem (by decide) (by decide)
  exact ⟨h.1, h.2 0 (by decide)⟩

end MM

namespace MM

/-! ## Claim C4: strictly-abutting buffers and shared sections -/

theorem mem_sinsert (a x : Nat) (l : List Nat) :
    a ∈ sinsert x l ↔ a = x ∨ a ∈ l := by
  induction l with
  | nil => simp [sinsert]
  | cons y ys ih =>
    unfold sinsert
    by_cases h1 : x < y
    · simp [h1]
    · rw [if_neg h1]
      by_cases h2 : x = y
      · subst h2
        simp only [if_pos rfl]
        constructor
        · intro h; exact Or.inr h
        · rintro (h | h)
          · subst h; exact List.mem_cons_self _ _
          · exact h
      · rw [if_neg h2]
        simp only [List.mem_cons, ih]
        tauto

theorem mem_serase (a x : Nat) (l : List Nat) (ha : a ≠ x) :
    a ∈ serase x l ↔ a ∈ l := by
  induction l with
  | nil => simp [serase]
  | cons y ys ih =>
    unfold serase
    by_cases h : x = y
    · subst h
      simp only [if_pos rfl, List.mem_cons]
      constructor
      · intro hm; exact Or.inr hm
      · rintro (hm | hm)
        · exact absurd hm ha
        · exact hm
    · rw [if_neg h]
      simp only [List.mem_cons, ih]

theorem serase_subset (x : Nat) (l : List Nat) : ∀ a ∈ serase x l, a ∈ l := by
  induction l with
  | nil => simp [serase]
  | cons y ys ih =>
    unfold serase
    intro a ha
    by_cases h : x = y
    · rw [if_pos h] at ha
      exact List.mem_cons_of_mem _ ha
    · rw [if_neg h] at ha
      rcases List.mem_cons.mp ha with h' | h'
      · subst h'; exact List.mem_cons_self _ _
      · exact List.mem_cons_of_mem _ (ih a h')

theorem sorted_sinsert (x : Nat) (l : List Nat)
    (h : List.Sorted (· < ·) l) : List.Sorted (· < ·) (sinsert x l) := by
  induction l with
  | nil => simp [sinsert]
  | cons y ys ih =>
    rw [List.sorted_cons] at h
    obtain ⟨hy, hys⟩ := h
    unfold sinsert
    by_cases h1 : x < y
    · rw [if_pos h1, List.sorted_cons]
      refine ⟨?_, List.sorted_cons.mpr ⟨hy, hys⟩⟩
      intro b hb
      rcases List.mem_cons.mp hb with hb | hb
      · omega
      · have := hy b hb; omega
    · rw [if_neg h1]
      by_cases h2 : x = y
      · rw [if_pos h2, List.sorted_cons]
        exact ⟨hy, hys⟩
      · rw [if_neg h2, List.sorted_cons]
        refine ⟨?_, ih hys⟩
        intro b hb
        rcases (mem_sinsert b x ys).mp hb with hb | hb
        · omega
        · exact hy b hb
      
theorem sorted_serase (x : Nat) (l : List Nat)
    (h : List.Sorted (· < ·) l) : List.Sorted (· < ·) (serase x l) := by
  induction l with
  | nil => simp [serase]
  | cons y ys ih =>
    rw [List.sorted_cons] at h
    obtain ⟨hy, hys⟩ := h
    unfold serase
    by_cases h1 : x = y
    · rw [if_pos h1]; exact hys
    · rw [if_neg h1, List.sorted_cons]
      exact ⟨fun b hb => hy b (serase_subset x ys b hb), ih hys⟩

theorem not_mem_serase_self (x : Nat) (l : List Nat)
    (h : List.Sorted (· < ·) l) : x ∉ serase x l := by
  induction l with
  | nil => simp [serase]
  | cons y ys ih =>
    rw [List.sorted_cons] at h
    obtain ⟨hy, hys⟩ := h
    unfold serase
    by_cases h1 : x = y
    · rw [if_pos h1]
      intro hm
      have := hy x hm
      omega
    · rw [if_neg h1]
      intro hm
      rcases List.mem_cons.mp hm with hm | hm
      · exact h1 hm
      · exact ih hys hm

end MM

namespace MM

theorem ovStep_fields (p : Problem) (i : Nat) (st : SweepState) (a : Nat) :
    (ovStep p i st a).sections = st.sections ∧
    (ovStep p i st a).actives = st.actives ∧
    (ovStep p i st a).alive = st.alive ∧
    (ovStep p i st a).partitions = st.partitions ∧
    (ovStep p i st a).lastSectionTime = st.lastSectionTime ∧
    (ovStep p i st a).lastSectionIdx = st.lastSectionIdx ∧
    (ovStep p i st a).idxToStart = st.idxToStart := by
  unfold ovStep
  dsimp only
  split <;> split <;> simp

theorem ovFold_fields (p : Problem) (i : Nat) (l : List Nat) (st : SweepState) :
    (l.foldl (ovStep p i) st).sections = st.sections ∧
    (l.foldl (ovStep p i) st).actives = st.actives ∧
    (l.foldl (ovStep p i) st).alive = st.alive ∧
    (l.foldl (ovStep p i) st).lastSectionTime = st.lastSectionTime := by
  induction l generalizing st with
  | nil => exact ⟨rfl, rfl, rfl, rfl⟩
  | cons a rest ih =>
    rw [List.foldl_cons]
    obtain ⟨h1, h2, h3, h4⟩ := ih (ovStep p i st a)
    obtain ⟨g1, g2, g3, _, g5, _, _⟩ := ovStep_fields p i st a
    exact ⟨h1.trans g1, h2.trans g2, h3.trans g3, h4.trans g5⟩

theorem recordOverlaps_fields (p : Problem) (i : Nat) (st : SweepState) :
    (recordOverlaps p i st).sections = st.sections ∧
    (recordOverlaps p i st).actives = st.actives ∧
    (recordOverlaps p i st).alive = st.alive ∧
    (recordOverlaps p i st).lastSectionTime = st.lastSectionTime := by
  unfold recordOverlaps
  exact ovFold_fields p i st.alive st

theorem sweepStep_actives (p : Problem) (st : SweepState) (pt : SweepPoint) :
    (sweepStep p st pt).actives =
      match pt.pointType with
      | .kRight => serase pt.bufferIdx st.actives
      | .kLeft => sinsert pt.bufferIdx st.actives := by
  cases hpt : pt.pointType <;>
    simp only [sweepStep, hpt] <;>
    split_ifs <;>
    simp [recordOverlaps_fields]

theorem sweepStep_sections (p : Problem) (st : SweepState) (pt : SweepPoint) :
    (sweepStep p st pt).sections = st.sections ∨
    ((sweepStep p st pt).sections = st.sections ++ [st.actives] ∧
      pt.pointType = .kRight) := by
  cases hpt : pt.pointType <;>
    simp only [sweepStep, hpt] <;>
    split_ifs <;>
    simp [recordOverlaps_fields]

end MM

namespace MM

theorem gapPointsStep_forall (i : Nat) (b : Buffer) (Q : SweepPoint → Prop)
    (g : Gap)
    (hgapW : g.window.isSome →
      (∀ w e, Q ⟨i, g.lifespan.lower, .kLeft, w, e⟩) ∧
      (∀ w e, Q ⟨i, g.lifespan.lower, .kRight, w, e⟩) ∧
      (g.lifespan.upper ≠ b.lifespan.upper →
        (∀ w e, Q ⟨i, g.lifespan.upper, .kRight, w, e⟩) ∧
        (∀ w e, Q ⟨i, g.lifespan.upper, .kLeft, w, e⟩)))
    (hgapN : g.window = none →
      (∀ w e, Q ⟨i, g.lifespan.lower, .kRight, w, e⟩) ∧
      (∀ w e, Q ⟨i, g.lifespan.upper, .kLeft, w, e⟩))
    (st : List SweepPoint × Option SweepPoint × Interval)
    (h1 : ∀ pt ∈ st.1, Q pt)
    (h2 : ∀ pt, st.2.1 = some pt → Q pt) :
    (∀ pt ∈ (gapPointsStep i b st g).1, Q pt) ∧
    (∀ pt, (gapPointsStep i b st g).2.1 = some pt → Q pt) := by
  unfold gapPointsStep
  dsimp only
  cases hw : g.window with
  | none =>
    obtain ⟨hN1, hN2⟩ := hgapN hw
    dsimp only
    refine ⟨?_, by intro pt h; simp at h⟩
    intro pt hpt
    cases hp : st.2.1 with
    | none =>
      rw [hp] at hpt
      simp only [List.append_nil, List.mem_append, List.mem_cons,
        List.not_mem_nil, or_false] at hpt
      rcases hpt with h | h | h
      · exact h1 pt h
      · subst h; exact hN1 _ _
      · subst h; exact hN2 _ _
    | some q =>
      rw [hp] at hpt
      simp only [List.mem_append, List.mem_cons,
        List.not_mem_nil, or_false] at hpt
      rcases hpt with (h | h) | h | h
      · exact h1 pt h
      · rw [h]; exact h2 q hp
      · subst h; exact hN1 _ _
      · subst h; exact hN2 _ _
  | some gw =>
    obtain ⟨hW1, hW2, hW3⟩ := hgapW (by rw [hw]; rfl)
    cases hp : st.2.1 with
    | none =>
      dsimp only
      by_cases hend : g.lifespan.upper = b.lifespan.upper
      · rw [if_pos hend]
        refine ⟨?_, by intro pt h; simp at h⟩
        intro pt hpt
        simp only [List.mem_append, List.mem_cons,
          List.not_mem_nil, or_false] at hpt
        rcases hpt with h | h
        · exact h1 pt h
        · subst h; exact hW1 _ _
      · rw [if_neg hend]
        refine ⟨?_, by intro pt h; simp at h⟩
        intro pt hpt
        simp only [List.mem_append, List.mem_cons,
          List.not_mem_nil, or_false] at hpt
        rcases hpt with (h | h) | h | h
        · exact h1 pt h
        · subst h; exact hW1 _ _
        · subst h; exact (hW3 hend).1 _ _
        · subst h; exact (hW3 hend).2 _ _
    | some q =>
      dsimp only
      by_cases hflush : q.timeValue < g.lifespan.lower
      · rw [if_pos hflush]
        by_cases hend : g.lifespan.upper = b.lifespan.upper
        · rw [if_pos hend]
          refine ⟨?_, by intro pt h; simp at h⟩
          intro pt hpt
          simp only [List.mem_append, List.mem_cons,
            List.not_mem_nil, or_false] at hpt
          rcases hpt with (h | h | h) | h
          · exact h1 pt h
          · rw [h]; exact h2 q hp
          · subst h; exact hW2 _ _
          · subst h; exact hW1 _ _
        · rw [if_neg hend]
          refine ⟨?_, by intro pt h; simp at h⟩
          intro pt hpt
          simp only [List.mem_append, List.mem_cons,
            List.not_mem_nil, or_false] at hpt
          rcases hpt with ((h | h | h) | h) | h | h
          · exact h1 pt h
          · rw [h]; exact h2 q hp
          · subst h; exact hW2 _ _
          · subst h; exact hW1 _ _
          · subst h; exact (hW3 hend).1 _ _
          · subst h; exact (hW3 hend).2 _ _
      · rw [if_neg hflush]
        by_cases hend : g.lifespan.upper = b.lifespan.upper
        · rw [if_pos hend]
          refine ⟨?_, by intro pt h; simp at h⟩
          intro pt hpt
          simp only [List.mem_append, List.mem_cons,
            List.not_mem_nil, or_false] at hpt
          rcases hpt with h | h
          · exact h1 pt h
          · subst h; exact hW1 _ _
        · rw [if_neg hend]
          refine ⟨?_, by intro pt h; simp at h⟩
          intro pt hpt
          simp only [List.mem_append, List.mem_cons,
            List.not_mem_nil, or_false] at hpt
          rcases hpt with (h | h) | h | h
          · exact h1 pt h
          · subst h; exact hW1 _ _
          · subst h; exact (hW3 hend).1 _ _
          · subst h; exact (hW3 hend).2 _ _

theorem createPointsFor_forall (i : Nat) (b : Buffer) (Q : SweepPoint → Prop)
    (hpend : Q ⟨i, b.lifespan.lower, .kLeft, ⟨0, b.size⟩, true⟩)
    (hF : ∀ w, Q ⟨i, b.lifespan.upper, .kRight, w, true⟩)
    (hgapW : ∀ g ∈ b.gaps, g.window.isSome →
      (∀ w e, Q ⟨i, g.lifespan.lower, .kLeft, w, e⟩) ∧
      (∀ w e, Q ⟨i, g.lifespan.lower, .kRight, w, e⟩) ∧
      (g.lifespan.upper ≠ b.lifespan.upper →
        (∀ w e, Q ⟨i, g.lifespan.upper, .kRight, w, e⟩) ∧
        (∀ w e, Q ⟨i, g.lifespan.upper, .kLeft, w, e⟩)))
    (hgapN : ∀ g ∈ b.gaps, g.window = none →
      (∀ w e, Q ⟨i, g.lifespan.lower, .kRight, w, e⟩) ∧
      (∀ w e, Q ⟨i, g.lifespan.upper, .kLeft, w, e⟩)) :
    ∀ pt ∈ createPointsFor i b, Q pt := by
  have fold : ∀ (gs : List Gap), (∀ g ∈ gs, g ∈ b.gaps) →
      ∀ (st : List SweepPoint × Option SweepPoint × Interval),
      (∀ pt ∈ st.1, Q pt) → (∀ pt, st.2.1 = some pt → Q pt) →
      (∀ pt ∈ (gs.foldl (gapPointsStep i b) st).1, Q pt) ∧
      (∀ pt, (gs.foldl (gapPointsStep i b) st).2.1 = some pt → Q pt) := by
    intro gs
    induction gs with
    | nil => intro _ st h1 h2; exact ⟨h1, h2⟩
    | cons g rest ih =>
      intro hsub st h1 h2
      rw [List.foldl_cons]
      have hg : g ∈ b.gaps := hsub g (List.mem_cons_self _ _)
      obtain ⟨k1, k2⟩ := gapPointsStep_forall i b Q g
        (hgapW g hg) (hgapN g hg) st h1 h2
      exact ih (fun g' hg' => hsub g' (List.mem_cons_of_mem _ hg')) _ k1 k2
  intro pt hpt
  unfold createPointsFor at hpt
  dsimp only at hpt
  obtain ⟨k1, k2⟩ := fold b.gaps (fun g hg => hg)
    ([], some ⟨i, b.lifespan.lower, .kLeft, ⟨0, b.size⟩, true⟩,
      (⟨0, b.size⟩ : Interval))
    (by intro q hq; exact absurd hq (List.not_mem_nil q))
    (by intro q hq; injection hq with hq; rw [← hq]; exact hpend)
  cases hps : (b.gaps.foldl (gapPointsStep i b)
      ([], some ⟨i, b.lifespan.lower, .kLeft, ⟨0, b.size⟩, true⟩,
        (⟨0, b.size⟩ : Interval))).2.1 with
  | none =>
    rw [hps] at hpt
    simp only [List.append_nil, List.mem_append, List.mem_cons,
      List.not_mem_nil, or_false] at hpt
    rcases hpt with h | h
    · exact k1 pt h
    · subst h; exact hF _
  | some q =>
    rw [hps] at hpt
    simp only [List.mem_append, List.mem_cons,
      List.not_mem_nil, or_false] at hpt
    rcases hpt with (h | h) | h
    · exact k1 pt h
    · rw [h]; exact k2 q hps
    · subst h; exact hF _

theorem createPointsFor_endKR (i : Nat) (b : Buffer) :
    ∃ pt ∈ createPointsFor i b,
      pt.bufferIdx = i ∧ pt.pointType = .kRight ∧
      pt.timeValue = b.lifespan.upper ∧ pt.endpoint = true := by
  unfold createPointsFor
  dsimp only
  exact ⟨⟨i, b.lifespan.upper, .kRight,
    (b.gaps.foldl (gapPointsStep i b)
      ([], some ⟨i, b.lifespan.lower, .kLeft, ⟨0, b.size⟩, true⟩,
        (⟨0, b.size⟩ : Interval))).2.2, true⟩,
    by simp, rfl, rfl, rfl, rfl⟩

end MM

namespace MM

theorem sweep_fold_inv (p : Problem) (ia ib : Nat) (t : Int) (hne : ia ≠ ib) :
    ∀ (l : List SweepPoint) (st : SweepState),
      List.Pairwise spLE l →
      (∀ pt ∈ l, pt.bufferIdx = ia → pt.pointType = .kLeft →
        pt.timeValue < t) →
      (∀ pt ∈ l, pt.bufferIdx = ib → t ≤ pt.timeValue) →
      ((∃ x ∈ l, x.bufferIdx = ia ∧ x.pointType = .kLeft) →
        ∃ y ∈ l, y.bufferIdx = ia ∧ y.pointType = .kRight ∧ y.timeValue = t) →
      (∀ sec ∈ st.sections, ¬(ia ∈ sec ∧ ib ∈ sec)) →
      ¬(ia ∈ st.actives ∧ ib ∈ st.actives) →
      (ib ∈ st.actives →
        ∀ pt ∈ l, ¬(pt.bufferIdx = ia ∧ pt.pointType = .kLeft)) →
      (ia ∈ st.actives →
        ∃ y ∈ l, y.bufferIdx = ia ∧ y.pointType = .kRight ∧ y.timeValue = t) →
      List.Sorted (· < ·) st.actives →
      ∀ sec ∈ (l.foldl (sweepStep p) st).sections, ¬(ia ∈ sec ∧ ib ∈ sec) := by
  intro l
  induction l with
  | nil =>
    intro st _ _ _ _ hs1 _ _ _ _
    exact hs1
  | cons pt rest ih =>
    intro st hsort hGA hGB hak hs1 hs2 hs3 hs4 hs5
    rw [List.foldl_cons]
    obtain ⟨hhead, hsort'⟩ := List.pairwise_cons.mp hsort
    have hGA' : ∀ x ∈ rest, x.bufferIdx = ia → x.pointType = .kLeft →
        x.timeValue < t :=
      fun x hx => hGA x (List.mem_cons_of_mem _ hx)
    have hGB' : ∀ x ∈ rest, x.bufferIdx = ib → t ≤ x.timeValue :=
      fun x hx => hGB x (List.mem_cons_of_mem _ hx)
    have hak' : (∃ x ∈ rest, x.bufferIdx = ia ∧ x.pointType = .kLeft) →
        ∃ y ∈ rest, y.bufferIdx = ia ∧ y.pointType = .kRight ∧
          y.timeValue = t := by
      rintro ⟨x, hx, hxa, hxl⟩
      obtain ⟨y, hy, hya, hyr, hyt⟩ := hak
        ⟨x, List.mem_cons_of_mem _ hx, hxa, hxl⟩
      rcases List.mem_cons.mp hy with hy | hy
      · exfalso
        subst hy
        have hxt : x.timeValue < t :=
          hGA x (List.mem_cons_of_mem _ hx) hxa hxl
        exact hhead x hx (Or.inl (by omega))
      · exact ⟨y, hy, hya, hyr, hyt⟩
    have hact := sweepStep_actives p st pt
    have hsec := sweepStep_sections p st pt
    cases hpt : pt.pointType with
    | kRight =>
      simp only [hpt] at hact
      have hs1' : ∀ sec ∈ (sweepStep p st pt).sections,
          ¬(ia ∈ sec ∧ ib ∈ sec) := by
        rcases hsec with h | ⟨h, _⟩
        · rw [h]; exact hs1
        · rw [h]
          intro sec hsec'
          rcases List.mem_append.mp hsec' with h' | h'
          · exact hs1 sec h'
          · rw [List.mem_singleton] at h'
            subst h'; exact hs2
      have hs2' : ¬(ia ∈ (sweepStep p st pt).actives ∧
          ib ∈ (sweepStep p st pt).actives) := by
        rw [hact]
        rintro ⟨ha, hb⟩
        exact hs2 ⟨serase_subset _ _ _ ha, serase_subset _ _ _ hb⟩
      have hs3' : ib ∈ (sweepStep p st pt).actives →
          ∀ x ∈ rest, ¬(x.bufferIdx = ia ∧ x.pointType = .kLeft) := by
        rw [hact]
        intro hb x hx
        exact hs3 (serase_subset _ _ _ hb) x (List.mem_cons_of_mem _ hx)
      have hs4' : ia ∈ (sweepStep p st pt).actives →
          ∃ y ∈ rest, y.bufferIdx = ia ∧ y.pointType = .kRight ∧
            y.timeValue = t := by
        rw [hact]
        intro ha
        by_cases hidx : pt.bufferIdx = ia
        · exact absurd (hidx ▸ ha) (not_mem_serase_self _ _ hs5)
        · obtain ⟨y, hy, hya, hyr, hyt⟩ := hs4 (serase_subset _ _ _ ha)
          rcases List.mem_cons.mp hy with hy | hy
          · exact absurd (hy ▸ hya) hidx
          · exact ⟨y, hy, hya, hyr, hyt⟩
      have hs5' : List.Sorted (· < ·) (sweepStep p st pt).actives := by
        rw [hact]; exact sorted_serase _ _ hs5
      exact ih _ hsort' hGA' hGB' hak' hs1' hs2' hs3' hs4' hs5'
    | kLeft =>
      simp only [hpt] at hact
      have hs1' : ∀ sec ∈ (sweepStep p st pt).sections,
          ¬(ia ∈ sec ∧ ib ∈ sec) := by
        rcases hsec with h | ⟨h, habsurd⟩
        · rw [h]; exact hs1
        · rw [hpt] at habsurd; cases habsurd
      have hs2' : ¬(ia ∈ (sweepStep p st pt).actives ∧
          ib ∈ (sweepStep p st pt).actives) := by
        rw [hact]
        rintro ⟨ha, hb⟩
        rcases (mem_sinsert ia pt.bufferIdx st.actives).mp ha with ha' | ha' <;>
          rcases (mem_sinsert ib pt.bufferIdx st.actives).mp hb with hb' | hb'
        · exact hne (ha'.trans hb'.symm)
        · exact hs3 hb' pt (List.mem_cons_self _ _) ⟨ha'.symm, hpt⟩
        · -- pt is the B left point; A cannot still be active
          obtain ⟨y, hy, hya, hyr, hyt⟩ := hs4 ha'
          have hptt : t ≤ pt.timeValue :=
            hGB pt (List.mem_cons_self _ _) hb'.symm
          rcases List.mem_cons.mp hy with hy | hy
          · rw [hy] at hyr; rw [hpt] at hyr; cases hyr
          · refine hhead y hy ?_
            by_cases hty : y.timeValue < pt.timeValue
            · exact Or.inl hty
            · have : y.timeValue = pt.timeValue := by omega
              refine Or.inr ⟨this, Or.inl ?_⟩
              rw [hyr, hpt]
              simp [SPType.rank]
        · exact hs2 ⟨ha', hb'⟩
      have hs3' : ib ∈ (sweepStep p st pt).actives →
          ∀ x ∈ rest, ¬(x.bufferIdx = ia ∧ x.pointType = .kLeft) := by
        rw [hact]
        intro hb x hx hxal
        rcases (mem_sinsert ib pt.bufferIdx st.actives).mp hb with hb' | hb'
        · -- pt is a B left point; later A left points are impossible
          have hptt : t ≤ pt.timeValue :=
            hGB pt (List.mem_cons_self _ _) hb'.symm
          have hxt : x.timeValue < t := hGA' x hx hxal.1 hxal.2
          exact hhead x hx (Or.inl (by omega))
        · exact hs3 hb' x (List.mem_cons_of_mem _ hx) hxal
      have hs4' : ia ∈ (sweepStep p st pt).actives →
          ∃ y ∈ rest, y.bufferIdx = ia ∧ y.pointType = .kRight ∧
            y.timeValue = t := by
        rw [hact]
        intro ha
        rcases (mem_sinsert ia pt.bufferIdx st.actives).mp ha with ha' | ha'
        · obtain ⟨y, hy, hya, hyr, hyt⟩ := hak
            ⟨pt, List.mem_cons_self _ _, ha'.symm, hpt⟩
          rcases List.mem_cons.mp hy with hy | hy
          · rw [hy] at hyr; rw [hpt] at hyr; cases hyr
          · exact ⟨y, hy, hya, hyr, hyt⟩
        · obtain ⟨y, hy, hya, hyr, hyt⟩ := hs4 ha'
          rcases List.mem_cons.mp hy with hy | hy
          · rw [hy] at hyr; rw [hpt] at hyr; cases hyr
          · exact ⟨y, hy, hya, hyr, hyt⟩
      have hs5' : List.Sorted (· < ·) (sweepStep p st pt).actives := by
        rw [hact]; exact sorted_sinsert _ _ hs5
      exact ih _ hsort' hGA' hGB' hak' hs1' hs2' hs3' hs4' hs5'

end MM

namespace MM

theorem createPointsFor_idx (i : Nat) (b : Buffer) :
    ∀ pt ∈ createPointsFor i b, pt.bufferIdx = i :=
  createPointsFor_forall i b (fun pt => pt.bufferIdx = i) rfl (fun _ => rfl)
    (fun _ _ _ => ⟨fun _ _ => rfl, fun _ _ => rfl,
      fun _ => ⟨fun _ _ => rfl, fun _ _ => rfl⟩⟩)
    (fun _ _ _ => ⟨fun _ _ => rfl, fun _ _ => rfl⟩)

theorem createPointsFor_left_lt (i : Nat) (b : Buffer)
    (hbne : b.lifespan.lower < b.lifespan.upper)
    (hgaps : ∀ g ∈ b.gaps,
      (g.window.isSome → g.lifespan.lower < b.lifespan.upper ∧
        g.lifespan.upper ≤ b.lifespan.upper) ∧
      (g.window = none → g.lifespan.upper < b.lifespan.upper)) :
    ∀ pt ∈ createPointsFor i b, pt.pointType = .kLeft →
      pt.timeValue < b.lifespan.upper := by
  refine createPointsFor_forall i b
    (fun pt => pt.pointType = .kLeft → pt.timeValue < b.lifespan.upper)
    (fun _ => hbne) (fun w h => by cases h) ?_ ?_
  · intro g hg hsome
    obtain ⟨hlo, hup⟩ := (hgaps g hg).1 hsome
    refine ⟨fun w e _ => hlo, ?_, ?_⟩
    · intro w e h
      cases h
    · intro hend
      constructor
      · intro w e h
        cases h
      · intro w e _
        exact lt_of_le_of_ne hup hend
  · intro g hg hnone
    constructor
    · intro w e h
      cases h
    · intro w e _
      exact (hgaps g hg).2 hnone

theorem createPointsFor_time_ge (i : Nat) (b : Buffer)
    (hbne : b.lifespan.lower ≤ b.lifespan.upper)
    (hgaps : ∀ g ∈ b.gaps, b.lifespan.lower ≤ g.lifespan.lower ∧
      g.lifespan.lower ≤ g.lifespan.upper) :
    ∀ pt ∈ createPointsFor i b, b.lifespan.lower ≤ pt.timeValue := by
  refine createPointsFor_forall i b
    (fun pt => b.lifespan.lower ≤ pt.timeValue)
    le_rfl (fun _ => hbne) ?_ ?_
  · intro g hg _
    obtain ⟨h1, h2⟩ := hgaps g hg
    exact ⟨fun _ _ => h1, fun _ _ => h1,
      fun _ => ⟨fun _ _ => by dsimp only; omega, fun _ _ => by dsimp only; omega⟩⟩
  · intro g hg _
    obtain ⟨h1, h2⟩ := hgaps g hg
    exact ⟨fun _ _ => h1, fun _ _ => by dsimp only; omega⟩

/-- C4 (amended).  In any problem, two distinct buffers `A` (index `ia`)
and `B` (index `ib`) with nonempty lifespans that strictly abut
(`A.lifespan.upper = B.lifespan.lower`) never share a section of
`Sweep`, PROVIDED that `A`'s gaps lie inside its lifespan with no
windowless gap ending exactly at `A.lifespan.upper` (and windowed gaps
starting before it), and `B`'s gaps start no earlier than
`B.lifespan.lower`.  Without the proviso on `A` the statement is false:
see `sweep_abutting_cex`. -/
theorem sweep_abutting_spec (p : Problem) (ia ib : Nat) (A B : Buffer)
    (hA : p.buffers[ia]? = some A) (hB : p.buffers[ib]? = some B)
    (hne : ia ≠ ib)
    (hAne : A.lifespan.lower < A.lifespan.upper)
    (hBne : B.lifespan.lower < B.lifespan.upper)
    (habut : A.lifespan.upper = B.lifespan.lower)
    (hAgaps : ∀ g ∈ A.gaps,
      (g.window.isSome → g.lifespan.lower < A.lifespan.upper ∧
        g.lifespan.upper ≤ A.lifespan.upper) ∧
      (g.window = none → g.lifespan.upper < A.lifespan.upper))
    (hBgaps : ∀ g ∈ B.gaps, B.lifespan.lower ≤ g.lifespan.lower ∧
      g.lifespan.lower ≤ g.lifespan.upper) :
    ∀ sec ∈ (Sweep p).sections, ¬(ia ∈ sec ∧ ib ∈ sec) := by
  have hmem : ∀ pt ∈ CreatePoints p,
      ∃ pr ∈ p.buffers.enum, pt ∈ createPointsFor pr.1 pr.2 := by
    intro pt hpt
    unfold CreatePoints at hpt
    rw [(List.perm_insertionSort spLE _).mem_iff] at hpt
    exact List.mem_flatMap.mp hpt
  have hAval : ∀ pr ∈ p.buffers.enum, pr.1 = ia → pr.2 = A := by
    intro pr hpr hpra
    have h := List.mem_enum_iff_getElem?.mp hpr
    rw [hpra] at h
    rw [hA] at h
    injection h with h
    exact h.symm
  have hBval : ∀ pr ∈ p.buffers.enum, pr.1 = ib → pr.2 = B := by
    intro pr hpr hprb
    have h := List.mem_enum_iff_getElem?.mp hpr
    rw [hprb] at h
    rw [hB] at h
    injection h with h
    exact h.symm
  have hGA : ∀ pt ∈ CreatePoints p, pt.bufferIdx = ia →
      pt.pointType = .kLeft → pt.timeValue < A.lifespan.upper := by
    intro pt hpt hpa hpl
    obtain ⟨pr, hpr, hmem'⟩ := hmem pt hpt
    have hidx : pt.bufferIdx = pr.1 := createPointsFor_idx pr.1 pr.2 pt hmem'
    have hpra : pr.1 = ia := by rw [← hidx, hpa]
    have hval := hAval pr hpr hpra
    rw [hval] at hmem'
    exact createPointsFor_left_lt pr.1 A hAne hAgaps pt hmem' hpl
  have hGB : ∀ pt ∈ CreatePoints p, pt.bufferIdx = ib →
      A.lifespan.upper ≤ pt.timeValue := by
    intro pt hpt hpb
    obtain ⟨pr, hpr, hmem'⟩ := hmem pt hpt
    have hidx : pt.bufferIdx = pr.1 := createPointsFor_idx pr.1 pr.2 pt hmem'
    have hprb : pr.1 = ib := by rw [← hidx, hpb]
    have hval := hBval pr hpr hprb
    rw [hval] at hmem'
    rw [habut]
    exact createPointsFor_time_ge pr.1 B (le_of_lt hBne)
      (fun g hg => hBgaps g hg) pt hmem'
  have hak : ∃ y ∈ CreatePoints p, y.bufferIdx = ia ∧
      y.pointType = .kRight ∧ y.timeValue = A.lifespan.upper := by
    obtain ⟨pt, hpt, h1, h2, h3, _⟩ := createPointsFor_endKR ia A
    refine ⟨pt, ?_, h1, h2, h3⟩
    unfold CreatePoints
    rw [(List.perm_insertionSort spLE _).mem_iff, List.mem_flatMap]
    refine ⟨(ia, A), ?_, hpt⟩
    exact List.mem_enum_iff_getElem?.mpr hA
  have hfold := sweep_fold_inv p ia ib A.lifespan.upper hne (CreatePoints p)
    { sections := [], partitions := [],
      buffer_data := List.replicate p.buffers.length {},
      actives := [], alive := [],
      lastSectionTime := -1, lastSectionIdx := 0,
      idxToStart := List.replicate p.buffers.length (-1) }
    (List.sorted_insertionSort spLE _)
    hGA hGB (fun _ => hak)
    (by intro sec hsec; cases hsec)
    (by rintro ⟨h, _⟩; cases h)
    (by intro h; cases h)
    (by intro h; cases h)
    (by constructor)
  exact hfold

/-- The C4 counterexample problem: buffer 0 is `[0,2)` with a windowless
gap `[1,2)` ending exactly at its lifespan end; buffer 1 is `[2,4)`. -/
def abutCexProblem : Problem :=
  { buffers := [
      { lifespan := ⟨0, 2⟩, size := 1, gaps := [⟨⟨1, 2⟩, none⟩] },
      { lifespan := ⟨2, 4⟩, size := 1 }] }

/-- Counterexample to C4 as stated: in `abutCexProblem` the two buffers
have nonempty lifespans with `A.lifespan.upper = B.lifespan.lower`, yet a
section of `Sweep` contains both (the gap-closing left point at time 2 is
processed after buffer 0's endpoint and re-inserts the dead buffer). -/
theorem sweep_abutting_cex :
    (abutCexProblem.buffers.getD 0 default).lifespan.lower <
      (abutCexProblem.buffers.getD 0 default).lifespan.upper ∧
    (abutCexProblem.buffers.getD 1 default).lifespan.lower <
      (abutCexProblem.buffers.getD 1 default).lifespan.upper ∧
    (abutCexProblem.buffers.getD 0 default).lifespan.upper =
      (abutCexProblem.buffers.getD 1 default).lifespan.lower ∧
    ∃ sec ∈ (Sweep abutCexProblem).sections, 0 ∈ sec ∧ 1 ∈ sec := by
  decide

/-- Witness for the amended C4: the same two lifespans, but buffer 0's
gap now ends strictly inside the lifespan, and indeed no section contains
both buffers. -/
theorem sweep_abutting_spec_witness :
    ((Sweep { buffers := [
        { lifespan := ⟨0, 3⟩, size := 1, gaps := [⟨⟨1, 2⟩, none⟩] },
        { lifespan := ⟨3, 4⟩, size := 1 }] : Problem }).sections.all
      fun sec => !(decide (0 ∈ sec) && decide (1 ∈ sec))) = true := by
  have h := sweep_abutting_spec
    { buffers := [
        { lifespan := ⟨0, 3⟩, size := 1, gaps := [⟨⟨1, 2⟩, none⟩] },
        { lifespan := ⟨3, 4⟩, size := 1 }] }
    0 1
    { lifespan := ⟨0, 3⟩, size := 1, gaps := [⟨⟨1, 2⟩, none⟩] }
    { lifespan := ⟨3, 4⟩, size := 1 }
    (by decide) (by decide) (by decide) (by decide) (by decide) (by decide)
    (by decide) (by decide)
  rw [List.all_eq_true]
  intro sec hsec
  by_cases h0 : (0 : Nat) ∈ sec <;> by_cases h1 : (1 : Nat) ∈ sec <;>
    simp [h0, h1]
  exact h sec hsec ⟨h0, h1⟩

end MM

namespace MM

/-! ## Claim C2: Buffer::effective_size, liveness and the size bound

`Buffer::effective_size` sweeps the merged point list of the two buffers
and records, at every strict time advance with both windows present, the
difference `windows[0].upper - windows[1].lower`.  The development below
characterises the window state after any time prefix of the sorted point
list (per buffer: the window of its maximal processed point), from which
the result is `some` exactly when the two buffers are simultaneously live
at some time. -/

/-- A buffer is live at time `t` when `t` lies in its lifespan and in no
windowless gap.  (A gap carrying a window keeps the buffer live on the
window's rows, which is what `effective_size` measures.) -/
def LiveAt (b : Buffer) (t : Int) : Prop :=
  b.lifespan.lower ≤ t ∧ t < b.lifespan.upper ∧
    ∀ g ∈ b.gaps, g.window = none →
      ¬ (g.lifespan.lower ≤ t ∧ t < g.lifespan.upper)

instance (b : Buffer) (t : Int) : Decidable (LiveAt b t) := by
  unfold LiveAt; infer_instance

/-- Well-formedness of an optional gap window with respect to the
buffer's size: when present it is a sub-range of `[0, size]`. -/
def windowWF (sz : Int) : Option Interval → Prop
  | none => True
  | some w => 0 ≤ w.lower ∧ w.lower ≤ w.upper ∧ w.upper ≤ sz

instance (sz : Int) (o : Option Interval) : Decidable (windowWF sz o) := by
  cases o <;> unfold windowWF <;> infer_instance

theorem windowWF_bounds {sz : Int} {o : Option Interval} (h : windowWF sz o) :
    ∀ w, o = some w → 0 ≤ w.lower ∧ w.lower ≤ w.upper ∧ w.upper ≤ sz := by
  intro w hw
  cases o with
  | none => cases hw
  | some w' =>
    injection hw with hw
    subst hw
    exact h

/-- Well-formed buffer: nonnegative lifespan, every gap inside the
lifespan with ordered endpoints and a window inside `[0, size]`, and the
gaps pairwise strictly separated (each ends strictly before the next
begins). -/
def BufferWF (b : Buffer) : Prop :=
  b.lifespan.lower ≤ b.lifespan.upper ∧
  (∀ g ∈ b.gaps,
      b.lifespan.lower ≤ g.lifespan.lower ∧ g.lifespan.lower ≤ g.lifespan.upper ∧
        g.lifespan.upper ≤ b.lifespan.upper ∧ windowWF b.size g.window) ∧
  List.Pairwise (fun g1 g2 => g1.lifespan.upper < g2.lifespan.lower) b.gaps

instance (b : Buffer) : Decidable (BufferWF b) := by
  unfold BufferWF; infer_instance

/-- The points of `esPoints` that belong to one of the two buffers,
stamped with that buffer's index. -/
def esPointsFor (j : Nat) (b : Buffer) : List ESPoint :=
  [⟨j, b.lifespan.lower, .kLeft, some ⟨0, b.size⟩⟩,
   ⟨j, b.lifespan.upper, .kRight, none⟩]
  ++ b.gaps.flatMap (fun g =>
      [⟨j, g.lifespan.lower, .kRightGap, g.window⟩,
       ⟨j, g.lifespan.upper, .kLeftGap, some ⟨0, b.size⟩⟩])

theorem mem_esPointsFor (j : Nat) (b : Buffer) (q : ESPoint) :
    q ∈ esPointsFor j b ↔
      q = ⟨j, b.lifespan.lower, .kLeft, some ⟨0, b.size⟩⟩ ∨
      q = ⟨j, b.lifespan.upper, .kRight, none⟩ ∨
      ∃ g, g ∈ b.gaps ∧
        (q = ⟨j, g.lifespan.lower, .kRightGap, g.window⟩ ∨
         q = ⟨j, g.lifespan.upper, .kLeftGap, some ⟨0, b.size⟩⟩) := by
  unfold esPointsFor
  simp [List.mem_flatMap, or_assoc]

/-- The points of `esPoints a x` with buffer index 0 are exactly the
points contributed by `a`. -/
theorem mem_esPoints_buf0 (a x : Buffer) (q : ESPoint) :
    (q ∈ esPoints a x ∧ q.bufferIdx = 0) ↔ q ∈ esPointsFor 0 a := by
  rw [mem_esPointsFor]
  unfold esPoints
  simp only [List.mem_append, List.mem_cons, List.mem_flatMap,
    List.not_mem_nil, or_false]
  constructor
  · rintro ⟨((h | h | h | h) | ⟨g, hg, h | h⟩) | ⟨g, hg, h | h⟩, hb⟩
    · exact Or.inl h
    · exact Or.inr (Or.inl h)
    · subst h; exact absurd hb Nat.one_ne_zero
    · subst h; exact absurd hb Nat.one_ne_zero
    · exact Or.inr (Or.inr ⟨g, hg, Or.inl h⟩)
    · exact Or.inr (Or.inr ⟨g, hg, Or.inr h⟩)
    · subst h; exact absurd hb Nat.one_ne_zero
    · subst h; exact absurd hb Nat.one_ne_zero
  · rintro (h | h | ⟨g, hg, h | h⟩) <;> subst h
    · exact ⟨Or.inl (Or.inl (Or.inl rfl)), rfl⟩
    · exact ⟨Or.inl (Or.inl (Or.inr (Or.inl rfl))), rfl⟩
    · exact ⟨Or.inl (Or.inr ⟨g, hg, Or.inl rfl⟩), rfl⟩
    · exact ⟨Or.inl (Or.inr ⟨g, hg, Or.inr rfl⟩), rfl⟩

/-- The points of `esPoints a x` with buffer index other than 0 are
exactly the points contributed by `x`. -/
theorem mem_esPoints_buf1 (a x : Buffer) (q : ESPoint) :
    (q ∈ esPoints a x ∧ q.bufferIdx ≠ 0) ↔ q ∈ esPointsFor 1 x := by
  rw [mem_esPointsFor]
  unfold esPoints
  simp only [List.mem_append, List.mem_cons, List.mem_flatMap,
    List.not_mem_nil, or_false]
  constructor
  · rintro ⟨((h | h | h | h) | ⟨g, hg, h | h⟩) | ⟨g, hg, h | h⟩, hb⟩
    · subst h; exact absurd rfl hb
    · subst h; exact absurd rfl hb
    · exact Or.inl h
    · exact Or.inr (Or.inl h)
    · subst h; exact absurd rfl hb
    · subst h; exact absurd rfl hb
    · exact Or.inr (Or.inr ⟨g, hg, Or.inl h⟩)
    · exact Or.inr (Or.inr ⟨g, hg, Or.inr h⟩)
  · rintro (h | h | ⟨g, hg, h | h⟩) <;> subst h
    · exact ⟨Or.inl (Or.inl (Or.inr (Or.inr (Or.inl rfl)))), Nat.one_ne_zero⟩
    · exact ⟨Or.inl (Or.inl (Or.inr (Or.inr (Or.inr rfl)))), Nat.one_ne_zero⟩
    · exact ⟨Or.inr ⟨g, hg, Or.inl rfl⟩, Nat.one_ne_zero⟩
    · exact ⟨Or.inr ⟨g, hg, Or.inr rfl⟩, Nat.one_ne_zero⟩

/-- The window carried by the last point of a list (the state a
last-wins assignment leaves behind), with a default for the empty list. -/
def lastWindow (l : List ESPoint) (d : Option Interval) : Option Interval :=
  match l.getLast? with
  | some p => p.window
  | none => d

theorem getLast?_cons_ne_none {α : Type} (a : α) (l : List α) :
    (a :: l).getLast? ≠ none := by
  induction l generalizing a with
  | nil => simp
  | cons b l ih => rw [List.getLast?_cons_cons]; exact ih b

theorem mem_of_getLast?_eq {α : Type} {l : List α} {a : α}
    (h : l.getLast? = some a) : a ∈ l := by
  induction l with
  | nil => cases h
  | cons b l ih =>
    cases l with
    | nil =>
      simp at h
      subst h
      simp
    | cons c l' =>
      rw [List.getLast?_cons_cons] at h
      exact List.mem_cons_of_mem _ (ih h)

theorem lastWindow_cons (p : ESPoint) (l : List ESPoint) (d : Option Interval) :
    lastWindow (p :: l) d = lastWindow l p.window := by
  cases l with
  | nil => rfl
  | cons q l' =>
    unfold lastWindow
    rw [List.getLast?_cons_cons]
    rcases hgl : (q :: l').getLast? with _ | z
    · exact absurd hgl (getLast?_cons_ne_none _ _)
    · simp only [hgl]

/-- `windows[0]` after the fold is the window of the last processed point
of buffer 0. -/
theorem esFold_w0 (l : List ESPoint) (s : ESState) :
    (l.foldl esStep s).w0 =
      lastWindow (l.filter fun p => decide (p.bufferIdx = 0)) s.w0 := by
  induction l generalizing s with
  | nil => rfl
  | cons p l ih =>
    rw [List.foldl_cons, ih]
    by_cases h : p.bufferIdx = 0
    · rw [List.filter_cons_of_pos (by simpa using h), lastWindow_cons]
      congr 1
      simp [esStep, h]
    · rw [List.filter_cons_of_neg (by simpa using h)]
      congr 1
      simp [esStep, h]

/-- `windows[1]` after the fold is the window of the last processed point
of buffer 1 (any nonzero index). -/
theorem esFold_w1 (l : List ESPoint) (s : ESState) :
    (l.foldl esStep s).w1 =
      lastWindow (l.filter fun p => decide (p.bufferIdx ≠ 0)) s.w1 := by
  induction l generalizing s with
  | nil => rfl
  | cons p l ih =>
    rw [List.foldl_cons, ih]
    by_cases h : p.bufferIdx = 0
    · rw [List.filter_cons_of_neg (by simpa using h)]
      congr 1
      simp [esStep, h]
    · rw [List.filter_cons_of_pos (by simpa using h), lastWindow_cons]
      congr 1
      simp [esStep, h]

/-- `last_time` after the fold is the time of the last processed point. -/
theorem esFold_lastTime (l : List ESPoint) (s : ESState) :
    (l.foldl esStep s).lastTime =
      match l.getLast? with
      | some p => some p.timeValue
      | none => s.lastTime := by
  induction l generalizing s with
  | nil => rfl
  | cons p l ih =>
    rw [List.foldl_cons, ih]
    cases l with
    | nil =>
      show (esStep s p).lastTime = some p.timeValue
      unfold esStep
      by_cases h : p.bufferIdx = 0 <;> simp [h]
    | cons q l' =>
      rw [List.getLast?_cons_cons]
      rcases hgl : (q :: l').getLast? with _ | z
      · exact absurd hgl (getLast?_cons_ne_none _ _)
      · simp only [hgl]

/-- The `effective_size` update of one loop iteration, isolated from the
window/time updates (both branches of the buffer-index test share it). -/
theorem esStep_eff (s : ESState) (p : ESPoint) :
    (esStep s p).eff =
      match s.lastTime with
      | none => s.eff
      | some lt =>
        if lt < p.timeValue then
          match s.w0, s.w1 with
          | some wa, some wb =>
            let diff := wa.upper - wb.lower
            match s.eff with
            | none => some diff
            | some e => if e < diff then some diff else some e
          | _, _ => s.eff
        else s.eff := by
  unfold esStep
  by_cases h : p.bufferIdx = 0 <;> simp [h]

/-- The guard under which one loop iteration of `effective_size` records
a value: the time advanced strictly and both windows are present. -/
def checkFires (s : ESState) (p : ESPoint) : Prop :=
  (∃ lt, s.lastTime = some lt ∧ lt < p.timeValue) ∧
    s.w0.isSome = true ∧ s.w1.isSome = true

/-- Some iteration of the remaining loop records a value. -/
def hasCheck : ESState → List ESPoint → Prop
  | _, [] => False
  | s, p :: rest => checkFires s p ∨ hasCheck (esStep s p) rest

theorem hasCheck_nil (s : ESState) : hasCheck s [] ↔ False := Iff.rfl

theorem hasCheck_cons (s : ESState) (p : ESPoint) (l : List ESPoint) :
    hasCheck s (p :: l) ↔ (checkFires s p ∨ hasCheck (esStep s p) l) := Iff.rfl

theorem esStep_eff_isSome (s : ESState) (p : ESPoint) :
    ((esStep s p).eff.isSome = true) ↔ (s.eff.isSome = true ∨ checkFires s p) := by
  constructor
  · intro h
    rw [esStep_eff] at h
    rcases hlt : s.lastTime with _ | lt <;> simp only [hlt] at h
    · exact Or.inl h
    · by_cases ht : lt < p.timeValue
      · rw [if_pos ht] at h
        rcases hw0 : s.w0 with _ | wa <;> simp only [hw0] at h
        · exact Or.inl h
        · rcases hw1 : s.w1 with _ | wb <;> simp only [hw1] at h
          · exact Or.inl h
          · exact Or.inr ⟨⟨lt, hlt, ht⟩, by rw [hw0]; rfl, by rw [hw1]; rfl⟩
      · rw [if_neg ht] at h
        exact Or.inl h
  · intro h
    rw [esStep_eff]
    rcases h with h | ⟨⟨lt, hlt, ht⟩, hw0, hw1⟩
    · rcases hlt : s.lastTime with _ | lt
      · exact h
      · rcases Option.isSome_iff_exists.mp h with ⟨e0, he0⟩
        rcases hw0 : s.w0 with _ | wa
        · repeat' split
          all_goals first | exact h | rfl | (dsimp only; split <;> rfl) | omega | (simp_all; omega) | simp_all
        · rcases hw1 : s.w1 with _ | wb
          · repeat' split
            all_goals first | exact h | rfl | (dsimp only; split <;> rfl) | omega | (simp_all; omega) | simp_all
          · rw [he0]
            repeat' split
            all_goals first | exact h | rfl | (dsimp only; split <;> rfl) | omega | (simp_all; omega) | simp_all
    · rcases Option.isSome_iff_exists.mp hw0 with ⟨wa, hwa⟩
      rcases Option.isSome_iff_exists.mp hw1 with ⟨wb, hwb⟩
      rw [hlt, hwa, hwb]
      rcases heff : s.eff with _ | e0
      · repeat' split
        all_goals first | rfl | (dsimp only; split <;> rfl) | omega | (simp_all; omega) | simp_all
      · repeat' split
        all_goals first | rfl | (dsimp only; split <;> rfl) | omega | (simp_all; omega) | simp_all

/-- The fold's result is `some` exactly when the start state already held
a value or some later iteration records one. -/
theorem esFold_eff_isSome (l : List ESPoint) (s : ESState) :
    ((l.foldl esStep s).eff.isSome = true) ↔
      (s.eff.isSome = true ∨ hasCheck s l) := by
  induction l generalizing s with
  | nil => simp [hasCheck_nil]
  | cons p l ih =>
    rw [List.foldl_cons, ih, esStep_eff_isSome, hasCheck_cons, or_assoc]

/-- `hasCheck` unrolled: some split of the list has its pivot fire the
check on the state accumulated over the prefix. -/
theorem hasCheck_iff_split (l : List ESPoint) (s : ESState) :
    hasCheck s l ↔
      ∃ l1 q l2, l = l1 ++ q :: l2 ∧ checkFires (l1.foldl esStep s) q := by
  induction l generalizing s with
  | nil =>
    constructor
    · intro h
      exact ((hasCheck_nil s).mp h).elim
    · rintro ⟨l1, q, l2, heq, _⟩
      cases l1 <;> simp at heq
  | cons p l ih =>
    rw [hasCheck_cons]
    constructor
    · rintro (hc | hrest)
      · exact ⟨[], p, l, rfl, hc⟩
      · rcases (ih _).mp hrest with ⟨l1, q, l2, heq, hfire⟩
        exact ⟨p :: l1, q, l2, by rw [heq]; rfl, by rw [List.foldl_cons]; exact hfire⟩
    · rintro ⟨l1, q, l2, heq, hfire⟩
      cases l1 with
      | nil =>
        simp only [List.nil_append, List.cons.injEq] at heq
        rcases heq with ⟨rfl, rfl⟩
        exact Or.inl hfire
      | cons c l1' =>
        simp only [List.cons_append, List.cons.injEq] at heq
        rcases heq with ⟨rfl, hl⟩
        refine Or.inr ((ih _).mpr ⟨l1', q, l2, hl, ?_⟩)
        rw [List.foldl_cons] at hfire
        exact hfire

/-- `esLE` implies a non-strict time comparison (`esLE` sorts by time
first). -/
theorem esLE_time {p q : ESPoint} (h : esLE p q) :
    p.timeValue ≤ q.timeValue := by
  rw [esLE_unfold] at h
  rcases h with h | ⟨h, _⟩ <;> omega

theorem esLT_of_time {p q : ESPoint} (h : p.timeValue < q.timeValue) :
    esLT p q := Or.inl h

theorem esLT_of_rank {p q : ESPoint} (ht : p.timeValue = q.timeValue)
    (h : p.pointType.rank < q.pointType.rank) : esLT p q :=
  Or.inr ⟨ht, Or.inl h⟩

/-- Any two members of a pairwise-related list are equal or related one
way or the other. -/
theorem pairwise_mem_cases {α : Type} {R : α → α → Prop} {l : List α}
    (h : l.Pairwise R) {g1 g2 : α} (h1 : g1 ∈ l) (h2 : g2 ∈ l) :
    g1 = g2 ∨ R g1 g2 ∨ R g2 g1 := by
  induction l with
  | nil => cases h1
  | cons a l ih =>
    rcases List.pairwise_cons.mp h with ⟨ha, hl⟩
    rcases List.mem_cons.mp h1 with rfl | h1' <;>
      rcases List.mem_cons.mp h2 with rfl | h2'
    · exact Or.inl rfl
    · exact Or.inr (Or.inl (ha _ h2'))
    · exact Or.inr (Or.inr (ha _ h1'))
    · exact ih hl h1' h2'

/-- In a sorted list, an element strictly above every other member is the
last one. -/
theorem getLast?_of_dominant {l : List ESPoint} (hs : l.Pairwise esLE)
    {x : ESPoint} (hx : x ∈ l) (hdom : ∀ y ∈ l, y = x ∨ esLT y x) :
    l.getLast? = some x := by
  induction l with
  | nil => cases hx
  | cons a l ih =>
    rcases List.pairwise_cons.mp hs with ⟨ha, hl⟩
    cases l with
    | nil =>
      rcases List.mem_singleton.mp hx with rfl
      rfl
    | cons b l' =>
      rw [List.getLast?_cons_cons]
      apply ih hl
      · by_cases hxl : x ∈ b :: l'
        · exact hxl
        · exfalso
          rcases List.mem_cons.mp hx with rfl | hxl2
          · rcases hdom b (by simp) with rfl | hlt
            · exact hxl (by simp)
            · exact (ha b (by simp)) hlt
          · exact hxl hxl2
      · intro y hy
        exact hdom y (List.mem_cons_of_mem _ hy)

/-- A nonempty set of gaps ending no later than `t` has one with maximal
upper endpoint. -/
theorem exists_max_gap {l : List Gap} {t : Int}
    (h : ∃ g ∈ l, g.lifespan.upper ≤ t) :
    ∃ g₀ ∈ l, g₀.lifespan.upper ≤ t ∧
      ∀ g ∈ l, g.lifespan.upper ≤ t →
        g.lifespan.upper ≤ g₀.lifespan.upper := by
  induction l with
  | nil =>
    rcases h with ⟨g, hg, _⟩
    cases hg
  | cons a l ih =>
    by_cases hl : ∃ g ∈ l, g.lifespan.upper ≤ t
    · rcases ih hl with ⟨g₀, hg₀m, hg₀t, hmax⟩
      by_cases hat : a.lifespan.upper ≤ t
      · by_cases hcmp : g₀.lifespan.upper ≤ a.lifespan.upper
        · refine ⟨a, by simp, hat, ?_⟩
          intro g hgm hgt
          rcases List.mem_cons.mp hgm with rfl | hm
          · exact le_refl _
          · exact le_trans (hmax g hm hgt) hcmp
        · refine ⟨g₀, by simp [hg₀m], hg₀t, ?_⟩
          intro g hgm hgt
          rcases List.mem_cons.mp hgm with rfl | hm
          · omega
          · exact hmax g hm hgt
      · refine ⟨g₀, by simp [hg₀m], hg₀t, ?_⟩
        intro g hgm hgt
        rcases List.mem_cons.mp hgm with rfl | hm
        · exact absurd hgt hat
        · exact hmax g hm hgt
    · rcases h with ⟨g, hgm, hgt⟩
      rcases List.mem_cons.mp hgm with rfl | hm
      · refine ⟨g, by simp, hgt, ?_⟩
        intro g' hg'm hg't
        rcases List.mem_cons.mp hg'm with rfl | hm'
        · exact le_refl _
        · exact absurd ⟨g', hm', hg't⟩ hl
      · exact absurd ⟨g, hm, hgt⟩ hl

/-- Every member of a sorted list has time at most the last member's. -/
theorem time_le_getLast {l : List ESPoint} (hs : l.Pairwise esLE)
    {z : ESPoint} (hz : l.getLast? = some z) :
    ∀ p ∈ l, p.timeValue ≤ z.timeValue := by
  induction l with
  | nil => intro p hp; cases hp
  | cons a l ih =>
    rcases List.pairwise_cons.mp hs with ⟨ha, hl⟩
    cases l with
    | nil =>
      intro p hp
      rcases List.mem_singleton.mp hp with rfl
      simp at hz
      exact le_of_eq (by rw [hz])
    | cons b l' =>
      rw [List.getLast?_cons_cons] at hz
      intro p hp
      rcases List.mem_cons.mp hp with rfl | hp'
      · have hzmem : z ∈ b :: l' := by
          rcases hzl : (b :: l').getLast? with _ | z'
          · exact absurd hzl (getLast?_cons_ne_none _ _)
          · rw [hzl] at hz
            injection hz with hz
            subst hz
            exact mem_of_getLast?_eq hzl
        exact esLE_time (ha z hzmem)
      · exact ih hl hz p hp'

/-- In a sorted split `l1 ++ q :: l2` with every `l1` time at most `t`
and `q` strictly beyond `t`, the time-`t` prefix filter returns `l1`. -/
theorem filter_eq_prefix {l1 l2 : List ESPoint} {q : ESPoint} {t : Int}
    (hsort : (l1 ++ q :: l2).Pairwise esLE)
    (hl1 : ∀ p ∈ l1, p.timeValue ≤ t)
    (hq : t < q.timeValue) :
    (l1 ++ q :: l2).filter (fun p => decide (p.timeValue ≤ t)) = l1 := by
  rcases List.pairwise_append.mp hsort with ⟨_, hql2, _⟩
  rcases List.pairwise_cons.mp hql2 with ⟨hqr, _⟩
  rw [List.filter_append]
  have h1 : l1.filter (fun p => decide (p.timeValue ≤ t)) = l1 :=
    List.filter_eq_self.mpr (fun p hp => by simpa using hl1 p hp)
  have h2 : (q :: l2).filter (fun p => decide (p.timeValue ≤ t)) = [] := by
    apply List.filter_eq_nil_iff.mpr
    intro p hp
    rcases List.mem_cons.mp hp with rfl | hp'
    · simp
      omega
    · have := esLE_time (hqr p hp')
      simp
      omega
  rw [h1, h2, List.append_nil]

/-- On a sorted list, filtering by a time cutoff is taking the initial
segment. -/
theorem filter_time_eq_takeWhile {l : List ESPoint} (hs : l.Pairwise esLE)
    (t : Int) :
    l.filter (fun p => decide (p.timeValue ≤ t)) =
      l.takeWhile (fun p => decide (p.timeValue ≤ t)) := by
  induction l with
  | nil => rfl
  | cons a l ih =>
    rcases List.pairwise_cons.mp hs with ⟨ha, hl⟩
    by_cases h : a.timeValue ≤ t
    · rw [List.filter_cons_of_pos (by simpa using h),
        List.takeWhile_cons_of_pos (by simpa using h), ih hl]
    · rw [List.filter_cons_of_neg (by simpa using h),
        List.takeWhile_cons_of_neg (by simpa using h)]
      apply List.filter_eq_nil_iff.mpr
      intro p hp
      have := esLE_time (ha p hp)
      simp
      omega

/-- The head of `dropWhile` fails the predicate. -/
theorem dropWhile_head_false {α : Type} {p : α → Bool} {l : List α}
    {a : α} {l' : List α} (h : l.dropWhile p = a :: l') : p a = false := by
  induction l with
  | nil => cases h
  | cons b l ih =>
    rw [List.dropWhile_cons] at h
    by_cases hpb : p b = true
    · rw [if_pos hpb] at h
      exact ih h
    · rw [if_neg hpb] at h
      injection h with h1 _
      subst h1
      cases hpv : p b
      · rfl
      · exact absurd hpv hpb

/-- Characterisation of the per-buffer window state after processing the
time-`t` prefix of the sorted merged point list: filtering the prefix to
the buffer's points, the window of the last one is `some` exactly when
the buffer is live at `t`.  `pj` selects the buffer's points (buffer
index equal, respectively different from, zero). -/
theorem lastWindow_filter_live (j : Nat) (b : Buffer)
    (hls : b.lifespan.lower ≤ b.lifespan.upper)
    (hg : ∀ g ∈ b.gaps, b.lifespan.lower ≤ g.lifespan.lower ∧
        g.lifespan.lower ≤ g.lifespan.upper ∧
        g.lifespan.upper ≤ b.lifespan.upper)
    (hsep : b.gaps.Pairwise fun g1 g2 => g1.lifespan.upper < g2.lifespan.lower)
    (L : List ESPoint) (pj : ESPoint → Bool)
    (hsort : L.Pairwise esLE)
    (hmem : ∀ q, (q ∈ L ∧ pj q = true) ↔ q ∈ esPointsFor j b)
    (t : Int) :
    ((lastWindow ((L.filter fun p => decide (p.timeValue ≤ t)).filter pj)
        none).isSome = true) ↔ LiveAt b t := by
  set F := (L.filter fun p => decide (p.timeValue ≤ t)).filter pj with hFdef
  have hF : ∀ q, q ∈ F ↔ (q ∈ esPointsFor j b ∧ q.timeValue ≤ t) := by
    intro q
    rw [hFdef]
    simp only [List.mem_filter, decide_eq_true_eq]
    constructor
    · rintro ⟨⟨hqL, hqt⟩, hpj⟩
      exact ⟨(hmem q).mp ⟨hqL, hpj⟩, hqt⟩
    · rintro ⟨hq, hqt⟩
      rcases (hmem q).mpr hq with ⟨hqL, hpj⟩
      exact ⟨⟨hqL, hqt⟩, hpj⟩
  have hFs : F.Pairwise esLE := (hsort.filter _).filter _
  unfold LiveAt
  by_cases h1 : t < b.lifespan.lower
  · -- before the lifespan: no point of the buffer has been processed
    have hFnil : F = [] := by
      rw [List.eq_nil_iff_forall_not_mem]
      intro q hq
      rcases (hF q).mp hq with ⟨hqm, hqt⟩
      rcases (mem_esPointsFor j b q).mp hqm with rfl | rfl | ⟨g, hgm, rfl | rfl⟩
      · have h2 : b.lifespan.lower ≤ t := hqt
        omega
      · have h2 : b.lifespan.upper ≤ t := hqt
        omega
      · obtain ⟨ha1, ha2, ha3⟩ := hg g hgm
        have h2 : g.lifespan.lower ≤ t := hqt
        omega
      · obtain ⟨ha1, ha2, ha3⟩ := hg g hgm
        have h2 : g.lifespan.upper ≤ t := hqt
        omega
    rw [hFnil]
    constructor
    · intro hcon
      simp [lastWindow] at hcon
    · rintro ⟨hcon, _, _⟩
      omega
  push_neg at h1
  by_cases h2 : ∃ g ∈ b.gaps, g.lifespan.lower ≤ t ∧ t < g.lifespan.upper
  · -- t lies inside a gap: the gap's opening point wins
    rcases h2 with ⟨g, hgm, hgl, hgu⟩
    have hdom : F.getLast? =
        some ⟨j, g.lifespan.lower, .kRightGap, g.window⟩ := by
      apply getLast?_of_dominant hFs
      · rw [hF]
        exact ⟨(mem_esPointsFor j b _).mpr
          (Or.inr (Or.inr ⟨g, hgm, Or.inl rfl⟩)), hgl⟩
      · intro y hy
        rcases (hF y).mp hy with ⟨hym, hyt⟩
        rcases (mem_esPointsFor j b y).mp hym with rfl | rfl | ⟨g', hg'm, rfl | rfl⟩
        · have hbl := (hg g hgm).1
          rcases lt_or_eq_of_le hbl with hlt | heq
          · exact Or.inr (esLT_of_time hlt)
          · exact Or.inr (esLT_of_rank heq (show (0 : Int) < 1 by decide))
        · exfalso
          have h4 : b.lifespan.upper ≤ t := hyt
          obtain ⟨ha1, ha2, ha3⟩ := hg g hgm
          omega
        · by_cases hgg : g' = g
          · subst hgg
            exact Or.inl rfl
          · rcases pairwise_mem_cases hsep hg'm hgm with heq | hlt | hlt
            · exact absurd heq hgg
            · obtain ⟨ha1, ha2, ha3⟩ := hg g' hg'm
              exact Or.inr (esLT_of_time
                (show g'.lifespan.lower < g.lifespan.lower by omega))
            · exfalso
              have h4 : g'.lifespan.lower ≤ t := hyt
              omega
        · by_cases hgg : g' = g
          · subst hgg
            exfalso
            have h4 : g'.lifespan.upper ≤ t := hyt
            omega
          · rcases pairwise_mem_cases hsep hg'm hgm with heq | hlt | hlt
            · exact absurd heq hgg
            · exact Or.inr (esLT_of_time
                (show g'.lifespan.upper < g.lifespan.lower by omega))
            · exfalso
              obtain ⟨ha1, ha2, ha3⟩ := hg g' hg'm
              have h4 : g'.lifespan.upper ≤ t := hyt
              omega
    have hlw : lastWindow F none = g.window := by
      unfold lastWindow
      rw [hdom]
    rw [hlw]
    constructor
    · intro hws
      refine ⟨h1, ?_, ?_⟩
      · obtain ⟨ha1, ha2, ha3⟩ := hg g hgm
        omega
      · rintro g' hg'm hg'w ⟨hc1, hc2⟩
        by_cases hgg : g' = g
        · subst hgg
          rw [hg'w] at hws
          simp at hws
        · rcases pairwise_mem_cases hsep hg'm hgm with heq | hlt | hlt
          · exact absurd heq hgg
          · omega
          · omega
    · rintro ⟨_, _, hng⟩
      rcases hw : g.window with _ | w
      · exact absurd ⟨hgl, hgu⟩ (hng g hgm hw)
      · rfl
  · push_neg at h2
    by_cases h3 : t < b.lifespan.upper
    · by_cases hS : ∃ g ∈ b.gaps, g.lifespan.upper ≤ t
      · -- alive after the latest closed gap
        rcases exists_max_gap hS with ⟨g₀, hg₀m, hg₀t, hmax⟩
        have hdom : F.getLast? =
            some ⟨j, g₀.lifespan.upper, .kLeftGap, some ⟨0, b.size⟩⟩ := by
          apply getLast?_of_dominant hFs
          · rw [hF]
            exact ⟨(mem_esPointsFor j b _).mpr
              (Or.inr (Or.inr ⟨g₀, hg₀m, Or.inr rfl⟩)), hg₀t⟩
          · intro y hy
            rcases (hF y).mp hy with ⟨hym, hyt⟩
            rcases (mem_esPointsFor j b y).mp hym with rfl | rfl | ⟨g', hg'm, rfl | rfl⟩
            · obtain ⟨ha1, ha2, ha3⟩ := hg g₀ hg₀m
              rcases lt_or_eq_of_le
                  (show b.lifespan.lower ≤ g₀.lifespan.upper by omega) with hlt | heq
              · exact Or.inr (esLT_of_time hlt)
              · exact Or.inr (esLT_of_rank heq (show (0 : Int) < 2 by decide))
            · exfalso
              have h4 : b.lifespan.upper ≤ t := hyt
              omega
            · have h4 : g'.lifespan.lower ≤ t := hyt
              have hg'S := h2 g' hg'm h4
              have hmax' := hmax g' hg'm hg'S
              obtain ⟨ha1, ha2, ha3⟩ := hg g' hg'm
              rcases lt_or_eq_of_le
                  (show g'.lifespan.lower ≤ g₀.lifespan.upper by omega) with hlt | heq
              · exact Or.inr (esLT_of_time hlt)
              · exact Or.inr (esLT_of_rank heq (show (1 : Int) < 2 by decide))
            · have h4 : g'.lifespan.upper ≤ t := hyt
              have hmax' := hmax g' hg'm h4
              rcases lt_or_eq_of_le hmax' with hlt | heq
              · exact Or.inr (esLT_of_time hlt)
              · left
                rw [show g'.lifespan.upper = g₀.lifespan.upper from heq]
        have hlw : lastWindow F none = some ⟨0, b.size⟩ := by
          unfold lastWindow
          rw [hdom]
        rw [hlw]
        constructor
        · intro _
          refine ⟨h1, h3, ?_⟩
          rintro g' hg'm hg'w ⟨hc1, hc2⟩
          have := h2 g' hg'm hc1
          omega
        · intro _
          rfl
      · -- alive, no gap has closed yet: the opening point wins
        push_neg at hS
        have hdom : F.getLast? =
            some ⟨j, b.lifespan.lower, .kLeft, some ⟨0, b.size⟩⟩ := by
          apply getLast?_of_dominant hFs
          · rw [hF]
            exact ⟨(mem_esPointsFor j b _).mpr (Or.inl rfl), h1⟩
          · intro y hy
            rcases (hF y).mp hy with ⟨hym, hyt⟩
            rcases (mem_esPointsFor j b y).mp hym with rfl | rfl | ⟨g', hg'm, rfl | rfl⟩
            · exact Or.inl rfl
            · exfalso
              have h4 : b.lifespan.upper ≤ t := hyt
              omega
            · exfalso
              have h4 : g'.lifespan.lower ≤ t := hyt
              have h5 := h2 g' hg'm h4
              have h6 := hS g' hg'm
              omega
            · exfalso
              have h4 : g'.lifespan.upper ≤ t := hyt
              have h6 := hS g' hg'm
              omega
        have hlw : lastWindow F none = some ⟨0, b.size⟩ := by
          unfold lastWindow
          rw [hdom]
        rw [hlw]
        constructor
        · intro _
          refine ⟨h1, h3, ?_⟩
          rintro g' hg'm hg'w ⟨hc1, hc2⟩
          have := h2 g' hg'm hc1
          omega
        · intro _
          rfl
    · -- at or past the end of the lifespan: the closing point wins
      push_neg at h3
      have hdom : F.getLast? = some ⟨j, b.lifespan.upper, .kRight, none⟩ := by
        apply getLast?_of_dominant hFs
        · rw [hF]
          exact ⟨(mem_esPointsFor j b _).mpr (Or.inr (Or.inl rfl)), h3⟩
        · intro y hy
          rcases (hF y).mp hy with ⟨hym, hyt⟩
          rcases (mem_esPointsFor j b y).mp hym with rfl | rfl | ⟨g', hg'm, rfl | rfl⟩
          · rcases lt_or_eq_of_le hls with hlt | heq
            · exact Or.inr (esLT_of_time hlt)
            · exact Or.inr (esLT_of_rank heq (show (0 : Int) < 3 by decide))
          · exact Or.inl rfl
          · obtain ⟨ha1, ha2, ha3⟩ := hg g' hg'm
            rcases lt_or_eq_of_le
                (show g'.lifespan.lower ≤ b.lifespan.upper by omega) with hlt | heq
            · exact Or.inr (esLT_of_time hlt)
            · exact Or.inr (esLT_of_rank heq (show (1 : Int) < 3 by decide))
          · obtain ⟨ha1, ha2, ha3⟩ := hg g' hg'm
            rcases lt_or_eq_of_le ha3 with hlt | heq
            · exact Or.inr (esLT_of_time hlt)
            · exact Or.inr (esLT_of_rank heq (show (2 : Int) < 3 by decide))
      have hlw : lastWindow F none = none := by
        unfold lastWindow
        rw [hdom]
      rw [hlw]
      constructor
      · intro hcon
        simp at hcon
      · rintro ⟨_, hcon, _⟩
        omega

end MM

namespace MM

theorem mem_takeWhile_imp' {α : Type} {p : α → Bool} {l : List α} {a : α}
    (h : a ∈ l.takeWhile p) : p a = true := by
  induction l with
  | nil => cases h
  | cons b l ih =>
    rw [List.takeWhile_cons] at h
    by_cases hpb : p b = true
    · rw [if_pos hpb] at h
      rcases List.mem_cons.mp h with rfl | h'
      · exact hpb
      · exact ih h'
    · rw [if_neg hpb] at h
      cases h

/-- Bound invariant of the `effective_size` fold: when every buffer-0
window in the list has upper at most `sz` and every other-buffer window
has nonnegative lower, any recorded value is at most `sz`. -/
theorem esFold_bound (sz : Int) (l : List ESPoint)
    (hl : ∀ p ∈ l,
      (p.bufferIdx = 0 → ∀ w, p.window = some w → w.upper ≤ sz) ∧
      (p.bufferIdx ≠ 0 → ∀ w, p.window = some w → 0 ≤ w.lower)) :
    ∀ s : ESState,
      (∀ w, s.w0 = some w → w.upper ≤ sz) →
      (∀ w, s.w1 = some w → 0 ≤ w.lower) →
      (∀ e, s.eff = some e → e ≤ sz) →
      ∀ e, (l.foldl esStep s).eff = some e → e ≤ sz := by
  induction l with
  | nil =>
    intro s h0 h1 he e hfold
    exact he e hfold
  | cons p l ih =>
    intro s h0 h1 he e hfold
    rw [List.foldl_cons] at hfold
    obtain ⟨hp0, hp1⟩ := hl p (List.mem_cons_self _ _)
    refine ih (fun p' hp' => hl p' (List.mem_cons_of_mem _ hp'))
      (esStep s p) ?_ ?_ ?_ e hfold
    · intro w hw
      by_cases hb : p.bufferIdx = 0
      · simp [esStep, hb] at hw
        exact hp0 hb w hw
      · simp [esStep, hb] at hw
        exact h0 w hw
    · intro w hw
      by_cases hb : p.bufferIdx = 0
      · simp [esStep, hb] at hw
        exact h1 w hw
      · simp [esStep, hb] at hw
        exact hp1 hb w hw
    · intro e' he'
      rw [esStep_eff] at he'
      rcases hlt : s.lastTime with _ | lt <;> simp only [hlt] at he'
      · exact he e' he'
      · by_cases ht : lt < p.timeValue
        · rw [if_pos ht] at he'
          rcases hw0 : s.w0 with _ | wa <;> simp only [hw0] at he'
          · exact he e' he'
          · rcases hw1 : s.w1 with _ | wb <;> simp only [hw1] at he'
            · exact he e' he'
            · have hwa := h0 wa hw0
              have hwb := h1 wb hw1
              rcases heff : s.eff with _ | e0 <;> simp only [heff] at he'
              · injection he' with he''
                omega
              · have he0 := he e0 heff
                by_cases hcmp : e0 < wa.upper - wb.lower
                · rw [if_pos hcmp] at he'
                  injection he' with he''
                  omega
                · rw [if_neg hcmp] at he'
                  injection he' with he''
                  omega
        · rw [if_neg ht] at he'
          exact he e' he'

/-- Window bounds of every point pushed by `effective_size`: buffer 0
windows end no higher than `a.size`, buffer 1 windows start at 0 or
higher. -/
theorem esPoints_window_bounds (a x : Buffer)
    (hwa : ∀ g ∈ a.gaps, windowWF a.size g.window)
    (hwx : ∀ g ∈ x.gaps, windowWF x.size g.window) :
    ∀ p ∈ esPoints a x,
      (p.bufferIdx = 0 → ∀ w, p.window = some w → w.upper ≤ a.size) ∧
      (p.bufferIdx ≠ 0 → ∀ w, p.window = some w → 0 ≤ w.lower) := by
  intro p hp
  unfold esPoints at hp
  simp only [List.mem_append, List.mem_cons, List.mem_flatMap,
    List.not_mem_nil, or_false] at hp
  rcases hp with ((rfl | rfl | rfl | rfl) | ⟨g, hgm, rfl | rfl⟩) | ⟨g, hgm, rfl | rfl⟩
  · refine ⟨fun _ w hw => ?_, fun hb => absurd rfl hb⟩
    injection hw with hw
    rw [← hw]
  · exact ⟨fun _ w hw => Option.noConfusion hw, fun hb => absurd rfl hb⟩
  · refine ⟨fun hb => absurd hb Nat.one_ne_zero, fun _ w hw => ?_⟩
    injection hw with hw
    rw [← hw]
  · exact ⟨fun hb => absurd hb Nat.one_ne_zero, fun _ w hw => Option.noConfusion hw⟩
  · exact ⟨fun _ w hw => (windowWF_bounds (hwa g hgm) w hw).2.2,
      fun hb => absurd rfl hb⟩
  · refine ⟨fun _ w hw => ?_, fun hb => absurd rfl hb⟩
    injection hw with hw
    rw [← hw]
  · exact ⟨fun hb => absurd hb Nat.one_ne_zero,
      fun _ w hw => (windowWF_bounds (hwx g hgm) w hw).1⟩
  · refine ⟨fun hb => absurd hb Nat.one_ne_zero, fun _ w hw => ?_⟩
    injection hw with hw
    rw [← hw]

end MM

namespace MM

/-- Core characterisation: `Buffer::effective_size` returns a value iff
the two buffers are simultaneously live at some time. -/
theorem effective_size_isSome_iff (a x : Buffer)
    (hwa : BufferWF a) (hwx : BufferWF x) :
    ((a.effective_size x).isSome = true) ↔
      ∃ t : Int, LiveAt a t ∧ LiveAt x t := by
  obtain ⟨hlsa, hga, hsepa⟩ := hwa
  obtain ⟨hlsx, hgx, hsepx⟩ := hwx
  have hga' : ∀ g ∈ a.gaps, a.lifespan.lower ≤ g.lifespan.lower ∧
      g.lifespan.lower ≤ g.lifespan.upper ∧
      g.lifespan.upper ≤ a.lifespan.upper :=
    fun g hg => ⟨(hga g hg).1, (hga g hg).2.1, (hga g hg).2.2.1⟩
  have hgx' : ∀ g ∈ x.gaps, x.lifespan.lower ≤ g.lifespan.lower ∧
      g.lifespan.lower ≤ g.lifespan.upper ∧
      g.lifespan.upper ≤ x.lifespan.upper :=
    fun g hg => ⟨(hgx g hg).1, (hgx g hg).2.1, (hgx g hg).2.2.1⟩
  unfold Buffer.effective_size
  by_cases hex1 : a.lifespan.upper ≤ x.lifespan.lower
  · rw [if_pos hex1]
    constructor
    · intro hcon
      simp at hcon
    · rintro ⟨t, ⟨_, hau, _⟩, ⟨hxl, _, _⟩⟩
      exfalso
      omega
  · rw [if_neg hex1]
    by_cases hex2 : x.lifespan.upper ≤ a.lifespan.lower
    · rw [if_pos hex2]
      constructor
      · intro hcon
        simp at hcon
      · rintro ⟨t, ⟨hal, _, _⟩, ⟨_, hxu, _⟩⟩
        exfalso
        omega
    · rw [if_neg hex2]
      have hsort : ((esPoints a x).insertionSort esLE).Pairwise esLE :=
        List.sorted_insertionSort esLE (esPoints a x)
      have hperm : ∀ q : ESPoint,
          q ∈ (esPoints a x).insertionSort esLE ↔ q ∈ esPoints a x :=
        fun q => (List.perm_insertionSort esLE (esPoints a x)).mem_iff
      have hmem0 : ∀ q : ESPoint,
          (q ∈ (esPoints a x).insertionSort esLE ∧
            (fun p : ESPoint => decide (p.bufferIdx = 0)) q = true) ↔
          q ∈ esPointsFor 0 a := by
        intro q
        rw [hperm q]
        constructor
        · rintro ⟨hq, hd⟩
          exact (mem_esPoints_buf0 a x q).mp ⟨hq, by simpa using hd⟩
        · intro hq
          rcases (mem_esPoints_buf0 a x q).mpr hq with ⟨hq1, hq2⟩
          exact ⟨hq1, by simpa using hq2⟩
      have hmem1 : ∀ q : ESPoint,
          (q ∈ (esPoints a x).insertionSort esLE ∧
            (fun p : ESPoint => decide (p.bufferIdx ≠ 0)) q = true) ↔
          q ∈ esPointsFor 1 x := by
        intro q
        rw [hperm q]
        constructor
        · rintro ⟨hq, hd⟩
          exact (mem_esPoints_buf1 a x q).mp ⟨hq, by simpa using hd⟩
        · intro hq
          rcases (mem_esPoints_buf1 a x q).mpr hq with ⟨hq1, hq2⟩
          exact ⟨hq1, by simpa using hq2⟩
      rw [esFold_eff_isSome]
      constructor
      · rintro (hcon | hchk)
        · simp at hcon
        · rw [hasCheck_iff_split] at hchk
          rcases hchk with ⟨l1, q, l2, hsplit, ⟨⟨lt, hlt, hlt2⟩, hcw0, hcw1⟩⟩
          have hlast := esFold_lastTime l1 ⟨none, none, none, none⟩
          rw [hlt] at hlast
          rcases hz : l1.getLast? with _ | z
          · rw [hz] at hlast
            exact Option.noConfusion hlast
          · rw [hz] at hlast
            have hltz : lt = z.timeValue := by
              injection hlast
          -- the prefix processed so far is the time-`lt` filter
            have hsplitSorted : (l1 ++ q :: l2).Pairwise esLE := by
              rw [← hsplit]
              exact hsort
            have hl1sorted : l1.Pairwise esLE :=
              (List.pairwise_append.mp hsplitSorted).1
            have hl1le : ∀ p' ∈ l1, p'.timeValue ≤ lt := by
              intro p' hp'
              have := time_le_getLast hl1sorted hz p' hp'
              omega
            have hfilter : ((esPoints a x).insertionSort esLE).filter
                (fun p => decide (p.timeValue ≤ lt)) = l1 := by
              rw [hsplit]
              exact filter_eq_prefix hsplitSorted hl1le hlt2
            rw [esFold_w0] at hcw0
            rw [esFold_w1] at hcw1
            refine ⟨lt, ?_, ?_⟩
            · apply (lastWindow_filter_live 0 a hlsa hga' hsepa _ _
                hsort hmem0 lt).mp
              rw [hfilter]
              exact hcw0
            · apply (lastWindow_filter_live 1 x hlsx hgx' hsepx _ _
                hsort hmem1 lt).mp
              rw [hfilter]
              exact hcw1
      · rintro ⟨t, hla, hlx⟩
        right
        rw [hasCheck_iff_split]
        have htake := filter_time_eq_takeWhile hsort t
        rcases hd : ((esPoints a x).insertionSort esLE).dropWhile
            (fun p => decide (p.timeValue ≤ t)) with _ | ⟨q, l2⟩
        · exfalso
          have hptR : (⟨0, a.lifespan.upper, .kRight, none⟩ : ESPoint) ∈
              (esPoints a x).insertionSort esLE := by
            rw [hperm]
            unfold esPoints
            simp
          have hLeq : (esPoints a x).insertionSort esLE =
              ((esPoints a x).insertionSort esLE).takeWhile
                (fun p => decide (p.timeValue ≤ t)) := by
            conv_lhs => rw [← List.takeWhile_append_dropWhile
              (fun p : ESPoint => decide (p.timeValue ≤ t))
              ((esPoints a x).insertionSort esLE)]
            rw [hd, List.append_nil]
          rw [hLeq] at hptR
          have := mem_takeWhile_imp' hptR
          simp only [decide_eq_true_eq] at this
          have h4 : a.lifespan.upper ≤ t := this
          have h5 := hla.2.1
          omega
        · refine ⟨((esPoints a x).insertionSort esLE).takeWhile
            (fun p => decide (p.timeValue ≤ t)), q, l2, ?_, ?_⟩
          · conv_lhs => rw [← List.takeWhile_append_dropWhile
              (fun p : ESPoint => decide (p.timeValue ≤ t))
              ((esPoints a x).insertionSort esLE)]
            rw [hd]
          · have hptL : (⟨0, a.lifespan.lower, .kLeft,
                some ⟨0, a.size⟩⟩ : ESPoint) ∈
                ((esPoints a x).insertionSort esLE).takeWhile
                  (fun p => decide (p.timeValue ≤ t)) := by
              rw [← htake, List.mem_filter]
              constructor
              · rw [hperm]
                unfold esPoints
                simp
              · simp only [decide_eq_true_eq]
                exact hla.1
            rcases hgl2 : (((esPoints a x).insertionSort esLE).takeWhile
                (fun p => decide (p.timeValue ≤ t))).getLast? with _ | z
            · exfalso
              rw [List.getLast?_eq_none_iff] at hgl2
              rw [hgl2] at hptL
              cases hptL
            · have hzP := mem_takeWhile_imp' (mem_of_getLast?_eq hgl2)
              have hqP := dropWhile_head_false hd
              simp only [decide_eq_true_eq] at hzP
              simp only [decide_eq_false_iff_not] at hqP
              refine ⟨⟨z.timeValue, ?_, by omega⟩, ?_, ?_⟩
              · rw [esFold_lastTime, hgl2]
              · rw [esFold_w0]
                have hlive := (lastWindow_filter_live 0 a hlsa hga' hsepa _ _
                  hsort hmem0 t).mpr hla
                rw [htake] at hlive
                exact hlive
              · rw [esFold_w1]
                have hlive := (lastWindow_filter_live 1 x hlsx hgx' hsepx _ _
                  hsort hmem1 t).mpr hlx
                rw [htake] at hlive
                exact hlive

end MM

namespace MM

/-- **Claim C2 (amended).**  For buffers whose gaps are well formed in the
strict sense — each gap's lifespan inside the buffer's lifespan with
ordered endpoints, gaps pairwise strictly separated (each ends strictly
before the next begins), and every gap window contained in `[0, size]` —
`A.effective_size(B)` returns `none` iff `A` and `B` are never
simultaneously live (a windowless gap suspends liveness), and whenever it
returns a value that value is at most `A.size`. -/
theorem effective_size_spec (a x : Buffer)
    (hwa : BufferWF a) (hwx : BufferWF x) :
    (a.effective_size x = none ↔
      ∀ t : Int, ¬ (LiveAt a t ∧ LiveAt x t)) ∧
    (∀ v : Int, a.effective_size x = some v → v ≤ a.size) := by
  constructor
  · have h := effective_size_isSome_iff a x hwa hwx
    constructor
    · intro hn t hc
      rcases hc with ⟨h1, h2⟩
      have hcon := h.mpr ⟨t, h1, h2⟩
      rw [hn] at hcon
      cases hcon
    · intro hall
      rcases he : a.effective_size x with _ | v
      · rfl
      · exfalso
        rcases h.mp (by rw [he]; rfl) with ⟨t, h1, h2⟩
        exact hall t ⟨h1, h2⟩
  · intro v hv
    unfold Buffer.effective_size at hv
    by_cases hex1 : a.lifespan.upper ≤ x.lifespan.lower
    · rw [if_pos hex1] at hv
      cases hv
    · rw [if_neg hex1] at hv
      by_cases hex2 : x.lifespan.upper ≤ a.lifespan.lower
      · rw [if_pos hex2] at hv
        cases hv
      · rw [if_neg hex2] at hv
        refine esFold_bound a.size _ ?_ ⟨none, none, none, none⟩
          ?_ ?_ ?_ v hv
        · intro p hp
          exact esPoints_window_bounds a x
            (fun g hg => (hwa.2.1 g hg).2.2.2)
            (fun g hg => (hwx.2.1 g hg).2.2.2) p
            ((List.perm_insertionSort esLE (esPoints a x)).mem_iff.mp hp)
        · intro w hw
          cases hw
        · intro w hw
          cases hw
        · intro e he
          cases he

/-- First counterexample buffer: two abutting windowless gaps cover the
whole lifespan, so the buffer is never live; yet the gap boundary at
time 4 emits a `kRightGap` (rank 1) point followed by a `kLeftGap`
(rank 2) point, and the latter re-opens the window. -/
def esCexA : Buffer :=
  { lifespan := ⟨0, 8⟩, size := 2,
    gaps := [⟨⟨0, 4⟩, none⟩, ⟨⟨4, 8⟩, none⟩] }

/-- Second counterexample buffer: plainly live on `[0, 8)`. -/
def esCexB : Buffer :=
  { lifespan := ⟨0, 8⟩, size := 3 }

/-- Counterexample to C2 as stated: `esCexA`'s gaps are well formed in
the claim's sense (inside the lifespan, non-overlapping as half-open
intervals, windows trivially inside `[0, size]`), `esCexA` is never live,
and yet `effective_size` returns `some 2`, not `none`. -/
theorem effective_size_cex :
    (∀ g ∈ esCexA.gaps,
        esCexA.lifespan.lower ≤ g.lifespan.lower ∧
        g.lifespan.lower ≤ g.lifespan.upper ∧
        g.lifespan.upper ≤ esCexA.lifespan.upper ∧
        windowWF esCexA.size g.window) ∧
    esCexA.gaps.Pairwise
      (fun g1 g2 => g1.lifespan.upper ≤ g2.lifespan.lower) ∧
    esCexA.effective_size esCexB = some 2 ∧
    (∀ t : Int, ¬ (LiveAt esCexA t ∧ LiveAt esCexB t)) := by
  refine ⟨by decide, by decide, by decide, ?_⟩
  rintro t ⟨⟨h1, h2, h3⟩, _⟩
  have hg1 := h3 ⟨⟨0, 4⟩, none⟩ (by decide) rfl
  have hg2 := h3 ⟨⟨4, 8⟩, none⟩ (by decide) rfl
  have h1' : (0 : Int) ≤ t := h1
  have h2' : t < (8 : Int) := h2
  have hg1' : ¬ ((0 : Int) ≤ t ∧ t < (4 : Int)) := hg1
  have hg2' : ¬ ((4 : Int) ≤ t ∧ t < (8 : Int)) := hg2
  omega

/-- Witness buffer for the amended C2: one strictly interior windowless
gap. -/
def esWitA : Buffer :=
  { lifespan := ⟨0, 6⟩, size := 5, gaps := [⟨⟨1, 2⟩, none⟩] }

/-- Witness partner for the amended C2. -/
def esWitB : Buffer :=
  { lifespan := ⟨3, 9⟩, size := 4 }

/-- Witness for the amended C2: both buffers are well formed and the
specification holds for them. -/
theorem effective_size_spec_witness :
    BufferWF esWitA ∧ BufferWF esWitB ∧
    ((esWitA.effective_size esWitB = none ↔
        ∀ t : Int, ¬ (LiveAt esWitA t ∧ LiveAt esWitB t)) ∧
      (∀ v : Int, esWitA.effective_size esWitB = some v →
        v ≤ esWitA.size)) :=
  ⟨by decide, by decide,
    effective_size_spec esWitA esWitB (by decide) (by decide)⟩

end MM

namespace MM

/-! ## Solver embedding (solver.h / solver.cc)

The branch-and-bound solver is translated with explicit state passing:
the mutable members of `SolverImpl` become an `ImplState` record, and the
`backtracks_` counter referenced from `Solver` threads through as an
integer.  Time is not modelled: the claims below assume an infinite
timeout and no cancellation, so the deadline test in `SearchSolutions`
is the constant `false`.  The unbounded recursions (`SearchSolutions` /
`DynamicallyDecompose` / `SubSolve`, the `RoundRobin` doubling loop and
the capacity binary search) take an explicit fuel argument, decreased on
every call; every theorem below exercises only executions that finish
within the supplied fuel.  Hash sets of section indices are modelled as
canonically sorted lists (iteration order does not affect the final
state, as the touched sections are distinct within each loop). -/

/-- SolverParams from solver.h (the timeout is fixed at infinity, so it
carries no field here). -/
structure SolverParams where
  canonical_only : Bool := true
  section_inference : Bool := true
  dynamic_ordering : Bool := true
  check_dominance : Bool := true
  unallocated_floor : Bool := true
  static_preordering : Bool := true
  dynamic_decomposition : Bool := true
  monotonic_floor : Bool := true
  hatless_pruning : Bool := true
  minimize_capacity : Bool := false
  preordering_heuristics : List (List Char) :=
    [['W', 'A', 'T'], ['T', 'A', 'W'], ['T', 'W', 'A']]
deriving DecidableEq, Repr

/-- PreorderData from solver.h. -/
structure PreorderData where
  area : Int := 0
  lower : Int := 0
  overlaps : Nat := 0
  sections : Int := 0
  size : Int := 0
  total : Int := 0
  upper : Int := 0
  width : Int := 0
  buffer_idx : Nat := 0
deriving DecidableEq, Repr, Inhabited

/-- OrderData from solver.cc. -/
structure OrderData where
  offset : Int := 0
  preorder_idx : Nat := 0
deriving DecidableEq, Repr, Inhabited

/-- OffsetChange from solver.cc. -/
structure OffsetChange where
  buffer_idx : Nat
  min_offset : Int
deriving DecidableEq, Repr

/-- SectionChange from solver.cc. -/
structure SectionChange where
  section_idx : Int
  floor : Int
deriving DecidableEq, Repr

/-- SectionData from solver.cc. -/
structure SectionData where
  floor : Int := 0
  total : Int := 0
deriving DecidableEq, Repr, Inhabited

/-- Status codes of the absl statuses the solver produces. -/
inductive SC where
  | ok
  | notFound
  | aborted
  | deadlineExceeded
deriving DecidableEq, Repr

/-- `std::numeric_limits<int64_t>::max()`. -/
def int64Max : Int := 9223372036854775807

/-- `kNoOffset` from solver.cc. -/
def kNoOffset : Int := -1

/-- The index list of `for (i = lo; i < hi; ++i)`. -/
def intFor (lo hi : Int) : List Int :=
  (List.range (hi - lo).toNat).map fun k => lo + (k : Int)

/-- PreorderingComparator::operator() from solver.cc: walk the heuristic
string; the first character whose field differs decides (greater first);
buffer index breaks all ties. -/
def preorderCmp : List Char → PreorderData → PreorderData → Bool
  | [], a, b => decide (a.buffer_idx < b.buffer_idx)
  | c :: rest, a, b =>
    if c = 'A' then
      if a.area ≠ b.area then decide (b.area < a.area) else preorderCmp rest a b
    else if c = 'C' then
      if a.sections ≠ b.sections then decide (b.sections < a.sections)
      else preorderCmp rest a b
    else if c = 'L' then
      if a.lower ≠ b.lower then decide (b.lower < a.lower)
      else preorderCmp rest a b
    else if c = 'O' then
      if a.overlaps ≠ b.overlaps then decide (b.overlaps < a.overlaps)
      else preorderCmp rest a b
    else if c = 'T' then
      if a.total ≠ b.total then decide (b.total < a.total)
      else preorderCmp rest a b
    else if c = 'U' then
      if a.upper ≠ b.upper then decide (b.upper < a.upper)
      else preorderCmp rest a b
    else if c = 'W' then
      if a.width ≠ b.width then decide (b.width < a.width)
      else preorderCmp rest a b
    else if c = 'Z' then
      if a.size ≠ b.size then decide (b.size < a.size)
      else preorderCmp rest a b
    else preorderCmp rest a b

/-- The non-strict order induced by the preordering comparator; used to
model `absl::c_sort` (the comparator is a total strict order because
buffer indices are distinct, so the sort result is unique). -/
def pdLE (h : List Char) (a b : PreorderData) : Prop :=
  ¬ preorderCmp h b a = true

instance (h : List Char) (a b : PreorderData) : Decidable (pdLE h a b) := by
  unfold pdLE
  infer_instance

/-- kDynamicComparator from solver.cc: by offset, then preorder index. -/
def dynCmp (a b : OrderData) : Bool :=
  if a.offset ≠ b.offset then decide (a.offset < b.offset)
  else decide (a.preorder_idx < b.preorder_idx)

/-- The non-strict order induced by `kDynamicComparator`. -/
def odLE (a b : OrderData) : Prop := ¬ dynCmp b a = true

instance (a b : OrderData) : Decidable (odLE a b) := by
  unfold odLE
  infer_instance

/-- The context a `SolverImpl` closes over: params, problem and the
sweep result. -/
structure ImplCtx where
  params : SolverParams
  problem : Problem
  sweep : SweepResult
deriving Repr

/-- The mutable members of `SolverImpl`, plus the `backtracks_` counter
the `Solver` passes in by reference. -/
structure ImplState where
  assignment : List Int := []
  solution : Solution := {}
  minOffsets : List Int := []
  sectionData : List SectionData := []
  cuts : List Int := []
  nodesRemaining : Int := int64Max
  backtracks : Int := 0
deriving DecidableEq, Repr

/-- Read of `section_data_[s_idx]` (all C++ accesses are in range). -/
def sdGet (l : List SectionData) (i : Int) : SectionData :=
  l.getD i.toNat {}

/-- Write of `section_data_[s_idx]`. -/
def sdSet (l : List SectionData) (i : Int) (v : SectionData) :
    List SectionData :=
  if 0 ≤ i then l.set i.toNat v else l

/-- SolverImpl::UpdateSolutionHeight from solver.cc. -/
def UpdateSolutionHeight (ctx : ImplCtx) (st : ImplState) : ImplState :=
  let h := (List.range ctx.problem.buffers.length).foldl
    (fun h idx =>
      max h ((ctx.problem.buffers.getD idx default).size +
        st.solution.offsets.getD idx 0))
    st.solution.height
  { st with solution := { st.solution with height := h } }

/-- SolverImpl::Check from solver.cc. -/
def Check (ctx : ImplCtx) (st : ImplState) (partition : Partition)
    (offset : Int) : Bool :=
  (intFor partition.sectionRange.lower partition.sectionRange.upper).all
    fun s =>
      let sd := sdGet st.sectionData s
      let floor := if ctx.params.monotonic_floor then max offset sd.floor
        else sd.floor
      let floor := if ctx.params.section_inference then floor + sd.total
        else floor
      !(decide (ctx.problem.capacity < floor))

/-- SolverImpl::ComputeOrdering from solver.cc. -/
def ComputeOrdering (ctx : ImplCtx) (st : ImplState)
    (preordering : List PreorderData) (origOrdering : List OrderData) :
    List OrderData :=
  let ordering := origOrdering.filterMap fun od =>
    let bidx := (preordering.getD od.preorder_idx default).buffer_idx
    if st.assignment.getD bidx kNoOffset ≠ kNoOffset then none
    else some { offset := st.minOffsets.getD bidx 0,
                preorder_idx := od.preorder_idx }
  if ctx.params.dynamic_ordering then ordering.insertionSort odLE
  else ordering

/-- SolverImpl::CalcMinHeight from solver.cc. -/
def CalcMinHeight (ctx : ImplCtx) (preordering : List PreorderData)
    (ordering : List OrderData) : Int :=
  ordering.foldl
    (fun mh od =>
      let bidx := (preordering.getD od.preorder_idx default).buffer_idx
      min mh (od.offset + (ctx.problem.buffers.getD bidx default).size))
    int64Max

/-- SolverImpl::UpdateSectionData from solver.cc; returns the recorded
changes alongside the new state. -/
def UpdateSectionData (ctx : ImplCtx) (st : ImplState)
    (affectedSections : List Nat) (bufferIdx : Nat) :
    List SectionChange × ImplState :=
  let offset := st.assignment.getD bufferIdx kNoOffset
  let bd := ctx.sweep.buffer_data.getD bufferIdx {}
  let (changes, sd) := bd.sectionSpans.foldl
    (fun (acc : List SectionChange × List SectionData) span =>
      let height := offset + span.window.upper
      (intFor span.sectionRange.lower span.sectionRange.upper).foldl
        (fun (acc : List SectionChange × List SectionData) s =>
          let (changes, sd) := acc
          let old := sdGet sd s
          (changes ++ [⟨s, old.floor⟩],
           sdSet sd s { floor := height,
                        total := old.total -
                          (span.window.upper - span.window.lower) }))
        acc)
    ([], st.sectionData)
  let (changes, sd) := affectedSections.foldl
    (fun (acc : List SectionChange × List SectionData) (sNat : Nat) =>
      let (changes, sd) := acc
      let s : Int := Int.ofNat sNat
      let minOffset := (ctx.sweep.sections.getD sNat []).foldl
        (fun m otherIdx =>
          if st.assignment.getD otherIdx kNoOffset = kNoOffset then
            min m (st.minOffsets.getD otherIdx 0)
          else m)
        int64Max
      let old := sdGet sd s
      if minOffset ≠ int64Max ∧ old.floor < minOffset then
        (changes ++ [⟨s, old.floor⟩],
         sdSet sd s { old with floor := minOffset })
      else (changes, sd))
    (changes, sd)
  (changes, { st with sectionData := sd })

/-- SolverImpl::RestoreSectionData from solver.cc. -/
def RestoreSectionData (ctx : ImplCtx) (st : ImplState)
    (changes : List SectionChange) (bufferIdx : Nat) : ImplState :=
  let sd := changes.reverse.foldl
    (fun sd c => sdSet sd c.section_idx { sdGet sd c.section_idx with
      floor := c.floor })
    st.sectionData
  let bd := ctx.sweep.buffer_data.getD bufferIdx {}
  let sd := bd.sectionSpans.foldl
    (fun sd span =>
      (intFor span.sectionRange.lower span.sectionRange.upper).foldl
        (fun sd s =>
          let old := sdGet sd s
          sdSet sd s { old with total := old.total +
            (span.window.upper - span.window.lower) })
        sd)
    sd
  { st with sectionData := sd }

/-- SolverImpl::UpdateMinOffsets from solver.cc; returns the optional
change list, the affected-section set, the fixed-offset failure flag and
the new state. -/
def UpdateMinOffsets (ctx : ImplCtx) (st : ImplState) (bufferIdx : Nat) :
    Option (List OffsetChange) × List Nat × Bool × ImplState :=
  let offset := st.assignment.getD bufferIdx kNoOffset
  let bd := ctx.sweep.buffer_data.getD bufferIdx {}
  let (hatless, changes, affected, fof, minOffs) := bd.overlaps.foldl
    (fun (acc : Bool × List OffsetChange × List Nat × Bool × List Int) ov =>
      let (hatless, changes, affected, fof, minOffs) := acc
      let otherIdx := ov.1
      if st.assignment.getD otherIdx kNoOffset ≠ kNoOffset then acc
      else
        let hatless := false
        let height := offset + ov.2
        if minOffs.getD otherIdx 0 ≥ height then
          (hatless, changes, affected, fof, minOffs)
        else
          let changes := changes ++ [⟨otherIdx, minOffs.getD otherIdx 0⟩]
          let minOffs := minOffs.set otherIdx height
          let other := ctx.problem.buffers.getD otherIdx default
          let diff := Int.tmod (minOffs.getD otherIdx 0) other.alignment
          let minOffs := if 0 < diff then
              minOffs.set otherIdx
                (minOffs.getD otherIdx 0 + other.alignment - diff)
            else minOffs
          let fof := fof || (match other.offset with
            | some o => decide (o < minOffs.getD otherIdx 0)
            | none => false)
          let affected :=
            if ctx.params.unallocated_floor then
              let obd := ctx.sweep.buffer_data.getD otherIdx {}
              obd.sectionSpans.foldl
                (fun aff span =>
                  (intFor span.sectionRange.lower
                    span.sectionRange.upper).foldl
                    (fun aff s => sinsert s.toNat aff) aff)
                affected
            else affected
          (hatless, changes, affected, fof, minOffs))
    (true, [], [], false, st.minOffsets)
  let st := { st with minOffsets := minOffs }
  if hatless then (none, affected, fof, st)
  else (some changes, affected, fof, st)

/-- SolverImpl::RestoreMinOffsets from solver.cc. -/
def RestoreMinOffsets (st : ImplState) (changes : List OffsetChange) :
    ImplState :=
  let mo := changes.reverse.foldl
    (fun mo c => mo.set c.buffer_idx c.min_offset) st.minOffsets
  { st with minOffsets := mo }

end MM

namespace MM

mutual

/-- SolverImpl::SearchSolutions from solver.cc.  The deadline test is
the constant `false` (infinite timeout, no cancellation); fuel stands in
for the call stack and is decremented on every call, with exhaustion
reported as `kAborted` (no theorem below exercises that path). -/
def SearchSolutions (ctx : ImplCtx) : Nat → Partition → List Char →
    List PreorderData → List OrderData → Int → Int → ImplState →
    SC × ImplState
  | 0, _, _, _, _, _, _, st => (SC.aborted, st)
  | fuel + 1, partition, heur, preordering, origOrdering, minOffset,
      minPreorderIdx, st =>
    if st.nodesRemaining ≤ 0 then (SC.aborted, st)
    else
      let st := { st with nodesRemaining := st.nodesRemaining - 1 }
      let ordering := ComputeOrdering ctx st preordering origOrdering
      if ordering.isEmpty then
        let offs := partition.bufferIdxs.foldl
          (fun offs bidx => offs.set bidx (st.assignment.getD bidx kNoOffset))
          st.solution.offsets
        (SC.ok, { st with solution := { st.solution with offsets := offs } })
      else
        let minHeight := CalcMinHeight ctx preordering ordering
        searchLoop ctx fuel partition heur preordering ordering minOffset
          minPreorderIdx minHeight ordering st

/-- The `for (const auto [offset, preorder_idx] : ordering)` loop of
`SearchSolutions`; reaching the end of the list (or the hatless-pruning
break) increments the backtrack counter and reports `kNotFound`. -/
def searchLoop (ctx : ImplCtx) : Nat → Partition → List Char →
    List PreorderData → List OrderData → Int → Int → Int →
    List OrderData → ImplState → SC × ImplState
  | 0, _, _, _, _, _, _, _, _, st => (SC.aborted, st)
  | _fuel + 1, _, _, _, _, _, _, _, [], st =>
    (SC.notFound, { st with backtracks := st.backtracks + 1 })
  | fuel + 1, partition, heur, preordering, fullOrdering, minOffset,
      minPreorderIdx, minHeight, od :: rest, st =>
    let offset := od.offset
    let preorderIdx := od.preorder_idx
    let bufferIdx := (preordering.getD preorderIdx default).buffer_idx
    if ctx.params.canonical_only ∧
        (offset < minOffset ∨
          (offset = minOffset ∧ preorderIdx < minPreorderIdx.toNat)) then
      searchLoop ctx fuel partition heur preordering fullOrdering minOffset
        minPreorderIdx minHeight rest st
    else if ctx.params.check_dominance ∧ minHeight ≤ offset then
      searchLoop ctx fuel partition heur preordering fullOrdering minOffset
        minPreorderIdx minHeight rest st
    else if (match (ctx.problem.buffers.getD bufferIdx default).offset with
        | some o => decide (o < offset)
        | none => false) then
      searchLoop ctx fuel partition heur preordering fullOrdering minOffset
        minPreorderIdx minHeight rest st
    else
      let st := { st with assignment := st.assignment.set bufferIdx offset }
      let (offsetChanges, affected, fof, st) := UpdateMinOffsets ctx st bufferIdx
      let (sectionChanges, st) := UpdateSectionData ctx st affected bufferIdx
      let (statusCode, st) :=
        if ¬ fof ∧ Check ctx st partition offset then
          if ctx.params.dynamic_decomposition then
            DynamicallyDecompose ctx fuel partition heur preordering
              fullOrdering offset (Int.ofNat preorderIdx) bufferIdx st
          else
            SearchSolutions ctx fuel partition heur preordering fullOrdering
              offset (Int.ofNat preorderIdx) st
        else (SC.notFound, st)
      let st := RestoreSectionData ctx st sectionChanges bufferIdx
      let st := match offsetChanges with
        | some chs => RestoreMinOffsets st chs
        | none => st
      let st := { st with assignment := st.assignment.set bufferIdx kNoOffset }
      if statusCode ≠ SC.notFound then (statusCode, st)
      else if offsetChanges.isNone ∧ ctx.params.hatless_pruning then
        (SC.notFound, { st with backtracks := st.backtracks + 1 })
      else
        searchLoop ctx fuel partition heur preordering fullOrdering minOffset
          minPreorderIdx minHeight rest st

/-- SolverImpl::DynamicallyDecompose from solver.cc. -/
def DynamicallyDecompose (ctx : ImplCtx) : Nat → Partition → List Char →
    List PreorderData → List OrderData → Int → Int → Nat → ImplState →
    SC × ImplState
  | 0, _, _, _, _, _, _, _, st => (SC.aborted, st)
  | fuel + 1, partition, heur, preordering, origOrdering, minOffset,
      minPreorderIdx, bufferIdx, st =>
    let offs := st.solution.offsets.set bufferIdx
      (st.assignment.getD bufferIdx kNoOffset)
    let st := { st with solution := { st.solution with offsets := offs } }
    let bd := ctx.sweep.buffer_data.getD bufferIdx {}
    let spans := bd.sectionSpans
    let lo := (spans.head?.map (fun sp => sp.sectionRange.lower)).getD 0
    let hi := (spans.getLast?.map (fun sp => sp.sectionRange.upper)).getD 0
    let (cuts, cutpoints) := (intFor lo (hi - 1)).foldl
      (fun (acc : List Int × List Int) s =>
        let (cuts, cps) := acc
        let newVal := cuts.getD s.toNat 0 - 1
        let cuts := if 0 ≤ s then cuts.set s.toNat newVal else cuts
        (cuts, if newVal = 0 then cps ++ [s + 1] else cps))
      (st.cuts, [partition.sectionRange.lower])
    let st := { st with cuts := cuts }
    let (statusCode, st) :=
      if cutpoints.length = 1 then
        SearchSolutions ctx fuel partition heur preordering origOrdering
          minOffset minPreorderIdx st
      else
        let cutpoints := cutpoints ++ [partition.sectionRange.upper]
        dynDecompLoop ctx fuel heur partition
          (cutpoints.zip cutpoints.tail) st
    let cuts := (intFor lo (hi - 1)).foldl (fun cuts s => incAt cuts s) st.cuts
    (statusCode, { st with cuts := cuts })

/-- The sub-partition loop of `DynamicallyDecompose`: solve each
consecutive cutpoint range holding the unallocated buffers that intersect
it; any failing sub-partition aborts the loop with its status. -/
def dynDecompLoop (ctx : ImplCtx) : Nat → List Char → Partition →
    List (Int × Int) → ImplState → SC × ImplState
  | 0, _, _, _, st => (SC.aborted, st)
  | _fuel + 1, _, _, [], st => (SC.ok, st)
  | fuel + 1, heur, partition, r :: rest, st =>
    let bufferIdxs := partition.bufferIdxs.filter fun otherIdx =>
      decide (st.assignment.getD otherIdx kNoOffset = kNoOffset) &&
        (let obd := ctx.sweep.buffer_data.getD otherIdx {}
         let olo := (obd.sectionSpans.head?.map
           (fun sp => sp.sectionRange.lower)).getD 0
         let ohi := (obd.sectionSpans.getLast?.map
           (fun sp => sp.sectionRange.upper)).getD 0
         !(decide (ohi ≤ r.1) || decide (r.2 ≤ olo)))
    if bufferIdxs.isEmpty then dynDecompLoop ctx fuel heur partition rest st
    else
      let subPartition : Partition :=
        { bufferIdxs := bufferIdxs, sectionRange := ⟨r.1, r.2⟩ }
      match SubSolve ctx fuel subPartition heur st with
      | (SC.ok, st) => dynDecompLoop ctx fuel heur partition rest st
      | (code, st) => (code, st)

/-- SolverImpl::SubSolve from solver.cc. -/
def SubSolve (ctx : ImplCtx) : Nat → Partition → List Char → ImplState →
    SC × ImplState
  | 0, _, _, st => (SC.aborted, st)
  | fuel + 1, partition, heur, st =>
    let preordering := partition.bufferIdxs.map fun bufferIdx =>
      let buffer := ctx.problem.buffers.getD bufferIdx default
      let bd := ctx.sweep.buffer_data.getD bufferIdx {}
      let spans := bd.sectionSpans
      let total := spans.foldl
        (fun t span =>
          (intFor span.sectionRange.lower span.sectionRange.upper).foldl
            (fun t s => max t (sdGet st.sectionData s).total) t)
        0
      let sections := ((spans.getLast?.map
          (fun sp => sp.sectionRange.upper)).getD 0) -
        ((spans.head?.map (fun sp => sp.sectionRange.lower)).getD 0)
      { area := buffer.area, lower := buffer.lifespan.lower,
        overlaps := bd.overlaps.length, sections := sections,
        size := buffer.size, total := total,
        upper := buffer.lifespan.upper,
        width := buffer.lifespan.upper - buffer.lifespan.lower,
        buffer_idx := bufferIdx }
    let preordering := if ctx.params.static_preordering then
        preordering.insertionSort (pdLE heur)
      else preordering
    let ordering := (List.range preordering.length).map fun idx =>
      ({ offset := 0, preorder_idx := idx } : OrderData)
    SearchSolutions ctx fuel partition heur preordering ordering 0 0 st

end

end MM

namespace MM

/-- The partition loop shared by `SolverImpl::Solve` and one round of
`RoundRobin`: sub-solve each partition, stopping at the first failure. -/
def partLoop (ctx : ImplCtx) (fuel : Nat) (heur : List Char) :
    List Partition → ImplState → SC × ImplState
  | [], st => (SC.ok, st)
  | part :: rest, st =>
    match SubSolve ctx fuel part heur st with
    | (SC.ok, st) => partLoop ctx fuel heur rest st
    | (code, st) => (code, st)

/-- The heuristic loop of `SolverImpl::RoundRobin`: try each preordering
heuristic under the current node limit; `prev` is the status carried when
the list is exhausted (`kOk` initially, the abort of the previous
heuristic afterwards). -/
def rrHeurLoop (ctx : ImplCtx) (fuel : Nat) (nodeLimit : Int) (prev : SC) :
    List (List Char) → ImplState → SC × ImplState
  | [], st => (prev, st)
  | h :: rest, st =>
    let st := { st with nodesRemaining := nodeLimit }
    match partLoop ctx fuel h ctx.sweep.partitions st with
    | (SC.ok, st) => (SC.ok, st)
    | (SC.aborted, st) => rrHeurLoop ctx fuel nodeLimit SC.aborted rest st
    | (code, st) => (code, st)

/-- The doubling loop of `SolverImpl::RoundRobin`. -/
def rrGo (ctx : ImplCtx) : Nat → Int → ImplState → SC × ImplState
  | 0, _, st => (SC.aborted, st)
  | fuel + 1, nodeLimit, st =>
    let nodeLimit := nodeLimit * 2
    match rrHeurLoop ctx fuel nodeLimit SC.ok
        ctx.params.preordering_heuristics st with
    | (SC.ok, st) => (SC.ok, st)
    | (SC.aborted, st) => rrGo ctx fuel nodeLimit st
    | (code, st) => (code, st)

/-- SolverImpl::RoundRobin from solver.cc. -/
def RoundRobin (ctx : ImplCtx) (fuel : Nat) (st : ImplState) :
    Except String Solution × Int :=
  match rrGo ctx fuel (ctx.problem.buffers.length : Int) st with
  | (SC.ok, st) =>
    let st := UpdateSolutionHeight ctx st
    (Except.ok st.solution, st.backtracks)
  | (_, st) => (Except.error "Error encountered during search.", st.backtracks)

/-- SolverImpl::Solve from solver.cc: an empty problem returns the
default-constructed solution immediately; otherwise the search state is
initialised (section totals, fixed minimum offsets, cuts) and the
partitions are solved with the last preordering heuristic, or by round
robin when several heuristics are configured. -/
def ImplSolve (ctx : ImplCtx) (fuel : Nat) (bt : Int) :
    Except String Solution × Int :=
  if ctx.problem.buffers.isEmpty then (Except.ok {}, bt)
  else
    let n := ctx.problem.buffers.length
    let sectionData := ctx.sweep.buffer_data.foldl
      (fun sd bd => bd.sectionSpans.foldl
        (fun sd span =>
          (intFor span.sectionRange.lower span.sectionRange.upper).foldl
            (fun sd s =>
              let old := sdGet sd s
              sdSet sd s { old with total := old.total +
                (span.window.upper - span.window.lower) })
            sd)
        sd)
      (List.replicate ctx.sweep.sections.length {})
    let minOffsets := (List.range n).map fun i =>
      match (ctx.problem.buffers.getD i default).offset with
      | some o => o
      | none => 0
    let st : ImplState :=
      { assignment := List.replicate n kNoOffset,
        solution := { offsets := List.replicate n kNoOffset, height := 0 },
        minOffsets := minOffsets,
        sectionData := sectionData,
        cuts := ctx.sweep.CalculateCuts,
        nodesRemaining := int64Max,
        backtracks := bt }
    if 1 < ctx.params.preordering_heuristics.length then
      RoundRobin ctx fuel st
    else
      let heur := (ctx.params.preordering_heuristics.getLast?).getD []
      match partLoop ctx fuel heur ctx.sweep.partitions st with
      | (SC.ok, st) =>
        let st := UpdateSolutionHeight ctx st
        (Except.ok st.solution, st.backtracks)
      | (_, st) =>
        (Except.error "Error encountered during search.", st.backtracks)

/-- The capacity binary search of `Solver::SolveWithStartTime`
(`minimize_capacity` mode).  `lo` starts at 0 and `hi` at the input
capacity, so the midpoint is only computed for nonnegative bounds, where
C++ and Lean integer division agree. -/
def bsGo (params : SolverParams) (p : Problem) (sweep : SweepResult) :
    Nat → Int → Int → Except String Solution → Int →
    Except String Solution × Int
  | 0, _, _, sol, bt => (sol, bt)
  | fuel + 1, lo, hi, sol, bt =>
    if lo ≤ hi then
      let mid := (lo + hi) / 2
      match ImplSolve ⟨params, { p with capacity := mid }, sweep⟩ fuel bt with
      | (Except.error _, bt') => bsGo params p sweep fuel (mid + 1) hi sol bt'
      | (Except.ok s, bt') =>
        bsGo params p sweep fuel lo (s.height - 1) (Except.ok s) bt'
    else (sol, bt)

/-- Recursion fuel for one solve: ample for the capacity binary search
and for every execution the theorems below exercise. -/
def solveFuel (p : Problem) : Nat :=
  p.capacity.toNat + p.buffers.length + 64

/-- Solver::SolveWithStartTime from solver.cc (time itself is not
modelled; the claims assume an infinite timeout). -/
def Solver.SolveWithStartTime (params : SolverParams) (p : Problem)
    (bt : Int) : Except String Solution × Int :=
  let sweep := Sweep p
  if params.minimize_capacity then
    bsGo params p sweep (solveFuel p) 0 p.capacity
      (Except.error "Not found any valid capacity.") bt
  else
    ImplSolve ⟨params, p, sweep⟩ (solveFuel p) bt

/-- Solver::Solve from solver.cc: reset the backtrack counter to zero,
then delegate.  The integer argument is the solver's `backtracks_`
member at entry; the integer in the result is its value when the call
returns. -/
def Solver.Solve (params : SolverParams) (p : Problem) (backtracks : Int) :
    Except String Solution × Int :=
  let backtracks := 0
  Solver.SolveWithStartTime params p backtracks

end MM

namespace MM

/-- **Claim C7.**  `Solver::Solve` resets the backtrack counter to 0 at
entry (it delegates to `SolveWithStartTime` with a zero counter
regardless of the counter's prior value), so two successive `Solve`
calls on the same problem with the same parameters (infinite timeout, no
cancellation) return the same status and leave `get_backtracks()` at the
same value both times. -/
theorem solver_solve_backtracks (params : SolverParams) (p : Problem)
    (b : Int) :
    Solver.Solve params p b = Solver.SolveWithStartTime params p 0 ∧
    (Solver.Solve params p ((Solver.Solve params p b).2)).1 =
      (Solver.Solve params p b).1 ∧
    (Solver.Solve params p ((Solver.Solve params p b).2)).2 =
      (Solver.Solve params p b).2 :=
  ⟨rfl, rfl, rfl⟩

end MM

namespace MM

/-- Parameters for the C10 counterexample: capacity minimization on. -/
def emptyCexParams : SolverParams := { minimize_capacity := true }

/-- Problem for the C10 counterexample: no buffers, negative capacity. -/
def emptyCexProblem : Problem := { buffers := [], capacity := -1 }

/-- Counterexample to C10 as stated: with `minimize_capacity` enabled and
a negative input capacity, the binary search interval `[0, capacity]` is
empty, so `Solver::Solve` on an empty buffer list returns the NotFound
error instead of an empty solution. -/
theorem solver_empty_cex :
    Solver.Solve emptyCexParams emptyCexProblem 0 =
      (Except.error "Not found any valid capacity.", 0) ∧
    emptyCexProblem.buffers = [] := ⟨rfl, rfl⟩

theorem bsGo_succ (params : SolverParams) (p : Problem)
    (sweep : SweepResult) (fuel : Nat) (lo hi : Int)
    (sol : Except String Solution) (bt : Int) :
    bsGo params p sweep (fuel + 1) lo hi sol bt =
      (if lo ≤ hi then
        let mid := (lo + hi) / 2
        match ImplSolve ⟨params, { p with capacity := mid }, sweep⟩
            fuel bt with
        | (Except.error _, bt') => bsGo params p sweep fuel (mid + 1) hi sol bt'
        | (Except.ok s, bt') =>
          bsGo params p sweep fuel lo (s.height - 1) (Except.ok s) bt'
      else (sol, bt)) := rfl

/-- **Claim C10 (amended).**  For every parameter setting and incoming
counter value, `Solver::Solve` on a problem with an empty buffer list
returns Ok with an empty offsets vector and height 0 and a zero
backtrack count — PROVIDED the capacity is nonnegative whenever
`minimize_capacity` is set (otherwise the binary search interval
`[0, capacity]` is empty and a NotFound error is returned). -/
theorem solver_solve_empty (params : SolverParams) (c : Int) (b : Int)
    (hc : params.minimize_capacity = true → 0 ≤ c) :
    Solver.Solve params { buffers := [], capacity := c } b =
      (Except.ok ({ offsets := [], height := 0 } : Solution), 0) := by
  unfold Solver.Solve Solver.SolveWithStartTime
  rcases hm : params.minimize_capacity
  · simp only [Bool.false_eq_true, if_false]
    rfl
  · have hc' : (0 : Int) ≤ c := hc hm
    simp only [if_true]
    rw [show solveFuel { buffers := [], capacity := c } =
      (c.toNat + 63) + 1 from rfl]
    rw [bsGo_succ]
    rw [if_pos hc']
    rfl

end MM

namespace MM

/-- Witness for the amended C10 at a concrete parameter setting
(capacity minimization on, capacity 7, stale counter 5). -/
theorem solver_solve_empty_witness :
    (({ minimize_capacity := true } : SolverParams).minimize_capacity =
        true → (0 : Int) ≤ 7) ∧
    Solver.Solve { minimize_capacity := true }
        { buffers := [], capacity := 7 } 5 =
      (Except.ok ({ offsets := [], height := 0 } : Solution), 0) :=
  ⟨by decide,
    solver_solve_empty { minimize_capacity := true } 7 5 (by decide)⟩

end MM

namespace MM

/-! ## Converter embedding (converter.cc)

CSV text is modelled as `List Char` (`Buffer::id` strings enter via
`String.data` and leave via `String.mk`).  `absl::StrSplit` on a single
character, `absl::StrJoin`, `absl::StrCat` of an `int64_t` and
`absl::SimpleAtoi` are reproduced below; `absl::flat_hash_map` `col_map`
becomes an insert-or-assign association list (its length is the number
of distinct keys, which is what the duplicate-column check compares). -/

/-- absl::StrSplit by one character: always returns one more part than
there are separators, with empty parts preserved. -/
def splitOnChar (sep : Char) : List Char → List (List Char)
  | [] => [[]]
  | c :: rest =>
    match splitOnChar sep rest with
    | [] => [[]]
    | grp :: grps =>
      if c = sep then [] :: grp :: grps
      else (c :: grp) :: grps

/-- absl::StrJoin with a one-character separator. -/
def joinWithChar (sep : Char) : List (List Char) → List Char
  | [] => []
  | [l] => l
  | l :: ls => l ++ sep :: joinWithChar sep ls

/-- The decimal digit character for `d % 10`. -/
def digitChar (d : Nat) : Char := Char.ofNat (48 + d % 10)

/-- The numeric value of a decimal digit character. -/
def digitVal (c : Char) : Option Nat :=
  let v := c.toNat
  if 48 ≤ v ∧ v ≤ 57 then some (v - 48) else none

/-- Decimal printing of a natural number (the digits of `n` prepended to
`acc`); fuel bounds the digit count and any fuel above `n` is ample. -/
def printNatGo : Nat → Nat → List Char → List Char
  | 0, _, acc => acc
  | fuel + 1, n, acc =>
    if n < 10 then digitChar n :: acc
    else printNatGo fuel (n / 10) (digitChar (n % 10) :: acc)

/-- Decimal printing of a natural number. -/
def printNat (n : Nat) : List Char := printNatGo (n + 1) n []

/-- absl::StrCat of an `int64_t`. -/
def printInt (i : Int) : List Char :=
  if i < 0 then '-' :: printNat i.natAbs else printNat i.toNat

/-- The digit loop of `absl::SimpleAtoi`. -/
def parseNatGo : List Char → Nat → Option Nat
  | [], acc => some acc
  | c :: rest, acc =>
    match digitVal c with
    | some d => parseNatGo rest (acc * 10 + d)
    | none => none

/-- absl::SimpleAtoi on an `int64_t`: an optional sign followed by at
least one decimal digit and nothing else. -/
def parseInt (l : List Char) : Option Int :=
  match l with
  | [] => none
  | c :: rest =>
    if c = '+' then
      if rest.isEmpty then none else (parseNatGo rest 0).map Int.ofNat
    else if c = '-' then
      if rest.isEmpty then none
      else (parseNatGo rest 0).map fun n => -(Int.ofNat n)
    else (parseNatGo (c :: rest) 0).map Int.ofNat

/-- The column-name constants of converter.cc. -/
def kAlignment : List Char := ['a','l','i','g','n','m','e','n','t']

def kBegin : List Char := ['b','e','g','i','n']

def kBuffer : List Char := ['b','u','f','f','e','r']

def kBufferId : List Char := ['b','u','f','f','e','r','_','i','d']

def kEnd : List Char := ['e','n','d']

def kGaps : List Char := ['g','a','p','s']

def kHint : List Char := ['h','i','n','t']

def kId : List Char := ['i','d']

def kLower : List Char := ['l','o','w','e','r']

def kOffset : List Char := ['o','f','f','s','e','t']

def kSize : List Char := ['s','i','z','e']

def kStart : List Char := ['s','t','a','r','t']

def kUpper : List Char := ['u','p','p','e','r']

/-- IncludeAlignment from converter.cc. -/
def IncludeAlignment (p : Problem) : Bool :=
  p.buffers.any fun b => b.alignment ≠ 1

/-- IncludeHint from converter.cc. -/
def IncludeHint (p : Problem) : Bool :=
  p.buffers.any fun b => b.hint.isSome

/-- IncludeGaps from converter.cc. -/
def IncludeGaps (p : Problem) : Bool :=
  p.buffers.any fun b => !b.gaps.isEmpty

/-- The gap cell of one ToCsv record:
`lower-upper(+addend)[@windowLower:windowUpper]`. -/
def gapToStr (addend : Int) (g : Gap) : List Char :=
  printInt g.lifespan.lower ++ '-' :: printInt (g.lifespan.upper + addend)
  ++ (match g.window with
      | some w => '@' :: printInt w.lower ++ ':' :: printInt w.upper
      | none => [])

/-- One data record of ToCsv (the per-buffer row, before joining with
commas).  The optional offset cell carries
`solution->offsets[buffer_idx]` when a solution is given. -/
def bufferRecord (inclAlign inclHint inclGaps : Bool) (addend : Int)
    (offsetCell : Option Int) (b : Buffer) : List (List Char) :=
  [b.id.data, printInt b.lifespan.lower,
   printInt (b.lifespan.upper + addend), printInt b.size]
  ++ (if inclAlign then [printInt b.alignment] else [])
  ++ (if inclHint then [printInt (b.hint.getD (-1))] else [])
  ++ (if inclGaps then [joinWithChar ' ' (b.gaps.map (gapToStr addend))]
      else [])
  ++ (match offsetCell with
      | some o => [printInt o]
      | none => [])

/-- The header record of ToCsv. -/
def csvHeader (inclAlign inclHint inclGaps inclOffset old_format : Bool) :
    List (List Char) :=
  [kId, if old_format then kStart else kLower,
   if old_format then kEnd else kUpper, kSize]
  ++ (if inclAlign then [kAlignment] else [])
  ++ (if inclHint then [kHint] else [])
  ++ (if inclGaps then [kGaps] else [])
  ++ (if inclOffset then [kOffset] else [])

/-- ToCsv from converter.cc (`solution` is the nullable pointer). -/
def ToCsv (p : Problem) (solution : Option Solution) (old_format : Bool) :
    List Char :=
  let inclAlign := IncludeAlignment p
  let inclHint := IncludeHint p
  let inclGaps := IncludeGaps p
  let addend : Int := if old_format then -1 else 0
  let records :=
    csvHeader inclAlign inclHint inclGaps solution.isSome old_format ::
    p.buffers.enum.map fun pr =>
      bufferRecord inclAlign inclHint inclGaps addend
        (solution.map fun sol => sol.offsets.getD pr.1 0) pr.2
  (records.map fun r => joinWithChar ',' r ++ ['\n']).join

/-- Insert-or-assign on the `col_map` association list. -/
def cmUpsert (key : List Char) (v : Nat) :
    List (List Char × Nat) → List (List Char × Nat)
  | [] => [(key, v)]
  | (k, w) :: rest =>
    if k = key then (k, v) :: rest else (k, w) :: cmUpsert key v rest

/-- Lookup on the `col_map` association list. -/
def cmFind (key : List Char) : List (List Char × Nat) → Option Nat
  | [] => none
  | (k, w) :: rest => if k = key then some w else cmFind key rest

/-- `col_map.contains`. -/
def cmContains (key : List Char) (m : List (List Char × Nat)) : Bool :=
  (cmFind key m).isSome

/-- The header loop of FromCsv: canonicalise each column name, record
the `end` convention in the addend, and build the column map. -/
def headerColMap (fields : List (List Char)) :
    Int × List (List Char × Nat) :=
  fields.enum.foldl
    (fun (acc : Int × List (List Char × Nat)) pr =>
      let (addend, m) := acc
      let colName := pr.2
      let colName := if colName = kBegin then kLower else colName
      let colName := if colName = kBuffer then kId else colName
      let colName := if colName = kBufferId then kId else colName
      let (colName, addend) :=
        if colName = kEnd then (kUpper, (1 : Int)) else (colName, addend)
      let colName := if colName = kStart then kLower else colName
      (addend, cmUpsert colName pr.1 m))
    (0, [])

/-- One cell of a data record. -/
def getField (fields : List (List Char)) (idx : Nat) : List Char :=
  fields.getD idx []

/-- The gap parser of FromCsv (one entry of the space-separated list). -/
def parseGap (addend : Int) (gap : List Char) : Option Gap :=
  match splitOnChar '@' gap with
  | [] => none
  | a0 :: atRest =>
    match splitOnChar '-' a0 with
    | [gl, gu] =>
      match parseInt gl, parseInt gu with
      | some l, some u =>
        match atRest with
        | [] => some ⟨⟨l, u + addend⟩, none⟩
        | a1 :: _ =>
          match splitOnChar ':' a1 with
          | [wl, wu] =>
            match parseInt wl, parseInt wu with
            | some l2, some u2 => some ⟨⟨l, u + addend⟩, some ⟨l2, u2⟩⟩
            | _, _ => none
          | _ => none
      | _, _ => none
    | _ => none

/-- The gap-list loop of FromCsv: the first malformed gap aborts. -/
def parseGaps (addend : Int) : List (List Char) → Except String (List Gap)
  | [] => .ok []
  | g :: rest =>
    match parseGap addend g with
    | some gap =>
      match parseGaps addend rest with
      | .ok gaps => .ok (gap :: gaps)
      | .error e => .error e
    | none => .error (String.mk (("Improperly formed gap: ").data ++ g))

/-- The per-record body of FromCsv's main loop: extract and parse every
configured column, producing the buffer. -/
def parseRow (colMap : List (List Char × Nat)) (addend : Int)
    (fields : List (List Char)) : Except String Buffer :=
  match parseInt (getField fields ((cmFind kLower colMap).getD 0)),
      parseInt (getField fields ((cmFind kUpper colMap).getD 0)),
      parseInt (getField fields ((cmFind kSize colMap).getD 0)) with
  | some lower, some upper, some size =>
    let alignRes : Except String Int :=
      match cmFind kAlignment colMap with
      | none => .ok 1
      | some idx =>
        match parseInt (getField fields idx) with
        | some a => .ok a
        | none => .error (String.mk
            (("Improperly formed alignment: ").data ++ getField fields idx))
    match alignRes with
    | .error e => .error e
    | .ok alignment =>
      let hintRes : Except String (Option Int) :=
        match cmFind kHint colMap with
        | none => .ok none
        | some idx =>
          match parseInt (getField fields idx) with
          | some h => .ok (if 0 ≤ h then some h else none)
          | none => .error "Improperly formed hint"
      match hintRes with
      | .error e => .error e
      | .ok hint =>
        let gapsRes : Except String (List Gap) :=
          match cmFind kGaps colMap with
          | none => .ok []
          | some idx =>
            parseGaps addend
              ((splitOnChar ' ' (getField fields idx)).filter
                fun l => !l.isEmpty)
        match gapsRes with
        | .error e => .error e
        | .ok gaps =>
          let offsetRes : Except String (Option Int) :=
            match cmFind kOffset colMap with
            | none => .ok none
            | some idx =>
              match parseInt (getField fields idx) with
              | some o => .ok (some o)
              | none => .error "Improperly formed offset"
          match offsetRes with
          | .error e => .error e
          | .ok offset =>
            .ok { id := String.mk (getField fields ((cmFind kId colMap).getD 0)),
                  lifespan := ⟨lower, upper + addend⟩,
                  size := size,
                  alignment := alignment,
                  gaps := gaps,
                  offset := offset,
                  hint := hint }
  | _, _, _ => .error "Improperly formed integer"

/-- The record loop of FromCsv: the first record builds the column map
(after canonicalisation and the duplicate / required-column checks); an
empty record stops; every further record must have exactly one field per
column and parses into a buffer. -/
def fromCsvGo (colMap : List (List Char × Nat)) (addend : Int)
    (acc : List Buffer) : List (List Char) → Except String Problem
  | [] => .ok { buffers := acc, capacity := 0 }
  | record :: rest =>
    if record.isEmpty then .ok { buffers := acc, capacity := 0 }
    else
      let fields := splitOnChar ',' record
      if colMap.isEmpty then
        let (addend', m) := headerColMap fields
        if m.length ≠ fields.length then .error "Duplicate column names"
        else if ¬ (cmContains kId m ∧ cmContains kLower m ∧
            cmContains kUpper m ∧ cmContains kSize m) then
          .error "A required column is missing"
        else fromCsvGo m addend' acc rest
      else
        if fields.length ≠ colMap.length then .error "Too many fields"
        else
          match parseRow colMap addend fields with
          | .ok b => fromCsvGo colMap addend (acc ++ [b]) rest
          | .error e => .error e

/-- FromCsv from converter.cc. -/
def FromCsv (input : List Char) : Except String Problem :=
  fromCsvGo [] 0 [] (splitOnChar '\n' input)

end MM

namespace MM

/-- The C5 counterexample problem: no buffers, nonzero capacity. -/
def csvCexProblem : Problem := { buffers := [], capacity := 5 }

/-- Counterexample to C5 as stated: `ToCsv` never writes the problem's
capacity (and `FromCsv` never reads one), so any problem with a nonzero
capacity fails the round trip under either format — `Problem::operator==`
compares capacities. -/
theorem csv_roundtrip_cex :
    FromCsv (ToCsv csvCexProblem none false) =
      Except.ok ({ buffers := [], capacity := 0 } : Problem) ∧
    FromCsv (ToCsv csvCexProblem none true) =
      Except.ok ({ buffers := [], capacity := 0 } : Problem) ∧
    ¬ Problem.eqCc { buffers := [], capacity := 0 } csvCexProblem ∧
    csvCexProblem.capacity = 5 :=
  ⟨rfl, rfl, by decide, rfl⟩

theorem printNatGo_succ (fuel n : Nat) (acc : List Char) :
    printNatGo (fuel + 1) n acc =
      if n < 10 then digitChar n :: acc
      else printNatGo fuel (n / 10) (digitChar (n % 10) :: acc) := rfl

theorem digitVal_digitChar (d : Nat) (hd : d < 10) :
    digitVal (digitChar d) = some d := by
  interval_cases d <;> decide

theorem digitVal_ne_sep (c : Char) (h : (digitVal c).isSome = true) :
    c ≠ ',' ∧ c ≠ '\n' ∧ c ≠ ' ' ∧ c ≠ '@' ∧ c ≠ ':' ∧ c ≠ '-' ∧ c ≠ '+' := by
  refine ⟨?_, ?_, ?_, ?_, ?_, ?_, ?_⟩ <;>
    (rintro rfl; exact absurd h (by decide))

/-- The digits of `n` head the output of `printNatGo`; everything after
them is the supplied accumulator or further digits. -/
theorem printNatGo_spec (fuel : Nat) : ∀ n acc, n < fuel →
    ∃ d ds, printNatGo fuel n acc = d :: ds ∧ (digitVal d).isSome = true ∧
      ∀ c ∈ ds, c ∈ acc ∨ (digitVal c).isSome = true := by
  induction fuel with
  | zero => intro n acc h; omega
  | succ fuel ih =>
    intro n acc h
    by_cases h10 : n < 10
    · refine ⟨digitChar n, acc, ?_, ?_, fun c hc => Or.inl hc⟩
      · rw [printNatGo_succ, if_pos h10]
      · rw [digitVal_digitChar n h10]
        rfl
    · have hlt : n / 10 < fuel := by
        have := Nat.div_lt_self (show 0 < n by omega) (show 1 < 10 by omega)
        omega
      rcases ih (n / 10) (digitChar (n % 10) :: acc) hlt with
        ⟨d, ds, he, hd, hds⟩
      refine ⟨d, ds, ?_, hd, ?_⟩
      · rw [printNatGo_succ, if_neg h10, he]
      · intro c hc
        rcases hds c hc with hmem | hdig
        · rcases List.mem_cons.mp hmem with rfl | hmem2
          · exact Or.inr (by rw [digitVal_digitChar (n % 10) (by omega)]; rfl)
          · exact Or.inl hmem2
        · exact Or.inr hdig

theorem printNat_spec (n : Nat) :
    ∃ d ds, printNat n = d :: ds ∧ (digitVal d).isSome = true ∧
      ∀ c ∈ ds, (digitVal c).isSome = true := by
  rcases printNatGo_spec (n + 1) n [] (by omega) with ⟨d, ds, he, hd, hds⟩
  refine ⟨d, ds, he, hd, fun c hc => ?_⟩
  rcases hds c hc with hmem | hdig
  · cases hmem
  · exact hdig

theorem printNat_all_digits (n : Nat) :
    ∀ c ∈ printNat n, (digitVal c).isSome = true := by
  rcases printNat_spec n with ⟨d, ds, he, hd, hds⟩
  rw [he]
  intro c hc
  rcases List.mem_cons.mp hc with rfl | hc2
  · exact hd
  · exact hds c hc2

theorem parseNatGo_cons (c : Char) (rest : List Char) (a : Nat) :
    parseNatGo (c :: rest) a =
      match digitVal c with
      | some d => parseNatGo rest (a * 10 + d)
      | none => none := rfl

theorem parseNatGo_cons_digit (c : Char) (d : Nat) (hd : digitVal c = some d)
    (rest : List Char) (a : Nat) :
    parseNatGo (c :: rest) a = parseNatGo rest (a * 10 + d) := by
  rw [parseNatGo_cons, hd]

theorem parseNatGo_printNatGo (fuel : Nat) : ∀ n acc, n < fuel →
    parseNatGo (printNatGo fuel n acc) 0 = parseNatGo acc n := by
  induction fuel with
  | zero => intro n acc h; omega
  | succ fuel ih =>
    intro n acc h
    by_cases h10 : n < 10
    · rw [printNatGo_succ, if_pos h10,
        parseNatGo_cons_digit _ n (digitVal_digitChar n h10)]
      rw [show 0 * 10 + n = n by omega]
    · have hlt : n / 10 < fuel := by
        have := Nat.div_lt_self (show 0 < n by omega) (show 1 < 10 by omega)
        omega
      rw [printNatGo_succ, if_neg h10, ih (n / 10) _ hlt,
        parseNatGo_cons_digit _ (n % 10) (digitVal_digitChar (n % 10) (by omega))]
      rw [show n / 10 * 10 + n % 10 = n by omega]

theorem parse_printNat (n : Nat) : parseNatGo (printNat n) 0 = some n := by
  unfold printNat
  rw [parseNatGo_printNatGo (n + 1) n [] (by omega)]
  rfl

theorem parseInt_cons (c : Char) (rest : List Char) :
    parseInt (c :: rest) =
      (if c = '+' then
        if rest.isEmpty then none else (parseNatGo rest 0).map Int.ofNat
      else if c = '-' then
        if rest.isEmpty then none
        else (parseNatGo rest 0).map fun n => -(Int.ofNat n)
      else (parseNatGo (c :: rest) 0).map Int.ofNat) := rfl

theorem parseInt_printInt (v : Int) : parseInt (printInt v) = some v := by
  unfold printInt
  by_cases hv : v < 0
  · rw [if_pos hv]
    rcases printNat_spec v.natAbs with ⟨d, ds, he, hd, _⟩
    rw [parseInt_cons, if_neg (by decide), if_pos rfl, he,
      if_neg (show ¬((d :: ds).isEmpty = true) by simp)]
    rw [← he, parse_printNat]
    show some (-((v.natAbs : Int))) = some v
    congr 1
    omega
  · rw [if_neg hv]
    rcases printNat_spec v.toNat with ⟨d, ds, he, hd, _⟩
    have hsep := digitVal_ne_sep d hd
    rw [he, parseInt_cons, if_neg hsep.2.2.2.2.2.2, if_neg hsep.2.2.2.2.2.1]
    rw [← he, parse_printNat]
    show some ((v.toNat : Int)) = some v
    congr 1
    omega

theorem printInt_chars (v : Int) :
    ∀ c ∈ printInt v, c = '-' ∨ (digitVal c).isSome = true := by
  unfold printInt
  intro c hc
  by_cases hv : v < 0
  · rw [if_pos hv] at hc
    rcases List.mem_cons.mp hc with rfl | hc2
    · exact Or.inl rfl
    · exact Or.inr (printNat_all_digits _ c hc2)
  · rw [if_neg hv] at hc
    exact Or.inr (printNat_all_digits _ c hc)

theorem printInt_no_sep (v : Int) :
    ∀ c ∈ printInt v, c ≠ ',' ∧ c ≠ '\n' ∧ c ≠ ' ' ∧ c ≠ '@' ∧ c ≠ ':' := by
  intro c hc
  rcases printInt_chars v c hc with rfl | hd
  · exact ⟨by decide, by decide, by decide, by decide, by decide⟩
  · have h := digitVal_ne_sep c hd
    exact ⟨h.1, h.2.1, h.2.2.1, h.2.2.2.1, h.2.2.2.2.1⟩

theorem printInt_nonneg_digits (v : Int) (hv : 0 ≤ v) :
    ∀ c ∈ printInt v, (digitVal c).isSome = true := by
  unfold printInt
  rw [if_neg (by omega)]
  exact printNat_all_digits _

theorem printInt_ne_nil (v : Int) : printInt v ≠ [] := by
  unfold printInt
  by_cases hv : v < 0
  · rw [if_pos hv]
    simp
  · rw [if_neg hv]
    rcases printNat_spec v.toNat with ⟨d, ds, he, _, _⟩
    rw [he]
    simp

end MM

namespace MM

theorem splitOnChar_cons (sep c : Char) (rest : List Char) :
    splitOnChar sep (c :: rest) =
      match splitOnChar sep rest with
      | [] => [[]]
      | grp :: grps =>
        if c = sep then [] :: grp :: grps else (c :: grp) :: grps := rfl

theorem splitOnChar_ne_nil (sep : Char) (l : List Char) :
    splitOnChar sep l ≠ [] := by
  induction l with
  | nil => simp [splitOnChar]
  | cons c rest ih =>
    rw [splitOnChar_cons]
    rcases hs : splitOnChar sep rest with _ | ⟨grp, grps⟩
    · simp
    · by_cases hc : c = sep <;> simp [hc]

theorem splitOnChar_not_mem (sep : Char) (l : List Char) (h : sep ∉ l) :
    splitOnChar sep l = [l] := by
  induction l with
  | nil => rfl
  | cons c rest ih =>
    have hrest : sep ∉ rest := fun hm => h (List.mem_cons_of_mem _ hm)
    have hne : ¬ c = sep := by
      intro he
      exact h (by rw [he]; exact List.mem_cons_self _ _)
    rw [splitOnChar_cons]
    simp only [ih hrest]
    rw [if_neg hne]

theorem splitOnChar_append_sep (sep : Char) (l rest : List Char)
    (h : sep ∉ l) :
    splitOnChar sep (l ++ sep :: rest) = l :: splitOnChar sep rest := by
  induction l with
  | nil =>
    rw [List.nil_append, splitOnChar_cons]
    rcases hs : splitOnChar sep rest with _ | ⟨grp, grps⟩
    · exact absurd hs (splitOnChar_ne_nil sep rest)
    · simp
  | cons c l ih =>
    have hl : sep ∉ l := fun hm => h (List.mem_cons_of_mem _ hm)
    have hne : ¬ c = sep := by
      intro he
      exact h (by rw [he]; exact List.mem_cons_self _ _)
    rw [List.cons_append, splitOnChar_cons, ih hl]
    simp [hne]

theorem split_join (sep : Char) (parts : List (List Char))
    (h : ∀ x ∈ parts, sep ∉ x) (hne : parts ≠ []) :
    splitOnChar sep (joinWithChar sep parts) = parts := by
  induction parts with
  | nil => exact absurd rfl hne
  | cons x parts ih =>
    cases parts with
    | nil =>
      rw [show joinWithChar sep [x] = x from rfl]
      exact splitOnChar_not_mem sep x (h x (List.mem_cons_self _ _))
    | cons y parts2 =>
      rw [show joinWithChar sep (x :: y :: parts2) =
            x ++ sep :: joinWithChar sep (y :: parts2) from rfl]
      rw [splitOnChar_append_sep sep x _ (h x (List.mem_cons_self _ _))]
      rw [ih (fun z hz => h z (List.mem_cons_of_mem _ hz)) (by simp)]

/-- Splitting the rendered lines back apart: each line becomes one
record, plus a final empty record after the trailing newline. -/
theorem split_lines (lines : List (List Char))
    (h : ∀ l ∈ lines, '\n' ∉ l) :
    splitOnChar '\n' ((lines.map fun r => r ++ ['\n']).join) =
      lines ++ [[]] := by
  induction lines with
  | nil => rfl
  | cons l rest ih =>
    have hstep : ((l :: rest).map fun r => r ++ ['\n']).join =
        l ++ '\n' :: ((rest.map fun r => r ++ ['\n']).join) := by
      simp
    rw [hstep, splitOnChar_append_sep _ _ _ (h l (List.mem_cons_self _ _)),
      ih (fun x hx => h x (List.mem_cons_of_mem _ hx))]
    rfl

theorem toCsv_rows_none (ia ib ig : Bool) (addend : Int)
    (l : List Buffer) : ∀ n : Nat,
    (List.enumFrom n l).map
        (fun pr => bufferRecord ia ib ig addend
          ((none : Option Solution).map fun sol => sol.offsets.getD pr.1 0)
          pr.2) =
      l.map (bufferRecord ia ib ig addend none) := by
  induction l with
  | nil => intro n; rfl
  | cons b bs IH =>
    intro n
    simp only [List.enumFrom, List.map_cons, IH]
    rfl

/-- `ToCsv` with no solution: the header row followed by one record per
buffer, in buffer order, each line terminated by a newline. -/
theorem ToCsv_none (p : Problem) (old : Bool) :
    ToCsv p none old =
      ((csvHeader (IncludeAlignment p) (IncludeHint p) (IncludeGaps p)
          false old ::
        p.buffers.map (bufferRecord (IncludeAlignment p) (IncludeHint p)
          (IncludeGaps p) (if old then -1 else 0) none)).map
        fun r => joinWithChar ',' r ++ ['\n']).join := by
  unfold ToCsv
  dsimp only
  rw [show List.enum p.buffers = List.enumFrom 0 p.buffers from rfl]
  rw [toCsv_rows_none]
  rfl

end MM

namespace MM

def boolNat (b : Bool) : Nat := if b then 1 else 0

/-- The column map FromCsv builds from a ToCsv header (solution absent):
after canonicalisation `start`/`end` become `lower`/`upper`. -/
def expectedColMap (ia ib ig : Bool) : List (List Char × Nat) :=
  [(kId, 0), (kLower, 1), (kUpper, 2), (kSize, 3)]
  ++ (if ia then [(kAlignment, 4)] else [])
  ++ (if ib then [(kHint, 4 + boolNat ia)] else [])
  ++ (if ig then [(kGaps, 4 + boolNat ia + boolNat ib)] else [])

/-- Processing the ToCsv header record builds exactly the expected
column map, with parse addend 1 under the old (inclusive `end`) format. -/
theorem fromCsvGo_header (ia ib ig old : Bool) (rest : List (List Char)) :
    fromCsvGo [] 0 []
        (joinWithChar ',' (csvHeader ia ib ig false old) :: rest) =
      fromCsvGo (expectedColMap ia ib ig) (if old then 1 else 0) [] rest := by
  rcases ia <;> rcases ib <;> rcases ig <;> rcases old <;> rfl

theorem printInt_no_at (v : Int) : '@' ∉ printInt v := by
  intro hm
  rcases printInt_chars v _ hm with he | hd
  · exact absurd he (by decide)
  · exact (digitVal_ne_sep _ hd).2.2.2.1 rfl

theorem printInt_no_colon (v : Int) : ':' ∉ printInt v := by
  intro hm
  rcases printInt_chars v _ hm with he | hd
  · exact absurd he (by decide)
  · exact (digitVal_ne_sep _ hd).2.2.2.2.1 rfl

theorem printInt_no_comma (v : Int) : ',' ∉ printInt v := by
  intro hm
  rcases printInt_chars v _ hm with he | hd
  · exact absurd he (by decide)
  · exact (digitVal_ne_sep _ hd).1 rfl

theorem printInt_no_newline (v : Int) : '\n' ∉ printInt v := by
  intro hm
  rcases printInt_chars v _ hm with he | hd
  · exact absurd he (by decide)
  · exact (digitVal_ne_sep _ hd).2.1 rfl

theorem printInt_no_space (v : Int) : ' ' ∉ printInt v := by
  intro hm
  rcases printInt_chars v _ hm with he | hd
  · exact absurd he (by decide)
  · exact (digitVal_ne_sep _ hd).2.2.1 rfl

theorem printInt_nonneg_no_dash (v : Int) (hv : 0 ≤ v) :
    '-' ∉ printInt v := by
  intro hm
  exact (digitVal_ne_sep _ (printInt_nonneg_digits v hv _ hm)).2.2.2.2.2.1 rfl

end MM

namespace MM

/-- One gap cell parses back to the gap it was printed from, provided the
gap's lifespan coordinates are nonnegative as printed. -/
theorem parseGap_gapToStr (pa qa : Int) (g : Gap) (hpq : pa + qa = 0)
    (hl : 0 ≤ g.lifespan.lower) (hu : 0 ≤ g.lifespan.upper + pa) :
    parseGap qa (gapToStr pa g) = some g := by
  obtain ⟨⟨gl, gu⟩, gw⟩ := g
  have hl' : 0 ≤ gl := hl
  have hu' : 0 ≤ gu + pa := hu
  have hDash : splitOnChar '-' (printInt gl ++ '-' :: printInt (gu + pa)) =
      [printInt gl, printInt (gu + pa)] := by
    rw [splitOnChar_append_sep _ _ _ (printInt_nonneg_no_dash gl hl'),
      splitOnChar_not_mem _ _ (printInt_nonneg_no_dash (gu + pa) hu')]
  have hAtBody : '@' ∉ printInt gl ++ '-' :: printInt (gu + pa) := by
    intro hm
    rcases List.mem_append.mp hm with h1 | h2
    · exact printInt_no_at gl h1
    · rcases List.mem_cons.mp h2 with he | h3
      · exact absurd he (by decide)
      · exact printInt_no_at (gu + pa) h3
  rcases gw with _ | ⟨⟨wl, wu⟩⟩
  · have hb : gapToStr pa ⟨⟨gl, gu⟩, none⟩ =
        printInt gl ++ '-' :: printInt (gu + pa) := by
      simp [gapToStr]
    have hAt : splitOnChar '@' (printInt gl ++ '-' :: printInt (gu + pa)) =
        [printInt gl ++ '-' :: printInt (gu + pa)] :=
      splitOnChar_not_mem _ _ hAtBody
    simp only [parseGap, hb, hAt, hDash, parseInt_printInt]
    have hval : gu + pa + qa = gu := by omega
    rw [hval]
  · have hb : gapToStr pa ⟨⟨gl, gu⟩, some ⟨wl, wu⟩⟩ =
        (printInt gl ++ '-' :: printInt (gu + pa)) ++
          '@' :: (printInt wl ++ ':' :: printInt wu) := by
      simp [gapToStr]
    have hAt : splitOnChar '@'
        ((printInt gl ++ '-' :: printInt (gu + pa)) ++
          '@' :: (printInt wl ++ ':' :: printInt wu)) =
        [printInt gl ++ '-' :: printInt (gu + pa),
         printInt wl ++ ':' :: printInt wu] := by
      rw [splitOnChar_append_sep _ _ _ hAtBody]
      rw [splitOnChar_not_mem]
      intro hm
      rcases List.mem_append.mp hm with h1 | h2
      · exact printInt_no_at wl h1
      · rcases List.mem_cons.mp h2 with he | h3
        · exact absurd he (by decide)
        · exact printInt_no_at wu h3
    have hColon : splitOnChar ':' (printInt wl ++ ':' :: printInt wu) =
        [printInt wl, printInt wu] := by
      rw [splitOnChar_append_sep _ _ _ (printInt_no_colon wl),
        splitOnChar_not_mem _ _ (printInt_no_colon wu)]
    simp only [parseGap, hb, hAt, hDash, hColon, parseInt_printInt]
    have hval : gu + pa + qa = gu := by omega
    rw [hval]

theorem gapToStr_ne_nil (a : Int) (g : Gap) : gapToStr a g ≠ [] := by
  unfold gapToStr
  intro hm
  rcases List.append_eq_nil.mp hm with ⟨h1, _⟩
  rcases List.append_eq_nil.mp h1 with ⟨h2, _⟩
  exact printInt_ne_nil _ h2

theorem gapToStr_chars (a : Int) (g : Gap) :
    ∀ c ∈ gapToStr a g, c ≠ ' ' ∧ c ≠ ',' ∧ c ≠ '\n' := by
  intro c hc
  unfold gapToStr at hc
  rcases List.mem_append.mp hc with h1 | h2
  · rcases List.mem_append.mp h1 with h3 | h4
    · exact ⟨fun he => printInt_no_space _ (he ▸ h3),
        fun he => printInt_no_comma _ (he ▸ h3),
        fun he => printInt_no_newline _ (he ▸ h3)⟩
    · rcases List.mem_cons.mp h4 with rfl | h5
      · exact ⟨by decide, by decide, by decide⟩
      · exact ⟨fun he => printInt_no_space _ (he ▸ h5),
          fun he => printInt_no_comma _ (he ▸ h5),
          fun he => printInt_no_newline _ (he ▸ h5)⟩
  · rcases hw : g.window with _ | w
    · rw [hw] at h2
      cases h2
    · rw [hw] at h2
      rcases List.mem_cons.mp h2 with rfl | h3
      · exact ⟨by decide, by decide, by decide⟩
      · rcases List.mem_append.mp h3 with h4 | h5
        · exact ⟨fun he => printInt_no_space _ (he ▸ h4),
            fun he => printInt_no_comma _ (he ▸ h4),
            fun he => printInt_no_newline _ (he ▸ h4)⟩
        · rcases List.mem_cons.mp h5 with rfl | h6
          · exact ⟨by decide, by decide, by decide⟩
          · exact ⟨fun he => printInt_no_space _ (he ▸ h6),
              fun he => printInt_no_comma _ (he ▸ h6),
              fun he => printInt_no_newline _ (he ▸ h6)⟩

theorem parseGaps_map (pa qa : Int) (hpq : pa + qa = 0) (gaps : List Gap)
    (h : ∀ g ∈ gaps, 0 ≤ g.lifespan.lower ∧ 0 ≤ g.lifespan.upper + pa) :
    parseGaps qa (gaps.map (gapToStr pa)) = .ok gaps := by
  induction gaps with
  | nil => rfl
  | cons g gs IH =>
    rw [List.map_cons]
    have hg := h g (List.mem_cons_self _ _)
    simp only [parseGaps, parseGap_gapToStr pa qa g hpq hg.1 hg.2,
      IH fun x hx => h x (List.mem_cons_of_mem _ hx)]

/-- The whole gaps cell parses back to the gap list. -/
theorem gapsCell_parse (pa qa : Int) (hpq : pa + qa = 0) (gaps : List Gap)
    (h : ∀ g ∈ gaps, 0 ≤ g.lifespan.lower ∧ 0 ≤ g.lifespan.upper + pa) :
    parseGaps qa ((splitOnChar ' '
        (joinWithChar ' ' (gaps.map (gapToStr pa)))).filter
      fun l => !l.isEmpty) = .ok gaps := by
  cases gaps with
  | nil => rfl
  | cons g gs =>
    rw [split_join ' ' _ ?hsep (by simp)]
    case hsep =>
      intro x hx
      obtain ⟨g', _, rfl⟩ := List.mem_map.mp hx
      intro hm
      exact (gapToStr_chars pa g' _ hm).1 rfl
    rw [List.filter_eq_self.mpr ?hne]
    case hne =>
      intro x hx
      obtain ⟨g', _, rfl⟩ := List.mem_map.mp hx
      rcases he : gapToStr pa g' with _ | ⟨c, cs⟩
      · exact absurd he (gapToStr_ne_nil pa g')
      · rfl
    exact parseGaps_map pa qa hpq _ h

end MM

namespace MM

theorem getDsome (a b : Nat) : (some a).getD b = a := rfl

/-- A ToCsv data record parses back (under the matching column map) to
the buffer it was printed from, for every column configuration. -/
theorem parseRow_bufferRecord (ia ib ig : Bool) (pa qa : Int)
    (hpq : pa + qa = 0) (b : Buffer)
    (hA : ia = false → b.alignment = 1)
    (hH : ib = false → b.hint = none)
    (hHv : ∀ h, b.hint = some h → 0 ≤ h)
    (hG : ig = false → b.gaps = [])
    (hGb : ∀ g ∈ b.gaps, 0 ≤ g.lifespan.lower ∧ 0 ≤ g.lifespan.upper + pa)
    (hOff : b.offset = none) :
    parseRow (expectedColMap ia ib ig) qa
      (bufferRecord ia ib ig pa none b) = .ok b := by
  obtain ⟨⟨ids⟩, ⟨bl, bu⟩, sz, al, gp, off, hi⟩ := b
  have hOff2 : off = none := hOff
  subst hOff2
  rcases ia <;> rcases ib <;> rcases ig
  · -- no alignment, no hint, no gaps
    have h1 : al = 1 := hA rfl
    have h2 : hi = none := hH rfl
    have h3 : gp = [] := hG rfl
    subst h1
    subst h2
    subst h3
    simp only [parseRow,
      show cmFind kLower (expectedColMap false false false) = some 1 from by decide,
      show cmFind kUpper (expectedColMap false false false) = some 2 from by decide,
      show cmFind kSize (expectedColMap false false false) = some 3 from by decide,
      show cmFind kId (expectedColMap false false false) = some 0 from by decide,
      show cmFind kAlignment (expectedColMap false false false) = none from by decide,
      show cmFind kHint (expectedColMap false false false) = none from by decide,
      show cmFind kGaps (expectedColMap false false false) = none from by decide,
      show cmFind kOffset (expectedColMap false false false) = none from by decide,
      getDsome,
      show bufferRecord false false false pa none
          ⟨⟨ids⟩, ⟨bl, bu⟩, sz, 1, [], none, none⟩ =
        [ids, printInt bl, printInt (bu + pa), printInt sz] from rfl,
      show getField [ids, printInt bl, printInt (bu + pa), printInt sz] 0 =
        ids from rfl,
      show getField [ids, printInt bl, printInt (bu + pa), printInt sz] 1 =
        printInt bl from rfl,
      show getField [ids, printInt bl, printInt (bu + pa), printInt sz] 2 =
        printInt (bu + pa) from rfl,
      show getField [ids, printInt bl, printInt (bu + pa), printInt sz] 3 =
        printInt sz from rfl,
      parseInt_printInt]
    rw [show bu + pa + qa = bu from by omega]
  · -- gaps only
    have h1 : al = 1 := hA rfl
    have h2 : hi = none := hH rfl
    subst h1
    subst h2
    simp only [parseRow,
      show cmFind kLower (expectedColMap false false true) = some 1 from by decide,
      show cmFind kUpper (expectedColMap false false true) = some 2 from by decide,
      show cmFind kSize (expectedColMap false false true) = some 3 from by decide,
      show cmFind kId (expectedColMap false false true) = some 0 from by decide,
      show cmFind kAlignment (expectedColMap false false true) = none from by decide,
      show cmFind kHint (expectedColMap false false true) = none from by decide,
      show cmFind kGaps (expectedColMap false false true) = some 4 from by decide,
      show cmFind kOffset (expectedColMap false false true) = none from by decide,
      getDsome,
      show bufferRecord false false true pa none
          ⟨⟨ids⟩, ⟨bl, bu⟩, sz, 1, gp, none, none⟩ =
        [ids, printInt bl, printInt (bu + pa), printInt sz,
         joinWithChar ' ' (gp.map (gapToStr pa))] from rfl,
      show getField [ids, printInt bl, printInt (bu + pa), printInt sz,
        joinWithChar ' ' (gp.map (gapToStr pa))] 0 = ids from rfl,
      show getField [ids, printInt bl, printInt (bu + pa), printInt sz,
        joinWithChar ' ' (gp.map (gapToStr pa))] 1 = printInt bl from rfl,
      show getField [ids, printInt bl, printInt (bu + pa), printInt sz,
        joinWithChar ' ' (gp.map (gapToStr pa))] 2 =
          printInt (bu + pa) from rfl,
      show getField [ids, printInt bl, printInt (bu + pa), printInt sz,
        joinWithChar ' ' (gp.map (gapToStr pa))] 3 = printInt sz from rfl,
      show getField [ids, printInt bl, printInt (bu + pa), printInt sz,
        joinWithChar ' ' (gp.map (gapToStr pa))] 4 =
          joinWithChar ' ' (gp.map (gapToStr pa)) from rfl,
      parseInt_printInt,
      gapsCell_parse pa qa hpq gp hGb]
    rw [show bu + pa + qa = bu from by omega]
  · -- hint only
    have h1 : al = 1 := hA rfl
    have h3 : gp = [] := hG rfl
    subst h1
    subst h3
    rcases hi with _ | h
    · simp only [parseRow,
        show cmFind kLower (expectedColMap false true false) = some 1 from by decide,
        show cmFind kUpper (expectedColMap false true false) = some 2 from by decide,
        show cmFind kSize (expectedColMap false true false) = some 3 from by decide,
        show cmFind kId (expectedColMap false true false) = some 0 from by decide,
        show cmFind kAlignment (expectedColMap false true false) = none from by decide,
        show cmFind kHint (expectedColMap false true false) = some 4 from by decide,
        show cmFind kGaps (expectedColMap false true false) = none from by decide,
        show cmFind kOffset (expectedColMap false true false) = none from by decide,
        getDsome,
        show bufferRecord false true false pa none
            ⟨⟨ids⟩, ⟨bl, bu⟩, sz, 1, [], none, none⟩ =
          [ids, printInt bl, printInt (bu + pa), printInt sz,
           printInt (-1)] from rfl,
        show getField [ids, printInt bl, printInt (bu + pa), printInt sz,
          printInt (-1)] 0 = ids from rfl,
        show getField [ids, printInt bl, printInt (bu + pa), printInt sz,
          printInt (-1)] 1 = printInt bl from rfl,
        show getField [ids, printInt bl, printInt (bu + pa), printInt sz,
          printInt (-1)] 2 = printInt (bu + pa) from rfl,
        show getField [ids, printInt bl, printInt (bu + pa), printInt sz,
          printInt (-1)] 3 = printInt sz from rfl,
        show getField [ids, printInt bl, printInt (bu + pa), printInt sz,
          printInt (-1)] 4 = printInt (-1) from rfl,
        parseInt_printInt,
        if_neg (show ¬((0 : Int) ≤ -1) from by decide)]
      rw [show bu + pa + qa = bu from by omega]
    · have hh : (0 : Int) ≤ h := hHv h rfl
      simp only [parseRow,
        show cmFind kLower (expectedColMap false true false) = some 1 from by decide,
        show cmFind kUpper (expectedColMap false true false) = some 2 from by decide,
        show cmFind kSize (expectedColMap false true false) = some 3 from by decide,
        show cmFind kId (expectedColMap false true false) = some 0 from by decide,
        show cmFind kAlignment (expectedColMap false true false) = none from by decide,
        show cmFind kHint (expectedColMap false true false) = some 4 from by decide,
        show cmFind kGaps (expectedColMap false true false) = none from by decide,
        show cmFind kOffset (expectedColMap false true false) = none from by decide,
        getDsome,
        show bufferRecord false true false pa none
            ⟨⟨ids⟩, ⟨bl, bu⟩, sz, 1, [], none, some h⟩ =
          [ids, printInt bl, printInt (bu + pa), printInt sz,
           printInt h] from rfl,
        show getField [ids, printInt bl, printInt (bu + pa), printInt sz,
          printInt h] 0 = ids from rfl,
        show getField [ids, printInt bl, printInt (bu + pa), printInt sz,
          printInt h] 1 = printInt bl from rfl,
        show getField [ids, printInt bl, printInt (bu + pa), printInt sz,
          printInt h] 2 = printInt (bu + pa) from rfl,
        show getField [ids, printInt bl, printInt (bu + pa), printInt sz,
          printInt h] 3 = printInt sz from rfl,
        show getField [ids, printInt bl, printInt (bu + pa), printInt sz,
          printInt h] 4 = printInt h from rfl,
        parseInt_printInt,
        if_pos hh]
      rw [show bu + pa + qa = bu from by omega]
  · -- hint and gaps
    have h1 : al = 1 := hA rfl
    subst h1
    rcases hi with _ | h
    · simp only [parseRow,
        show cmFind kLower (expectedColMap false true true) = some 1 from by decide,
        show cmFind kUpper (expectedColMap false true true) = some 2 from by decide,
        show cmFind kSize (expectedColMap false true true) = some 3 from by decide,
        show cmFind kId (expectedColMap false true true) = some 0 from by decide,
        show cmFind kAlignment (expectedColMap false true true) = none from by decide,
        show cmFind kHint (expectedColMap false true true) = some 4 from by decide,
        show cmFind kGaps (expectedColMap false true true) = some 5 from by decide,
        show cmFind kOffset (expectedColMap false true true) = none from by decide,
        getDsome,
        show bufferRecord false true true pa none
            ⟨⟨ids⟩, ⟨bl, bu⟩, sz, 1, gp, none, none⟩ =
          [ids, printInt bl, printInt (bu + pa), printInt sz,
           printInt (-1), joinWithChar ' ' (gp.map (gapToStr pa))] from rfl,
        show getField [ids, printInt bl, printInt (bu + pa), printInt sz,
          printInt (-1), joinWithChar ' ' (gp.map (gapToStr pa))] 0 =
            ids from rfl,
        show getField [ids, printInt bl, printInt (bu + pa), printInt sz,
          printInt (-1), joinWithChar ' ' (gp.map (gapToStr pa))] 1 =
            printInt bl from rfl,
        show getField [ids, printInt bl, printInt (bu + pa), printInt sz,
          printInt (-1), joinWithChar ' ' (gp.map (gapToStr pa))] 2 =
            printInt (bu + pa) from rfl,
        show getField [ids, printInt bl, printInt (bu + pa), printInt sz,
          printInt (-1), joinWithChar ' ' (gp.map (gapToStr pa))] 3 =
            printInt sz from rfl,
        show getField [ids, printInt bl, printInt (bu + pa), printInt sz,
          printInt (-1), joinWithChar ' ' (gp.map (gapToStr pa))] 4 =
            printInt (-1) from rfl,
        show getField [ids, printInt bl, printInt (bu + pa), printInt sz,
          printInt (-1), joinWithChar ' ' (gp.map (gapToStr pa))] 5 =
            joinWithChar ' ' (gp.map (gapToStr pa)) from rfl,
        parseInt_printInt,
        if_neg (show ¬((0 : Int) ≤ -1) from by decide),
        gapsCell_parse pa qa hpq gp hGb]
      rw [show bu + pa + qa = bu from by omega]
    · have hh : (0 : Int) ≤ h := hHv h rfl
      simp only [parseRow,
        show cmFind kLower (expectedColMap false true true) = some 1 from by decide,
        show cmFind kUpper (expectedColMap false true true) = some 2 from by decide,
        show cmFind kSize (expectedColMap false true true) = some 3 from by decide,
        show cmFind kId (expectedColMap false true true) = some 0 from by decide,
        show cmFind kAlignment (expectedColMap false true true) = none from by decide,
        show cmFind kHint (expectedColMap false true true) = some 4 from by decide,
        show cmFind kGaps (expectedColMap false true true) = some 5 from by decide,
        show cmFind kOffset (expectedColMap false true true) = none from by decide,
        getDsome,
        show bufferRecord false true true pa none
            ⟨⟨ids⟩, ⟨bl, bu⟩, sz, 1, gp, none, some h⟩ =
          [ids, printInt bl, printInt (bu + pa), printInt sz,
           printInt h, joinWithChar ' ' (gp.map (gapToStr pa))] from rfl,
        show getField [ids, printInt bl, printInt (bu + pa), printInt sz,
          printInt h, joinWithChar ' ' (gp.map (gapToStr pa))] 0 =
            ids from rfl,
        show getField [ids, printInt bl, printInt (bu + pa), printInt sz,
          printInt h, joinWithChar ' ' (gp.map (gapToStr pa))] 1 =
            printInt bl from rfl,
        show getField [ids, printInt bl, printInt (bu + pa), printInt sz,
          printInt h, joinWithChar ' ' (gp.map (gapToStr pa))] 2 =
            printInt (bu + pa) from rfl,
        show getField [ids, printInt bl, printInt (bu + pa), printInt sz,
          printInt h, joinWithChar ' ' (gp.map (gapToStr pa))] 3 =
            printInt sz from rfl,
        show getField [ids, printInt bl, printInt (bu + pa), printInt sz,
          printInt h, joinWithChar ' ' (gp.map (gapToStr pa))] 4 =
            printInt h from rfl,
        show getField [ids, printInt bl, printInt (bu + pa), printInt sz,
          printInt h, joinWithChar ' ' (gp.map (gapToStr pa))] 5 =
            joinWithChar ' ' (gp.map (gapToStr pa)) from rfl,
        parseInt_printInt,
        if_pos hh,
        gapsCell_parse pa qa hpq gp hGb]
      rw [show bu + pa + qa = bu from by omega]
  · -- alignment only
    have h2 : hi = none := hH rfl
    have h3 : gp = [] := hG rfl
    subst h2
    subst h3
    simp only [parseRow,
      show cmFind kLower (expectedColMap true false false) = some 1 from by decide,
      show cmFind kUpper (expectedColMap true false false) = some 2 from by decide,
      show cmFind kSize (expectedColMap true false false) = some 3 from by decide,
      show cmFind kId (expectedColMap true false false) = some 0 from by decide,
      show cmFind kAlignment (expectedColMap true false false) = some 4 from by decide,
      show cmFind kHint (expectedColMap true false false) = none from by decide,
      show cmFind kGaps (expectedColMap true false false) = none from by decide,
      show cmFind kOffset (expectedColMap true false false) = none from by decide,
      getDsome,
      show bufferRecord true false false pa none
          ⟨⟨ids⟩, ⟨bl, bu⟩, sz, al, [], none, none⟩ =
        [ids, printInt bl, printInt (bu + pa), printInt sz,
         printInt al] from rfl,
      show getField [ids, printInt bl, printInt (bu + pa), printInt sz,
        printInt al] 0 = ids from rfl,
      show getField [ids, printInt bl, printInt (bu + pa), printInt sz,
        printInt al] 1 = printInt bl from rfl,
      show getField [ids, printInt bl, printInt (bu + pa), printInt sz,
        printInt al] 2 = printInt (bu + pa) from rfl,
      show getField [ids, printInt bl, printInt (bu + pa), printInt sz,
        printInt al] 3 = printInt sz from rfl,
      show getField [ids, printInt bl, printInt (bu + pa), printInt sz,
        printInt al] 4 = printInt al from rfl,
      parseInt_printInt]
    rw [show bu + pa + qa = bu from by omega]
  · -- alignment and gaps
    have h2 : hi = none := hH rfl
    subst h2
    simp only [parseRow,
      show cmFind kLower (expectedColMap true false true) = some 1 from by decide,
      show cmFind kUpper (expectedColMap true false true) = some 2 from by decide,
      show cmFind kSize (expectedColMap true false true) = some 3 from by decide,
      show cmFind kId (expectedColMap true false true) = some 0 from by decide,
      show cmFind kAlignment (expectedColMap true false true) = some 4 from by decide,
      show cmFind kHint (expectedColMap true false true) = none from by decide,
      show cmFind kGaps (expectedColMap true false true) = some 5 from by decide,
      show cmFind kOffset (expectedColMap true false true) = none from by decide,
      getDsome,
      show bufferRecord true false true pa none
          ⟨⟨ids⟩, ⟨bl, bu⟩, sz, al, gp, none, none⟩ =
        [ids, printInt bl, printInt (bu + pa), printInt sz,
         printInt al, joinWithChar ' ' (gp.map (gapToStr pa))] from rfl,
      show getField [ids, printInt bl, printInt (bu + pa), printInt sz,
        printInt al, joinWithChar ' ' (gp.map (gapToStr pa))] 0 =
          ids from rfl,
      show getField [ids, printInt bl, printInt (bu + pa), printInt sz,
        printInt al, joinWithChar ' ' (gp.map (gapToStr pa))] 1 =
          printInt bl from rfl,
      show getField [ids, printInt bl, printInt (bu + pa), printInt sz,
        printInt al, joinWithChar ' ' (gp.map (gapToStr pa))] 2 =
          printInt (bu + pa) from rfl,
      show getField [ids, printInt bl, printInt (bu + pa), printInt sz,
        printInt al, joinWithChar ' ' (gp.map (gapToStr pa))] 3 =
          printInt sz from rfl,
      show getField [ids, printInt bl, printInt (bu + pa), printInt sz,
        printInt al, joinWithChar ' ' (gp.map (gapToStr pa))] 4 =
          printInt al from rfl,
      show getField [ids, printInt bl, printInt (bu + pa), printInt sz,
        printInt al, joinWithChar ' ' (gp.map (gapToStr pa))] 5 =
          joinWithChar ' ' (gp.map (gapToStr pa)) from rfl,
      parseInt_printInt,
      gapsCell_parse pa qa hpq gp hGb]
    rw [show bu + pa + qa = bu from by omega]
  · -- alignment and hint
    have h3 : gp = [] := hG rfl
    subst h3
    rcases hi with _ | h
    · simp only [parseRow,
        show cmFind kLower (expectedColMap true true false) = some 1 from by decide,
        show cmFind kUpper (expectedColMap true true false) = some 2 from by decide,
        show cmFind kSize (expectedColMap true true false) = some 3 from by decide,
        show cmFind kId (expectedColMap true true false) = some 0 from by decide,
        show cmFind kAlignment (expectedColMap true true false) = some 4 from by decide,
        show cmFind kHint (expectedColMap true true false) = some 5 from by decide,
        show cmFind kGaps (expectedColMap true true false) = none from by decide,
        show cmFind kOffset (expectedColMap true true false) = none from by decide,
        getDsome,
        show bufferRecord true true false pa none
            ⟨⟨ids⟩, ⟨bl, bu⟩, sz, al, [], none, none⟩ =
          [ids, printInt bl, printInt (bu + pa), printInt sz,
           printInt al, printInt (-1)] from rfl,
        show getField [ids, printInt bl, printInt (bu + pa), printInt sz,
          printInt al, printInt (-1)] 0 = ids from rfl,
        show getField [ids, printInt bl, printInt (bu + pa), printInt sz,
          printInt al, printInt (-1)] 1 = printInt bl from rfl,
        show getField [ids, printInt bl, printInt (bu + pa), printInt sz,
          printInt al, printInt (-1)] 2 = printInt (bu + pa) from rfl,
        show getField [ids, printInt bl, printInt (bu + pa), printInt sz,
          printInt al, printInt (-1)] 3 = printInt sz from rfl,
        show getField [ids, printInt bl, printInt (bu + pa), printInt sz,
          printInt al, printInt (-1)] 4 = printInt al from rfl,
        show getField [ids, printInt bl, printInt (bu + pa), printInt sz,
          printInt al, printInt (-1)] 5 = printInt (-1) from rfl,
        parseInt_printInt,
        if_neg (show ¬((0 : Int) ≤ -1) from by decide)]
      rw [show bu + pa + qa = bu from by omega]
    · have hh : (0 : Int) ≤ h := hHv h rfl
      simp only [parseRow,
        show cmFind kLower (expectedColMap true true false) = some 1 from by decide,
        show cmFind kUpper (expectedColMap true true false) = some 2 from by decide,
        show cmFind kSize (expectedColMap true true false) = some 3 from by decide,
        show cmFind kId (expectedColMap true true false) = some 0 from by decide,
        show cmFind kAlignment (expectedColMap true true false) = some 4 from by decide,
        show cmFind kHint (expectedColMap true true false) = some 5 from by decide,
        show cmFind kGaps (expectedColMap true true false) = none from by decide,
        show cmFind kOffset (expectedColMap true true false) = none from by decide,
        getDsome,
        show bufferRecord true true false pa none
            ⟨⟨ids⟩, ⟨bl, bu⟩, sz, al, [], none, some h⟩ =
          [ids, printInt bl, printInt (bu + pa), printInt sz,
           printInt al, printInt h] from rfl,
        show getField [ids, printInt bl, printInt (bu + pa), printInt sz,
          printInt al, printInt h] 0 = ids from rfl,
        show getField [ids, printInt bl, printInt (bu + pa), printInt sz,
          printInt al, printInt h] 1 = printInt bl from rfl,
        show getField [ids, printInt bl, printInt (bu + pa), printInt sz,
          printInt al, printInt h] 2 = printInt (bu + pa) from rfl,
        show getField [ids, printInt bl, printInt (bu + pa), printInt sz,
          printInt al, printInt h] 3 = printInt sz from rfl,
        show getField [ids, printInt bl, printInt (bu + pa), printInt sz,
          printInt al, printInt h] 4 = printInt al from rfl,
        show getField [ids, printInt bl, printInt (bu + pa), printInt sz,
          printInt al, printInt h] 5 = printInt h from rfl,
        parseInt_printInt,
        if_pos hh]
      rw [show bu + pa + qa = bu from by omega]
  · -- alignment, hint and gaps
    rcases hi with _ | h
    · simp only [parseRow,
        show cmFind kLower (expectedColMap true true true) = some 1 from by decide,
        show cmFind kUpper (expectedColMap true true true) = some 2 from by decide,
        show cmFind kSize (expectedColMap true true true) = some 3 from by decide,
        show cmFind kId (expectedColMap true true true) = some 0 from by decide,
        show cmFind kAlignment (expectedColMap true true true) = some 4 from by decide,
        show cmFind kHint (expectedColMap true true true) = some 5 from by decide,
        show cmFind kGaps (expectedColMap true true true) = some 6 from by decide,
        show cmFind kOffset (expectedColMap true true true) = none from by decide,
        getDsome,
        show bufferRecord true true true pa none
            ⟨⟨ids⟩, ⟨bl, bu⟩, sz, al, gp, none, none⟩ =
          [ids, printInt bl, printInt (bu + pa), printInt sz,
           printInt al, printInt (-1),
           joinWithChar ' ' (gp.map (gapToStr pa))] from rfl,
        show getField [ids, printInt bl, printInt (bu + pa), printInt sz,
          printInt al, printInt (-1),
          joinWithChar ' ' (gp.map (gapToStr pa))] 0 = ids from rfl,
        show getField [ids, printInt bl, printInt (bu + pa), printInt sz,
          printInt al, printInt (-1),
          joinWithChar ' ' (gp.map (gapToStr pa))] 1 = printInt bl from rfl,
        show getField [ids, printInt bl, printInt (bu + pa), printInt sz,
          printInt al, printInt (-1),
          joinWithChar ' ' (gp.map (gapToStr pa))] 2 =
            printInt (bu + pa) from rfl,
        show getField [ids, printInt bl, printInt (bu + pa), printInt sz,
          printInt al, printInt (-1),
          joinWithChar ' ' (gp.map (gapToStr pa))] 3 = printInt sz from rfl,
        show getField [ids, printInt bl, printInt (bu + pa), printInt sz,
          printInt al, printInt (-1),
          joinWithChar ' ' (gp.map (gapToStr pa))] 4 = printInt al from rfl,
        show getField [ids, printInt bl, printInt (bu + pa), printInt sz,
          printInt al, printInt (-1),
          joinWithChar ' ' (gp.map (gapToStr pa))] 5 = printInt (-1) from rfl,
        show getField [ids, printInt bl, printInt (bu + pa), printInt sz,
          printInt al, printInt (-1),
          joinWithChar ' ' (gp.map (gapToStr pa))] 6 =
            joinWithChar ' ' (gp.map (gapToStr pa)) from rfl,
        parseInt_printInt,
        if_neg (show ¬((0 : Int) ≤ -1) from by decide),
        gapsCell_parse pa qa hpq gp hGb]
      rw [show bu + pa + qa = bu from by omega]
    · have hh : (0 : Int) ≤ h := hHv h rfl
      simp only [parseRow,
        show cmFind kLower (expectedColMap true true true) = some 1 from by decide,
        show cmFind kUpper (expectedColMap true true true) = some 2 from by decide,
        show cmFind kSize (expectedColMap true true true) = some 3 from by decide,
        show cmFind kId (expectedColMap true true true) = some 0 from by decide,
        show cmFind kAlignment (expectedColMap true true true) = some 4 from by decide,
        show cmFind kHint (expectedColMap true true true) = some 5 from by decide,
        show cmFind kGaps (expectedColMap true true true) = some 6 from by decide,
        show cmFind kOffset (expectedColMap true true true) = none from by decide,
        getDsome,
        show bufferRecord true true true pa none
            ⟨⟨ids⟩, ⟨bl, bu⟩, sz, al, gp, none, some h⟩ =
          [ids, printInt bl, printInt (bu + pa), printInt sz,
           printInt al, printInt h,
           joinWithChar ' ' (gp.map (gapToStr pa))] from rfl,
        show getField [ids, printInt bl, printInt (bu + pa), printInt sz,
          printInt al, printInt h,
          joinWithChar ' ' (gp.map (gapToStr pa))] 0 = ids from rfl,
        show getField [ids, printInt bl, printInt (bu + pa), printInt sz,
          printInt al, printInt h,
          joinWithChar ' ' (gp.map (gapToStr pa))] 1 = printInt bl from rfl,
        show getField [ids, printInt bl, printInt (bu + pa), printInt sz,
          printInt al, printInt h,
          joinWithChar ' ' (gp.map (gapToStr pa))] 2 =
            printInt (bu + pa) from rfl,
        show getField [ids, printInt bl, printInt (bu + pa), printInt sz,
          printInt al, printInt h,
          joinWithChar ' ' (gp.map (gapToStr pa))] 3 = printInt sz from rfl,
        show getField [ids, printInt bl, printInt (bu + pa), printInt sz,
          printInt al, printInt h,
          joinWithChar ' ' (gp.map (gapToStr pa))] 4 = printInt al from rfl,
        show getField [ids, printInt bl, printInt (bu + pa), printInt sz,
          printInt al, printInt h,
          joinWithChar ' ' (gp.map (gapToStr pa))] 5 = printInt h from rfl,
        show getField [ids, printInt bl, printInt (bu + pa), printInt sz,
          printInt al, printInt h,
          joinWithChar ' ' (gp.map (gapToStr pa))] 6 =
            joinWithChar ' ' (gp.map (gapToStr pa)) from rfl,
        parseInt_printInt,
        if_pos hh,
        gapsCell_parse pa qa hpq gp hGb]
      rw [show bu + pa + qa = bu from by omega]

end MM

namespace MM

theorem mem_joinWithChar (sep : Char) (parts : List (List Char)) (c : Char)
    (hc : c ∈ joinWithChar sep parts) : c = sep ∨ ∃ x ∈ parts, c ∈ x := by
  induction parts with
  | nil => cases hc
  | cons x parts IH =>
    cases parts with
    | nil => exact Or.inr ⟨x, List.mem_cons_self _ _, hc⟩
    | cons y rest =>
      rw [show joinWithChar sep (x :: y :: rest) =
          x ++ sep :: joinWithChar sep (y :: rest) from rfl] at hc
      rcases List.mem_append.mp hc with h1 | h2
      · exact Or.inr ⟨x, List.mem_cons_self _ _, h1⟩
      · rcases List.mem_cons.mp h2 with rfl | h3
        · exact Or.inl rfl
        · rcases IH h3 with h4 | ⟨z, hz, hcz⟩
          · exact Or.inl h4
          · exact Or.inr ⟨z, List.mem_cons_of_mem _ hz, hcz⟩

theorem mem_bufferRecord (ia ib ig : Bool) (pa : Int) (b : Buffer)
    (x : List Char) (hx : x ∈ bufferRecord ia ib ig pa none b) :
    x = b.id.data ∨ x = printInt b.lifespan.lower ∨
    x = printInt (b.lifespan.upper + pa) ∨ x = printInt b.size ∨
    x = printInt b.alignment ∨ x = printInt (b.hint.getD (-1)) ∨
    x = joinWithChar ' ' (b.gaps.map (gapToStr pa)) := by
  unfold bufferRecord at hx
  rcases List.mem_append.mp hx with h | h
  · rcases List.mem_append.mp h with h | h
    · rcases List.mem_append.mp h with h | h
      · rcases List.mem_append.mp h with h | h
        · rcases List.mem_cons.mp h with rfl | h
          · exact Or.inl rfl
          rcases List.mem_cons.mp h with rfl | h
          · exact Or.inr (Or.inl rfl)
          rcases List.mem_cons.mp h with rfl | h
          · exact Or.inr (Or.inr (Or.inl rfl))
          rcases List.mem_cons.mp h with rfl | h
          · exact Or.inr (Or.inr (Or.inr (Or.inl rfl)))
          cases h
        · rcases ia
          · rw [if_neg (by decide)] at h
            cases h
          · rw [if_pos rfl] at h
            rcases List.mem_cons.mp h with rfl | h
            · exact Or.inr (Or.inr (Or.inr (Or.inr (Or.inl rfl))))
            · cases h
      · rcases ib
        · rw [if_neg (by decide)] at h
          cases h
        · rw [if_pos rfl] at h
          rcases List.mem_cons.mp h with rfl | h
          · exact Or.inr (Or.inr (Or.inr (Or.inr (Or.inr (Or.inl rfl)))))
          · cases h
    · rcases ig
      · rw [if_neg (by decide)] at h
        cases h
      · rw [if_pos rfl] at h
        rcases List.mem_cons.mp h with rfl | h
        · exact Or.inr (Or.inr (Or.inr (Or.inr (Or.inr (Or.inr rfl)))))
        · cases h
  · simp at h

theorem bufferRecord_no_sep (ia ib ig : Bool) (pa : Int) (b : Buffer)
    (hid1 : ',' ∉ b.id.data) (hid2 : '\n' ∉ b.id.data) (x : List Char)
    (hx : x ∈ bufferRecord ia ib ig pa none b) :
    ',' ∉ x ∧ '\n' ∉ x := by
  have hgapsc : ',' ∉ joinWithChar ' ' (b.gaps.map (gapToStr pa)) := by
    intro hm
    rcases mem_joinWithChar _ _ _ hm with he | ⟨z, hz, hcz⟩
    · exact absurd he (by decide)
    · obtain ⟨g, _, rfl⟩ := List.mem_map.mp hz
      exact (gapToStr_chars _ _ _ hcz).2.1 rfl
  have hgapsn : '\n' ∉ joinWithChar ' ' (b.gaps.map (gapToStr pa)) := by
    intro hm
    rcases mem_joinWithChar _ _ _ hm with he | ⟨z, hz, hcz⟩
    · exact absurd he (by decide)
    · obtain ⟨g, _, rfl⟩ := List.mem_map.mp hz
      exact (gapToStr_chars _ _ _ hcz).2.2 rfl
  rcases mem_bufferRecord ia ib ig pa b x hx with
    rfl | rfl | rfl | rfl | rfl | rfl | rfl
  · exact ⟨hid1, hid2⟩
  · exact ⟨printInt_no_comma _, printInt_no_newline _⟩
  · exact ⟨printInt_no_comma _, printInt_no_newline _⟩
  · exact ⟨printInt_no_comma _, printInt_no_newline _⟩
  · exact ⟨printInt_no_comma _, printInt_no_newline _⟩
  · exact ⟨printInt_no_comma _, printInt_no_newline _⟩
  · exact ⟨hgapsc, hgapsn⟩

theorem bufferRecord_length (ia ib ig : Bool) (pa : Int) (b : Buffer) :
    (bufferRecord ia ib ig pa none b).length =
      (expectedColMap ia ib ig).length := by
  rcases ia <;> rcases ib <;> rcases ig <;> rfl

theorem bufferRecord_ne_nil (ia ib ig : Bool) (pa : Int) (b : Buffer) :
    bufferRecord ia ib ig pa none b ≠ [] := by
  unfold bufferRecord
  simp

theorem csvHeader_no_newline (ia ib ig io old : Bool) :
    ∀ x ∈ csvHeader ia ib ig io old, '\n' ∉ x := by
  rcases ia <;> rcases ib <;> rcases ig <;> rcases io <;> rcases old <;>
    decide

theorem isEmpty_false_of_ne_nil {l : List Char} (h : l ≠ []) :
    l.isEmpty = false := by
  cases l
  · exact absurd rfl h
  · rfl

theorem recordLine_ne_nil (ia ib ig : Bool) (pa : Int) (b : Buffer) :
    joinWithChar ',' (bufferRecord ia ib ig pa none b) ≠ [] := by
  rcases ia <;> rcases ib <;> rcases ig <;>
    simp [bufferRecord, joinWithChar]

/-- Consuming one data record appends the parsed buffer and continues. -/
theorem fromCsvGo_row_step (ia ib ig : Bool) (pa qa : Int)
    (hpq : pa + qa = 0) (b : Buffer) (acc : List Buffer)
    (rest : List (List Char))
    (hid1 : ',' ∉ b.id.data) (hid2 : '\n' ∉ b.id.data)
    (hA : ia = false → b.alignment = 1)
    (hH : ib = false → b.hint = none)
    (hHv : ∀ h, b.hint = some h → 0 ≤ h)
    (hG : ig = false → b.gaps = [])
    (hGb : ∀ g ∈ b.gaps, 0 ≤ g.lifespan.lower ∧ 0 ≤ g.lifespan.upper + pa)
    (hOff : b.offset = none) :
    fromCsvGo (expectedColMap ia ib ig) qa acc
        (joinWithChar ',' (bufferRecord ia ib ig pa none b) :: rest) =
      fromCsvGo (expectedColMap ia ib ig) qa (acc ++ [b]) rest := by
  have hsplit : splitOnChar ','
      (joinWithChar ',' (bufferRecord ia ib ig pa none b)) =
      bufferRecord ia ib ig pa none b := by
    apply split_join
    · intro x hx hm
      exact (bufferRecord_no_sep ia ib ig pa b hid1 hid2 x hx).1 hm
    · exact bufferRecord_ne_nil ia ib ig pa b
  have hline : (joinWithChar ','
      (bufferRecord ia ib ig pa none b)).isEmpty = false :=
    isEmpty_false_of_ne_nil (recordLine_ne_nil ia ib ig pa b)
  rw [fromCsvGo]
  rw [hline, if_neg (show ¬(false = true) from by decide)]
  dsimp only
  rw [show (expectedColMap ia ib ig).isEmpty = false from rfl,
    if_neg (show ¬(false = true) from by decide)]
  rw [hsplit, bufferRecord_length,
    if_neg (show ¬((expectedColMap ia ib ig).length ≠
      (expectedColMap ia ib ig).length) from fun hc => hc rfl)]
  rw [parseRow_bufferRecord ia ib ig pa qa hpq b hA hH hHv hG hGb hOff]

end MM

namespace MM

/-- The record loop over the printed buffer rows: each row appends its
buffer; the empty record left by the trailing newline stops the loop
with capacity 0. -/
theorem fromCsvGo_rows (ia ib ig : Bool) (pa qa : Int) (hpq : pa + qa = 0)
    (bs : List Buffer)
    (hb : ∀ b ∈ bs, ',' ∉ b.id.data ∧ '\n' ∉ b.id.data ∧
      (ia = false → b.alignment = 1) ∧ (ib = false → b.hint = none) ∧
      (∀ h, b.hint = some h → 0 ≤ h) ∧ (ig = false → b.gaps = []) ∧
      (∀ g ∈ b.gaps, 0 ≤ g.lifespan.lower ∧ 0 ≤ g.lifespan.upper + pa) ∧
      b.offset = none) :
    ∀ acc, fromCsvGo (expectedColMap ia ib ig) qa acc
        ((bs.map fun b => joinWithChar ','
          (bufferRecord ia ib ig pa none b)) ++ [[]]) =
      .ok { buffers := acc ++ bs, capacity := 0 } := by
  induction bs with
  | nil =>
    intro acc
    rw [List.map_nil, List.nil_append,
      show fromCsvGo (expectedColMap ia ib ig) qa acc [[]] =
        .ok { buffers := acc, capacity := 0 } from rfl,
      List.append_nil]
  | cons b bs IH =>
    intro acc
    obtain ⟨h1, h2, h3, h4, h5, h6, h7, h8⟩ :=
      hb b (List.mem_cons_self _ _)
    rw [List.map_cons, List.cons_append,
      fromCsvGo_row_step ia ib ig pa qa hpq b acc _ h1 h2 h3 h4 h5 h6 h7 h8,
      IH (fun x hx => hb x (List.mem_cons_of_mem _ hx)) (acc ++ [b]),
      List.append_assoc]
    rfl

/-- Gap lifespans printable under both the `upper` and the decremented
`end` conventions. -/
def gapWF (g : Gap) : Prop := 0 ≤ g.lifespan.lower ∧ 1 ≤ g.lifespan.upper

instance (g : Gap) : Decidable (gapWF g) := by
  unfold gapWF
  infer_instance

def hintWF (o : Option Int) : Prop :=
  match o with
  | none => True
  | some h => 0 ≤ h

instance (o : Option Int) : Decidable (hintWF o) := by
  rcases o with _ | h
  · exact inferInstanceAs (Decidable True)
  · exact inferInstanceAs (Decidable (0 ≤ h))

theorem hintWF_nonneg (o : Option Int) (ho : hintWF o) :
    ∀ x, o = some x → 0 ≤ x := by
  rcases o with _ | y
  · intro x hx
    cases hx
  · intro x hx
    cases hx
    exact ho

/-- The well-formedness under which the CSV round trip is exact:
capacity 0 (ToCsv writes no capacity and FromCsv always restores 0), no
buffer offsets (none are written when no solution is attached), ids free
of separator characters, hints nonnegative (`FromCsv` silently drops
negative hints), and gap lifespans with `0 ≤ lower` and `1 ≤ upper`. -/
def CsvWF (p : Problem) : Prop :=
  p.capacity = 0 ∧
  ∀ b ∈ p.buffers, b.offset = none ∧ ',' ∉ b.id.data ∧
    '\n' ∉ b.id.data ∧ hintWF b.hint ∧ ∀ g ∈ b.gaps, gapWF g

instance (p : Problem) : Decidable (CsvWF p) := by
  unfold CsvWF
  infer_instance

/-- **Claim C5** (amended).  With no solution attached,
`FromCsv (ToCsv p)` returns exactly `p` under both the exclusive
`upper` convention and the inclusive `end` convention selected by
`old_format` — provided `p` is CSV-well-formed (`CsvWF`): capacity 0, no
buffer offsets, ids free of `,` and newline, nonnegative hints, and gap
lifespans with `0 ≤ lower` and `1 ≤ upper`.  As stated the claim is
false: `ToCsv` writes no capacity column, so a nonzero capacity never
survives the round trip (`csv_roundtrip_cex`). -/
theorem csv_roundtrip_spec (p : Problem) (hwf : CsvWF p) (old : Bool) :
    FromCsv (ToCsv p none old) = Except.ok p := by
  obtain ⟨hcap, hbuf⟩ := hwf
  unfold FromCsv
  rw [ToCsv_none]
  rw [show ((csvHeader (IncludeAlignment p) (IncludeHint p) (IncludeGaps p)
        false old ::
      p.buffers.map (bufferRecord (IncludeAlignment p) (IncludeHint p)
        (IncludeGaps p) (if old then -1 else 0) none)).map
      fun r => joinWithChar ',' r ++ ['\n']) =
    (((csvHeader (IncludeAlignment p) (IncludeHint p) (IncludeGaps p)
        false old ::
      p.buffers.map (bufferRecord (IncludeAlignment p) (IncludeHint p)
        (IncludeGaps p) (if old then -1 else 0) none)).map
      (joinWithChar ',')).map fun r => r ++ ['\n'])
    from by rw [List.map_map]; rfl]
  rw [split_lines _ ?hnl]
  case hnl =>
    intro l hl
    rw [List.map_cons] at hl
    rcases List.mem_cons.mp hl with rfl | hl2
    · intro hm
      rcases mem_joinWithChar _ _ _ hm with he | ⟨x, hx, hcx⟩
      · exact absurd he (by decide)
      · exact csvHeader_no_newline _ _ _ _ _ x hx hcx
    · obtain ⟨rec, hrec, rfl⟩ := List.mem_map.mp hl2
      obtain ⟨bb, hbb, rfl⟩ := List.mem_map.mp hrec
      intro hm
      rcases mem_joinWithChar _ _ _ hm with he | ⟨x, hx, hcx⟩
      · exact absurd he (by decide)
      · have hh := hbuf bb hbb
        exact (bufferRecord_no_sep _ _ _ _ bb hh.2.1 hh.2.2.1 x hx).2 hcx
  rw [List.map_cons, List.cons_append]
  rw [fromCsvGo_header (IncludeAlignment p) (IncludeHint p)
    (IncludeGaps p) old]
  rw [show (p.buffers.map (bufferRecord (IncludeAlignment p)
      (IncludeHint p) (IncludeGaps p) (if old then -1 else 0) none)).map
        (joinWithChar ',') =
      p.buffers.map fun b => joinWithChar ','
        (bufferRecord (IncludeAlignment p) (IncludeHint p) (IncludeGaps p)
          (if old then -1 else 0) none b)
    from by rw [List.map_map]; rfl]
  rw [fromCsvGo_rows (IncludeAlignment p) (IncludeHint p) (IncludeGaps p)
    (if old then -1 else 0) (if old then 1 else 0)
    (by cases old <;> simp) p.buffers ?hball []]
  case hball =>
    intro x hx
    have hh := hbuf x hx
    refine ⟨hh.2.1, hh.2.2.1, ?_, ?_, hintWF_nonneg _ hh.2.2.2.1, ?_,
      ?_, hh.1⟩
    · intro hfalse
      unfold IncludeAlignment at hfalse
      simp at hfalse
      exact hfalse x hx
    · intro hfalse
      unfold IncludeHint at hfalse
      simp at hfalse
      exact hfalse x hx
    · intro hfalse
      unfold IncludeGaps at hfalse
      simp at hfalse
      exact hfalse x hx
    · intro g hg
      have hgwf := hh.2.2.2.2 g hg
      exact ⟨hgwf.1, by rcases hgwf with ⟨_, h2⟩; cases old <;> simp <;> omega⟩
  rw [List.nil_append, ← hcap]

/-- A concrete CSV-well-formed problem for the C5 witness: two buffers
exercising negative lifespans, alignment, hint, and both windowless and
windowed gaps. -/
def csvWitProblem : Problem :=
  { buffers :=
      [{ id := String.mk ['b', '1'], lifespan := ⟨1, 4⟩, size := 2 },
       { id := String.mk ['b', '2'], lifespan := ⟨-3, 9⟩, size := 5,
         alignment := 2,
         gaps := [⟨⟨0, 2⟩, none⟩, ⟨⟨3, 5⟩, some ⟨-1, 4⟩⟩],
         hint := some 7 }],
    capacity := 0 }

/-- Witness for the amended C5: the concrete problem round-trips exactly
under both formats. -/
theorem csv_roundtrip_spec_witness :
    CsvWF csvWitProblem ∧
    FromCsv (ToCsv csvWitProblem none false) = Except.ok csvWitProblem ∧
    FromCsv (ToCsv csvWitProblem none true) = Except.ok csvWitProblem :=
  ⟨by decide, csv_roundtrip_spec csvWitProblem (by decide) false,
    csv_roundtrip_spec csvWitProblem (by decide) true⟩

end MM
